import Mathlib

/-!
# Bead packet (bead.hpp / bead.cpp): wire codec, matcher, nonce and cache

A shallow embedding of `ndn::Bead`.  The two source files are `bead.hpp` and
`bead.cpp`; the TLV block primitives, `Name`, `Selectors`, `Exclude`,
`KeyLocator`, `Link` and `Data` are collaborators whose sources are elsewhere.
They appear here either as small models of the NDN TLV format or as parameters
(`Env`, `TlvTypes`).
-/

namespace ndn

/-! ## Bytes and TLV numbers -/

/-- An octet of a buffer, kept as a natural number (below 256 in every buffer
the encoder writes). -/
abbrev Byte := Nat

/-- The `k` low-order octets of `n`, most significant first (network order). -/
def beBytes : Nat → Nat → List Byte
  | 0, _ => []
  | k + 1, n => beBytes k (n / 256) ++ [n % 256]

/-- Value of a big-endian octet string. -/
def beValue (bs : List Byte) : Nat :=
  bs.foldl (fun acc b => acc * 256 + b) 0

/-- Modelled from the spec: `tlv::sizeOfVarNumber`, the number of octets of a
TLV type or length (NDN packet format: 1, 3, 5 or 9 octets). -/
def sizeOfVarNumber (n : Nat) : Nat :=
  if n < 253 then 1
  else if n ≤ 65535 then 3
  else if n ≤ 4294967295 then 5
  else 9

/-- Modelled from the spec: `tlv::writeVarNumber`, the octets of a TLV type or
length; the argument is a `uint64_t`. -/
def writeVarNumber (n : Nat) : List Byte :=
  if n < 253 then [n]
  else if n ≤ 65535 then 253 :: beBytes 2 n
  else if n ≤ 4294967295 then 254 :: beBytes 4 n
  else 255 :: beBytes 8 n

/-- Modelled from the spec: `tlv::readVarNumber`; `none` stands for the thrown
`tlv::Error` on a truncated buffer. -/
def readVarNumber : List Byte → Option (Nat × List Byte)
  | [] => none
  | b :: rest =>
    if b < 253 then some (b, rest)
    else if b = 253 then
      (if rest.length < 2 then none else some (beValue (rest.take 2), rest.drop 2))
    else if b = 254 then
      (if rest.length < 4 then none else some (beValue (rest.take 4), rest.drop 4))
    else
      (if rest.length < 8 then none else some (beValue (rest.take 8), rest.drop 8))

/-- Modelled from the spec: `tlv::sizeOfNonNegativeInteger`. -/
def sizeOfNonNegativeInteger (n : Nat) : Nat :=
  if n ≤ 255 then 1
  else if n ≤ 65535 then 2
  else if n ≤ 4294967295 then 4
  else 8

/-- Modelled from the spec: `tlv::writeNonNegativeInteger`, a 1, 2, 4 or 8
octet big-endian integer (the argument is a `uint64_t`). -/
def writeNonNegativeInteger (n : Nat) : List Byte :=
  beBytes (sizeOfNonNegativeInteger n) n

/-- Modelled from the spec: `tlv::readNonNegativeInteger` on a value of the
given octets; `none` stands for the thrown `tlv::Error` when the size is not
1, 2, 4 or 8. -/
def readNonNegativeIntegerBytes (bs : List Byte) : Option Nat :=
  if bs.length = 1 ∨ bs.length = 2 ∨ bs.length = 4 ∨ bs.length = 8 then
    some (beValue bs)
  else none

/-! ## Blocks -/

/-- Modelled from the spec: a TLV `Block`.  `hdr` holds the type and length
octets as they stand in the buffer, `value` the value octets; `hasWire` is
false for a block that owns no buffer (a default-constructed block). -/
structure Block where
  type : Nat
  hdr : List Byte
  value : List Byte
  hasWire : Bool
  deriving DecidableEq, Repr

namespace Block

/-- The default-constructed `Block()`: no buffer, type `uint32_t` maximum. -/
def empty : Block :=
  { type := 4294967295, hdr := [], value := [], hasWire := false }

/-- All octets of the block: `[begin(), end())`. -/
def wire (b : Block) : List Byte := b.hdr ++ b.value

/-- `Block::size()`. -/
def size (b : Block) : Nat := b.wire.length

/-- `Block::value_size()`: zero for a block without a buffer. -/
def value_size (b : Block) : Nat := if b.hasWire then b.value.length else 0

/-- A block with a freshly written canonical header, as the encoder makes. -/
def make (t : Nat) (v : List Byte) : Block :=
  { type := t, hdr := writeVarNumber t ++ writeVarNumber v.length, value := v, hasWire := true }

/-- `operator==` on blocks: same octets. -/
def same (a b : Block) : Bool := decide (a.wire = b.wire)

end Block

/-- Read one TLV element off the front of a buffer: the type (a `uint32_t`,
`tlv::readType`), the length, then that many value octets. -/
def readElement (bs : List Byte) : Option (Block × List Byte) :=
  match readVarNumber bs with
  | none => none
  | some (t, r1) =>
    if 4294967295 < t then none
    else
      match readVarNumber r1 with
      | none => none
      | some (len, r2) =>
        if r2.length < len then none
        else some ({ type := t, hdr := bs.take (bs.length - r2.length),
                     value := r2.take len, hasWire := true }, r2.drop len)

/-- Modelled from the spec: the loop of `Block::parse`, with `fuel` bounding the
number of elements; `none` stands for the thrown `tlv::Error`. -/
def parseElements : Nat → List Byte → Option (List Block)
  | _, [] => some []
  | 0, _ :: _ => none
  | fuel + 1, b :: bs =>
    match readElement (b :: bs) with
    | none => none
    | some (e, rest) =>
      match parseElements fuel rest with
      | none => none
      | some es => some (e :: es)

/-- `Block::parse` followed by `elements()`: the sub-elements of the value;
`parse` returns at once when the value is empty. -/
def Block.elements (b : Block) : Option (List Block) :=
  if b.value_size = 0 then some [] else parseElements b.value.length b.value

/-- Offset, within the concatenated octets of `es`, of the value of the first
element of type `t`. -/
def valueOffsetOf (t : Nat) : List Block → Option Nat
  | [] => none
  | e :: es =>
    if e.type == t then some e.hdr.length
    else (valueOffsetOf t es).map (fun k => e.size + k)

/-- Overwrite the octets of `xs` from position `k` on with `ys` (`memcpy`). -/
def patch (xs : List Byte) (k : Nat) (ys : List Byte) : List Byte :=
  xs.take k ++ ys ++ xs.drop (k + ys.length)

/-- The elements `es` with the value of the first element of type `t` replaced
by `w`: what the elements of a block are after `w` is written over that value. -/
def setValueOf (t : Nat) (w : List Byte) : List Block → List Block
  | [] => []
  | e :: es =>
    if e.type == t then { e with value := w } :: es
    else e :: setValueOf t w es

/-- The four octets of a `uint32_t` in memory (host order, little-endian). -/
def word32Bytes (x : Nat) : List Byte :=
  [x % 256, x / 256 % 256, x / 65536 % 256, x / 16777216 % 256]

/-- The `uint32_t` read from four octets in memory (host order). -/
def bytesWord32 : List Byte → Nat
  | [a, b, c, d] => a % 256 + 256 * (b % 256) + 65536 * (c % 256) + 16777216 * (d % 256)
  | _ => 0

/-- The exceptions the Bead code lets out. -/
inductive Error
  /-- A `tlv::Error` or `Block::Error` of the block primitives or of a
  collaborator's decoder. -/
  | tlv
  /-- A `Bead::Error`. -/
  | bead
  /-- A `std::invalid_argument`. -/
  | invalidArgument
  /-- A `std::out_of_range`: the kind `bead.hpp` documents for
  `setSelectedDelegation(size_t)`; no statement of `bead.cpp` throws it. -/
  | outOfRange
  /-- A failed `BOOST_ASSERT`: the program is aborted and the call does not
  return (the check is live unless the code is compiled with `NDEBUG`). -/
  | assertion
  deriving DecidableEq, Repr

/-! ## Encoders -/

/-- The two instantiations of `EncodingImpl<TAG>`. -/
inductive Tag
  | EncoderTag
  | EstimatorTag
  deriving DecidableEq, Repr

/-- State of an `EncodingImpl<TAG>`: the octets written so far (new octets go in
front).  The estimator writes nothing and leaves it as it is. -/
abbrev EncodingImpl (_tag : Tag) : Type := List Byte

/-- `prependByteArray`. -/
def prependByteArray (tag : Tag) (encoder : EncodingImpl tag) (bs : List Byte) :
    Nat × EncodingImpl tag :=
  match tag with
  | .EncoderTag => (bs.length, bs ++ encoder)
  | .EstimatorTag => (bs.length, encoder)

/-- `prependVarNumber`: returns 1, 3, 5 or 9. -/
def prependVarNumber (tag : Tag) (encoder : EncodingImpl tag) (n : Nat) :
    Nat × EncodingImpl tag :=
  match tag with
  | .EncoderTag => (sizeOfVarNumber n, writeVarNumber n ++ encoder)
  | .EstimatorTag => (sizeOfVarNumber n, encoder)

/-- `prependNonNegativeInteger`: returns 1, 2, 4 or 8. -/
def prependNonNegativeInteger (tag : Tag) (encoder : EncodingImpl tag) (n : Nat) :
    Nat × EncodingImpl tag :=
  match tag with
  | .EncoderTag => (sizeOfNonNegativeInteger n, writeNonNegativeInteger n ++ encoder)
  | .EstimatorTag => (sizeOfNonNegativeInteger n, encoder)

/-- `prependByteArrayBlock(encoder, type, array, arraySize)`. -/
def prependByteArrayBlock (tag : Tag) (encoder : EncodingImpl tag) (type : Nat)
    (array : List Byte) : Nat × EncodingImpl tag :=
  let (n1, encoder) := prependByteArray tag encoder array
  let (n2, encoder) := prependVarNumber tag encoder array.length
  let (n3, encoder) := prependVarNumber tag encoder type
  (n1 + n2 + n3, encoder)

/-- `prependNonNegativeIntegerBlock(encoder, type, value)`. -/
def prependNonNegativeIntegerBlock (tag : Tag) (encoder : EncodingImpl tag) (type : Nat)
    (value : Nat) : Nat × EncodingImpl tag :=
  let (valueLength, encoder) := prependNonNegativeInteger tag encoder value
  let (n2, encoder) := prependVarNumber tag encoder valueLength
  let (n3, encoder) := prependVarNumber tag encoder type
  (valueLength + n2 + n3, encoder)

/-- `prependBlock`: the octets of a block that has a buffer are copied as they
are (the estimator adds `block.size()`); a block without one is written from its
type and its (empty) value. -/
def prependBlock (tag : Tag) (encoder : EncodingImpl tag) (block : Block) :
    Nat × EncodingImpl tag :=
  if block.hasWire then prependByteArray tag encoder block.wire
  else prependByteArrayBlock tag encoder block.type []

/-- `Block(buffer)` with length verification: the buffer holds exactly one
element. -/
def Block.fromBuffer (bs : List Byte) : Option Block :=
  match readElement bs with
  | some (b, []) => some b
  | _ => none

/-- Concatenated octets of a list of blocks. -/
def wireOf (es : List Block) : List Byte := (es.map Block.wire).flatten

/-- `Block::find(type)`: the first element of that type. -/
def findType (t : Nat) (es : List Block) : Option Block :=
  es.find? (fun e => e.type == t)

/-- A block is well formed when it has a buffer and reading its octets gives
the block back. -/
def Block.WF (b : Block) : Prop :=
  b.hasWire = true ∧ readElement b.wire = some (b, [])

instance (b : Block) : Decidable b.WF := by
  unfold Block.WF; infer_instance

/-- What an encoder holds after `bs` is prepended: the estimator keeps no
octets. -/
def emit (tag : Tag) (encoder : EncodingImpl tag) (bs : List Byte) : EncodingImpl tag :=
  match tag with
  | .EncoderTag => bs ++ encoder
  | .EstimatorTag => encoder

/-- The element `prependBlock` writes for a block: the block itself when it has
a buffer, else an element of the block's type with an empty value. -/
def Block.asWritten (b : Block) : Block :=
  if b.hasWire then b else Block.make b.type []

/-! ## Collaborators -/

/-- TLV type numbers of `tlv.hpp` that the Bead code names.  The header is not
among the sources, so the numbers are parameters. -/
structure TlvTypes where
  Bead : Nat
  Name : Nat
  Selectors : Nat
  Token : Nat
  Nonce : Nat
  BeadLifetime : Nat
  Data : Nat
  SelectedDelegation : Nat
  KeyLocator : Nat
  deriving DecidableEq, Repr

/-- The element types of a Bead are pairwise different Name, Selectors, Token,
Nonce, BeadLifetime, Data and SelectedDelegation numbers, and these and the Bead
number are `uint32_t` values. -/
def TypesOk (T : TlvTypes) : Prop :=
  [T.Name, T.Selectors, T.Token, T.Nonce, T.BeadLifetime, T.Data, T.SelectedDelegation].Nodup ∧
  ∀ t ∈ [T.Bead, T.Name, T.Selectors, T.Token, T.Nonce, T.BeadLifetime, T.Data,
    T.SelectedDelegation], t ≤ 4294967295

instance (T : TlvTypes) : Decidable (TypesOk T) := by
  unfold TypesOk; infer_instance

/-- Modelled from the spec: the selector bundle (`selectors.hpp`).  The integer
fields are C++ `int`s; a negative value means "not set". -/
structure Selectors (Excl KL : Type) where
  m_minSuffixComponents : Int
  m_maxSuffixComponents : Int
  m_publisherPublicKeyLocator : KL
  m_exclude : Excl
  m_childSelector : Int
  m_mustBeFresh : Bool
  deriving DecidableEq, Repr

/-- The operations of the collaborating classes that `bead.cpp` calls.  `Comp` is
a name component, `Excl` an exclude filter, `KL` a key locator; a `Name` is the
list of its components. -/
structure Env (Comp Excl KL : Type) where
  /-- The TLV type numbers. -/
  tlv : TlvTypes
  /-- `name::Component::isImplicitSha256Digest`. -/
  isImplicitSha256Digest : Comp → Bool
  /-- `Exclude::empty`. -/
  excludeEmpty : Excl → Bool
  /-- `Exclude::isExcluded`. -/
  isExcluded : Excl → Comp → Bool
  /-- `KeyLocator::empty`. -/
  keyLocatorEmpty : KL → Bool
  /-- `KeyLocator::wireEncode()`. -/
  keyLocatorWireEncode : KL → Block
  /-- The default-constructed `Exclude()`. -/
  defaultExclude : Excl
  /-- The default-constructed `KeyLocator()`. -/
  defaultKeyLocator : KL
  /-- Value octets of the Name element that `Name::wireEncode` writes. -/
  nameValue : List Comp → List Byte
  /-- `Name::wireDecode`; `none` stands for a thrown error. -/
  nameWireDecode : Block → Option (List Comp)
  /-- Value octets of the Selectors element that `Selectors::wireEncode` writes. -/
  selectorsValue : Selectors Excl KL → List Byte
  /-- `Selectors::wireDecode`; `none` stands for a thrown error. -/
  selectorsWireDecode : Block → Option (Selectors Excl KL)
  /-- `Link::countDelegationsFromWire`; `none` stands for a thrown error. -/
  countDelegationsFromWire : Block → Option Nat
  /-- `Link(block).getDelegations().size()`; `none` stands for a thrown error. -/
  linkDelegationsSize : Block → Option Nat
  /-- `Link::findDelegationFromWire`: the index of the delegation of that name, or
  the invalid index; `none` stands for a thrown error. -/
  findDelegationFromWire : Block → List Comp → Option Nat

/-- Modelled from the spec: a content object as the matcher sees it: its name,
its full name (the name with the implicit digest; the object is encoded, so
`getFullName()` returns it) and the parsed elements of its signature info. -/
structure Data (Comp : Type) where
  name : List Comp
  fullName : List Comp
  signatureInfo : List Block

section Model

variable {Comp Excl KL : Type} [DecidableEq Comp]

/-- Modelled from the spec: `Selectors()`, every field at its default. -/
def Selectors.default (E : Env Comp Excl KL) : Selectors Excl KL :=
  { m_minSuffixComponents := -1, m_maxSuffixComponents := -1,
    m_publisherPublicKeyLocator := E.defaultKeyLocator, m_exclude := E.defaultExclude,
    m_childSelector := -1, m_mustBeFresh := false }

/-- Modelled from the spec: `Selectors::empty`, no selector field is set. -/
def Selectors.empty (E : Env Comp Excl KL) (s : Selectors Excl KL) : Bool :=
  decide (s.m_minSuffixComponents < 0) && decide (s.m_maxSuffixComponents < 0) &&
  E.keyLocatorEmpty s.m_publisherPublicKeyLocator && E.excludeEmpty s.m_exclude &&
  decide (s.m_childSelector < 0) && !s.m_mustBeFresh

/-! ## The Bead packet -/

/-- `INVALID_SELECTED_DELEGATION_INDEX`, the `size_t` maximum. -/
def INVALID_SELECTED_DELEGATION_INDEX : Nat := 18446744073709551615

/-- `DEFAULT_Bead_LIFETIME`, in milliseconds. -/
def DEFAULT_Bead_LIFETIME : Int := 4000

/-- `time::milliseconds::min()`, the lifetime of a bead that has none. -/
def millisecondsMin : Int := -9223372036854775808

/-- The data members of `class Bead`.  `nonceOffset` is a ghost field: when it is
`some k`, the value octets of `m_nonce` are the octets of `m_wire.value` from
position `k` on (the two blocks share one buffer, as after `wireDecode`);
`none` means `m_nonce` has a buffer of its own. -/
structure Bead (Comp Excl KL : Type) where
  m_name : List Comp
  m_selectors : Selectors Excl KL
  m_nonce : Block
  m_token : Block
  m_BeadLifetime : Int
  m_link : Block
  m_selectedDelegationIndex : Nat
  m_wire : Block
  nonceOffset : Option Nat

namespace Bead

/-- `Bead::Bead(const Name&, const time::milliseconds&)`. -/
def mk2 (E : Env Comp Excl KL) (name : List Comp) (lifetime : Int) : Bead Comp Excl KL :=
  { m_name := name, m_selectors := Selectors.default E, m_nonce := Block.empty,
    m_token := Block.empty, m_BeadLifetime := lifetime, m_link := Block.empty,
    m_selectedDelegationIndex := INVALID_SELECTED_DELEGATION_INDEX,
    m_wire := Block.empty, nonceOffset := none }

/-- `Bead::Bead(const Name&)`. -/
def mk1 (E : Env Comp Excl KL) (name : List Comp) : Bead Comp Excl KL :=
  mk2 E name millisecondsMin

/-- `Bead::Bead()`. -/
def mk0 (E : Env Comp Excl KL) : Bead Comp Excl KL := mk1 E []

/-- `Bead::hasWire`. -/
def hasWire (b : Bead Comp Excl KL) : Bool := b.m_wire.hasWire

/-- `Bead::hasNonce`. -/
def hasNonce (b : Bead Comp Excl KL) : Bool := b.m_nonce.hasWire

/-- `Bead::hasLink`. -/
def hasLink (b : Bead Comp Excl KL) : Bool := b.m_link.hasWire

/-- `Bead::hasSelectedDelegation`. -/
def hasSelectedDelegation (b : Bead Comp Excl KL) : Bool :=
  decide (b.m_selectedDelegationIndex ≠ INVALID_SELECTED_DELEGATION_INDEX)

/-- `Bead::hasSelectors`. -/
def hasSelectors (E : Env Comp Excl KL) (b : Bead Comp Excl KL) : Bool :=
  !Selectors.empty E b.m_selectors

/-- `Bead::getMinSuffixComponents`. -/
def getMinSuffixComponents (b : Bead Comp Excl KL) : Int :=
  b.m_selectors.m_minSuffixComponents

/-- `Bead::getMaxSuffixComponents`. -/
def getMaxSuffixComponents (b : Bead Comp Excl KL) : Int :=
  b.m_selectors.m_maxSuffixComponents

/-- `Bead::getExclude`. -/
def getExclude (b : Bead Comp Excl KL) : Excl := b.m_selectors.m_exclude

/-- `Bead::getPublisherPublicKeyLocator`. -/
def getPublisherPublicKeyLocator (b : Bead Comp Excl KL) : KL :=
  b.m_selectors.m_publisherPublicKeyLocator

/-- `Bead::getBeadLifetime`. -/
def getBeadLifetime (b : Bead Comp Excl KL) : Int := b.m_BeadLifetime

/-- `m_wire.reset()`: the cached block is dropped; a nonce block that shared
its buffer keeps the octets but no longer lies inside `m_wire`. -/
def resetWire (b : Bead Comp Excl KL) : Bead Comp Excl KL :=
  { b with m_wire := Block.empty, nonceOffset := none }

/-- `Bead::setName`. -/
def setName (b : Bead Comp Excl KL) (name : List Comp) : Bead Comp Excl KL :=
  resetWire { b with m_name := name }

/-- `Bead::setBeadLifetime`. -/
def setBeadLifetime (b : Bead Comp Excl KL) (lifetime : Int) : Bead Comp Excl KL :=
  resetWire { b with m_BeadLifetime := lifetime }

/-- `Bead::setSelectors`. -/
def setSelectors (b : Bead Comp Excl KL) (s : Selectors Excl KL) : Bead Comp Excl KL :=
  resetWire { b with m_selectors := s }

/-- `Bead::setMinSuffixComponents`. -/
def setMinSuffixComponents (b : Bead Comp Excl KL) (v : Int) : Bead Comp Excl KL :=
  resetWire { b with m_selectors := { b.m_selectors with m_minSuffixComponents := v } }

/-- `Bead::setMaxSuffixComponents`. -/
def setMaxSuffixComponents (b : Bead Comp Excl KL) (v : Int) : Bead Comp Excl KL :=
  resetWire { b with m_selectors := { b.m_selectors with m_maxSuffixComponents := v } }

/-- `Bead::setPublisherPublicKeyLocator`. -/
def setPublisherPublicKeyLocator (b : Bead Comp Excl KL) (k : KL) : Bead Comp Excl KL :=
  resetWire { b with m_selectors := { b.m_selectors with m_publisherPublicKeyLocator := k } }

/-- `Bead::setExclude`. -/
def setExclude (b : Bead Comp Excl KL) (ex : Excl) : Bead Comp Excl KL :=
  resetWire { b with m_selectors := { b.m_selectors with m_exclude := ex } }

/-- `Bead::setChildSelector`. -/
def setChildSelector (b : Bead Comp Excl KL) (v : Int) : Bead Comp Excl KL :=
  resetWire { b with m_selectors := { b.m_selectors with m_childSelector := v } }

/-- `Bead::setMustBeFresh`. -/
def setMustBeFresh (b : Bead Comp Excl KL) (v : Bool) : Bead Comp Excl KL :=
  resetWire { b with m_selectors := { b.m_selectors with m_mustBeFresh := v } }

/-! ### Matching -/

/-- `Bead::matchesName`. -/
def matchesName (E : Env Comp Excl KL) (b : Bead Comp Excl KL) (name : List Comp) : Bool :=
  if name.length < b.m_name.length then false
  else if !(b.m_name.isPrefixOf name) then false
  else if 0 ≤ b.getMinSuffixComponents ∧
      ¬ (b.getMinSuffixComponents.toNat ≤ name.length - b.m_name.length) then false
  else if 0 ≤ b.getMaxSuffixComponents ∧
      ¬ (name.length - b.m_name.length ≤ b.getMaxSuffixComponents.toNat) then false
  else if !E.excludeEmpty b.getExclude && decide (b.m_name.length < name.length) &&
      (match name[b.m_name.length]? with
       | some c => E.isExcluded b.getExclude c
       | none => false) then false
  else true

/-- The key-locator step of `Bead::matchesData`: `false` is "return false",
`true` is "fall through". -/
def keyLocatorStep (E : Env Comp Excl KL) (b : Bead Comp Excl KL) (data : Data Comp) : Bool :=
  if !E.keyLocatorEmpty b.getPublisherPublicKeyLocator then
    match findType E.tlv.KeyLocator data.signatureInfo with
    | none => false
    | some it =>
      if !(E.keyLocatorWireEncode b.getPublisherPublicKeyLocator).same it then false
      else true
  else true

/-- The exclude step of `Bead::matchesData` ("check Exclude"): `false` is
"return false".  A component read past the end of a name (only possible when
the full name is not one component longer than the name) excludes nothing. -/
def excludeStep (E : Env Comp Excl KL) (b : Bead Comp Excl KL) (data : Data Comp) : Bool :=
  let BeadNameLength := b.m_name.length
  let fullNameLength := data.name.length + 1
  if !E.excludeEmpty b.getExclude && decide (BeadNameLength < fullNameLength) then
    if BeadNameLength = fullNameLength - 1 then
      match data.fullName[BeadNameLength]? with
      | some c => !E.isExcluded b.getExclude c
      | none => true
    else
      match data.name[BeadNameLength]? with
      | some c => !E.isExcluded b.getExclude c
      | none => true
  else true

/-- The name step of `Bead::matchesData` ("check prefix"): `false` is "return
false".  `m_name.get(-1)` is the last component. -/
def prefixStep (E : Env Comp Excl KL) (b : Bead Comp Excl KL) (data : Data Comp) : Bool :=
  let BeadNameLength := b.m_name.length
  let fullNameLength := data.name.length + 1
  if BeadNameLength = fullNameLength then
    match b.m_name.getLast? with
    | some last =>
      if E.isImplicitSha256Digest last then
        (if b.m_name ≠ data.fullName then false else true)
      else false
    | none => false
  else
    (if !(b.m_name.isPrefixOf data.name) then false else true)

/-- `Bead::matchesData`. -/
def matchesData (E : Env Comp Excl KL) (b : Bead Comp Excl KL) (data : Data Comp) : Bool :=
  let BeadNameLength := b.m_name.length
  let fullNameLength := data.name.length + 1
  let hasMinSuffixComponents := decide (0 ≤ b.getMinSuffixComponents)
  let minSuffixComponents :=
    if hasMinSuffixComponents then b.getMinSuffixComponents.toNat else 0
  if ¬ (BeadNameLength + minSuffixComponents ≤ fullNameLength) then false
  else
    let hasMaxSuffixComponents := decide (0 ≤ b.getMaxSuffixComponents)
    if hasMaxSuffixComponents ∧
        ¬ (fullNameLength ≤ BeadNameLength + b.getMaxSuffixComponents.toNat) then false
    else if !prefixStep E b data then false
    else if !excludeStep E b data then false
    else keyLocatorStep E b data

/-! ### Link and selected delegation -/

/-- `Bead::unsetSelectedDelegation`. -/
def unsetSelectedDelegation (b : Bead Comp Excl KL) : Bead Comp Excl KL :=
  resetWire { b with m_selectedDelegationIndex := INVALID_SELECTED_DELEGATION_INDEX }

/-- `Bead::setLink`: the block is stored before it is checked. -/
def setLink (b : Bead Comp Excl KL) (link : Block) : Except Error Unit × Bead Comp Excl KL :=
  let b := { b with m_link := link }
  if !link.hasWire then (.error .bead, b)
  else (.ok (), unsetSelectedDelegation (resetWire b))

/-- `Bead::unsetLink`. -/
def unsetLink (b : Bead Comp Excl KL) : Bead Comp Excl KL :=
  unsetSelectedDelegation (resetWire { b with m_link := Block.empty })

/-- `Bead::setSelectedDelegation(const Name&)`. -/
def setSelectedDelegationName (E : Env Comp Excl KL) (b : Bead Comp Excl KL)
    (delegationName : List Comp) : Except Error Unit × Bead Comp Excl KL :=
  match E.findDelegationFromWire b.m_link delegationName with
  | none => (.error .tlv, b)
  | some delegationIndex =>
    if delegationIndex ≠ INVALID_SELECTED_DELEGATION_INDEX then
      (.ok (), resetWire { b with m_selectedDelegationIndex := delegationIndex })
    else (.error .invalidArgument, b)

/-- `Bead::setSelectedDelegation(size_t)`. -/
def setSelectedDelegation (E : Env Comp Excl KL) (b : Bead Comp Excl KL)
    (delegationIndex : Nat) : Except Error Unit × Bead Comp Excl KL :=
  match E.linkDelegationsSize b.m_link with
  | none => (.error .tlv, b)
  | some size =>
    if size ≤ delegationIndex then (.error .bead, b)
    else (.ok (), resetWire { b with m_selectedDelegationIndex := delegationIndex })

/-! ### Nonce and token -/

/-- `Bead::setNonce`.  With a cached wire and a four-octet nonce the four octets
are overwritten where they lie (inside the cached wire when the nonce block
shares its buffer); otherwise a new Nonce block is made and the cache dropped. -/
def setNonce (E : Env Comp Excl KL) (b : Bead Comp Excl KL) (nonce : Nat) : Bead Comp Excl KL :=
  if b.m_wire.hasWire && decide (b.m_nonce.value_size = 4) then
    { b with
      m_nonce := { b.m_nonce with value := word32Bytes nonce }
      m_wire :=
        match b.nonceOffset with
        | some k => { b.m_wire with value := patch b.m_wire.value k (word32Bytes nonce) }
        | none => b.m_wire }
  else
    resetWire { b with m_nonce := Block.make E.tlv.Nonce (word32Bytes nonce) }

/-- `Bead::getNonce`; `rnd` is the word `random::generateWord32()` returns if it
is called.  The result is a `uint32_t`. -/
def getNonce (E : Env Comp Excl KL) (b : Bead Comp Excl KL) (rnd : Nat) :
    Except Error Nat × Bead Comp Excl KL :=
  let b := if !b.m_nonce.hasWire then b.setNonce E rnd else b
  if b.m_nonce.value_size = 4 then (.ok (bytesWord32 b.m_nonce.value), b)
  else
    match readNonNegativeIntegerBytes b.m_nonce.value with
    | some v => (.ok (v % 4294967296), b)
    | none => (.error .tlv, b)

/-- `Bead::setToken`; the string is the list of its octets. -/
def setToken (E : Env Comp Excl KL) (b : Bead Comp Excl KL) (token : List Byte) :
    Bead Comp Excl KL :=
  resetWire { b with m_token := Block.make E.tlv.Token token }

/-- `Bead::getToken`. -/
def getToken (E : Env Comp Excl KL) (b : Bead Comp Excl KL) : List Byte × Bead Comp Excl KL :=
  let b := if b.m_token.value_size = 0 then b.setToken E [] else b
  (b.m_token.value, b)

/-! ### Wire encoding -/

/-- `Name::wireEncode(encoder)`: the Name element. -/
def nameWireEncodeT (E : Env Comp Excl KL) (tag : Tag) (encoder : EncodingImpl tag)
    (name : List Comp) : Nat × EncodingImpl tag :=
  prependByteArrayBlock tag encoder E.tlv.Name (E.nameValue name)

/-- `Selectors::wireEncode(encoder)`: the Selectors element. -/
def selectorsWireEncodeT (E : Env Comp Excl KL) (tag : Tag) (encoder : EncodingImpl tag)
    (s : Selectors Excl KL) : Nat × EncodingImpl tag :=
  prependByteArrayBlock tag encoder E.tlv.Selectors (E.selectorsValue s)

/-- `Bead::wireEncode(EncodingImpl<TAG>&)`: the fields are prepended last to
first.  The result is the returned length and the encoder afterwards, with the
bead as `getNonce()` leaves it.  In the branch without a link,
`BOOST_ASSERT(!hasSelectedDelegation())` aborts the program when a delegation is
selected: the result is then `Error.assertion` and nothing is written. -/
def wireEncodeT (E : Env Comp Excl KL) (tag : Tag) (b : Bead Comp Excl KL) (rnd : Nat)
    (encoder : EncodingImpl tag) : Except Error (Nat × EncodingImpl tag) × Bead Comp Excl KL :=
  let totalLength := 0
  let r : Except Error (Nat × EncodingImpl tag) :=
    if b.hasLink then
      let (n1, encoder) :=
        if b.hasSelectedDelegation then
          prependNonNegativeIntegerBlock tag encoder E.tlv.SelectedDelegation
            b.m_selectedDelegationIndex
        else (0, encoder)
      let (n2, encoder) := prependBlock tag encoder b.m_link
      .ok (n1 + n2, encoder)
    else if b.hasSelectedDelegation then .error .assertion
    else .ok (0, encoder)
  match r with
  | .error e => (.error e, b)
  | .ok (n, encoder) =>
    let totalLength := totalLength + n
    let (n, encoder) :=
      if 0 ≤ b.getBeadLifetime ∧ b.getBeadLifetime ≠ DEFAULT_Bead_LIFETIME then
        prependNonNegativeIntegerBlock tag encoder E.tlv.BeadLifetime b.getBeadLifetime.toNat
      else (0, encoder)
    let totalLength := totalLength + n
    match b.getNonce E rnd with
    | (.error e, b) => (.error e, b)
    | (.ok _, b) =>
      let (n, encoder) := prependBlock tag encoder b.m_nonce
      let totalLength := totalLength + n
      let (n, encoder) := prependBlock tag encoder b.m_token
      let totalLength := totalLength + n
      let (n, encoder) :=
        if b.hasSelectors E then selectorsWireEncodeT E tag encoder b.m_selectors
        else (0, encoder)
      let totalLength := totalLength + n
      let (n, encoder) := nameWireEncodeT E tag encoder b.m_name
      let totalLength := totalLength + n
      let (n, encoder) := prependVarNumber tag encoder totalLength
      let totalLength := totalLength + n
      let (n, encoder) := prependVarNumber tag encoder E.tlv.Bead
      let totalLength := totalLength + n
      (.ok (totalLength, encoder), b)

/-- The `int64_t` count of `time::milliseconds(v)` for a `uint64_t` `v`. -/
def toInt64 (v : Nat) : Int :=
  if v % 18446744073709551616 < 9223372036854775808 then (v % 18446744073709551616 : Nat)
  else ((v % 18446744073709551616 : Nat) : Int) - 18446744073709551616

/-- `Bead::wireDecode`.  The result is `ok` or the exception thrown, with the
bead as the call leaves it. -/
def wireDecode (E : Env Comp Excl KL) (b : Bead Comp Excl KL) (wire : Block) :
    Except Error Unit × Bead Comp Excl KL :=
  let b := { b with m_wire := wire, nonceOffset := none }
  match wire.elements with
  | none => (.error .tlv, b)
  | some es =>
    if wire.type ≠ E.tlv.Bead then (.error .bead, b)
    else
      -- Name
      match findType E.tlv.Name es with
      | none => (.error .tlv, b)
      | some nameBlock =>
        match E.nameWireDecode nameBlock with
        | none => (.error .tlv, b)
        | some name =>
          let b := { b with m_name := name }
          -- Selectors
          match (match findType E.tlv.Selectors es with
                 | some val => E.selectorsWireDecode val
                 | none => some (Selectors.default E)) with
          | none => (.error .tlv, b)
          | some sel =>
            let b := { b with m_selectors := sel }
            -- Deletion token
            match findType E.tlv.Token es with
            | none => (.error .tlv, b)
            | some token =>
              let b := { b with m_token := token }
              -- Nonce
              match findType E.tlv.Nonce es with
              | none => (.error .tlv, b)
              | some nonce =>
                let b := { b with m_nonce := nonce, nonceOffset := valueOffsetOf E.tlv.Nonce es }
                -- BeadLifetime
                match (match findType E.tlv.BeadLifetime es with
                       | some val => (readNonNegativeIntegerBytes val.value).map toInt64
                       | none => some DEFAULT_Bead_LIFETIME) with
                | none => (.error .tlv, b)
                | some lifetime =>
                  let b := { b with m_BeadLifetime := lifetime }
                  -- Link object
                  let b :=
                    match findType E.tlv.Data es with
                    | some val => { b with m_link := val }
                    | none => b
                  -- SelectedDelegation
                  match findType E.tlv.SelectedDelegation es with
                  | none => (.ok (), b)
                  | some val =>
                    if !b.hasLink then (.error .bead, b)
                    else
                      match readNonNegativeIntegerBytes val.value with
                      | none => (.error .tlv, b)
                      | some selectedDelegation =>
                        match E.countDelegationsFromWire b.m_link with
                        | none => (.error .tlv, b)
                        | some count =>
                          if selectedDelegation < count then
                            (.ok (), { b with m_selectedDelegationIndex := selectedDelegation })
                          else (.error .bead, b)

/-- `Bead::wireEncode()`: the cached block, or estimate, encode and decode the
written octets back into the bead.  `rnd` is the random word a nonce would be
made from. -/
def wireEncode (E : Env Comp Excl KL) (b : Bead Comp Excl KL) (rnd : Nat) :
    Except Error Block × Bead Comp Excl KL :=
  if b.m_wire.hasWire then (.ok b.m_wire, b)
  else
    match b.wireEncodeT E .EstimatorTag rnd [] with
    | (.error e, b) => (.error e, b)
    | (.ok (_estimatedSize, _), b) =>
      match b.wireEncodeT E .EncoderTag rnd [] with
      | (.error e, b) => (.error e, b)
      | (.ok (_, buffer), b) =>
        match Block.fromBuffer buffer with
        | none => (.error .tlv, b)
        | some block =>
          match b.wireDecode E block with
          | (.error e, b) => (.error e, b)
          | (.ok (), b) => (.ok b.m_wire, b)

/-- The elements that `wireEncode(encoder)` writes for a bead whose nonce is
already in place, first to last. -/
def encodedElements (E : Env Comp Excl KL) (b : Bead Comp Excl KL) : List Block :=
  [Block.make E.tlv.Name (E.nameValue b.m_name)] ++
  (if b.hasSelectors E then [Block.make E.tlv.Selectors (E.selectorsValue b.m_selectors)]
   else []) ++
  [b.m_token.asWritten, b.m_nonce.asWritten] ++
  (if 0 ≤ b.getBeadLifetime ∧ b.getBeadLifetime ≠ DEFAULT_Bead_LIFETIME then
     [Block.make E.tlv.BeadLifetime (writeNonNegativeInteger b.getBeadLifetime.toNat)]
   else []) ++
  (if b.hasLink then
     [b.m_link] ++
     (if b.hasSelectedDelegation then
        [Block.make E.tlv.SelectedDelegation
          (writeNonNegativeInteger b.m_selectedDelegationIndex)]
      else [])
   else [])

/-- The nonce can be read: it is not set yet, or its value has 1, 2, 4 or 8
octets. -/
def nonceReadable (b : Bead Comp Excl KL) : Prop :=
  b.m_nonce.hasWire = false ∨ b.m_nonce.value.length = 1 ∨ b.m_nonce.value.length = 2 ∨
    b.m_nonce.value.length = 4 ∨ b.m_nonce.value.length = 8

instance (b : Bead Comp Excl KL) : Decidable b.nonceReadable := by
  unfold nonceReadable; infer_instance

/-- A validly constructed bead, ready to be encoded: every block it holds is a
well-formed element of its type, the nonce (when set) can be read, a selected
delegation comes with a link and is one of its delegations, the lifetime is an
`int64_t` count, the collaborators decode the name and the (non-empty) selectors
they encode, empty selectors are the default ones, and the encoding is shorter
than `2 ^ 64` octets. -/
structure Valid (E : Env Comp Excl KL) (p : Bead Comp Excl KL) : Prop where
  types : TypesOk E.tlv
  token : p.m_token.WF ∧ p.m_token.type = E.tlv.Token
  nonce : p.m_nonce.hasWire = true →
    p.m_nonce.WF ∧ p.m_nonce.type = E.tlv.Nonce ∧ p.nonceReadable
  link : p.m_link.hasWire = true → p.m_link.WF ∧ p.m_link.type = E.tlv.Data
  selected : p.hasSelectedDelegation = true →
    p.hasLink = true ∧ ∃ count, E.countDelegationsFromWire p.m_link = some count ∧
      p.m_selectedDelegationIndex < count
  index : p.m_selectedDelegationIndex ≤ INVALID_SELECTED_DELEGATION_INDEX
  lifetime : p.m_BeadLifetime < 9223372036854775808
  name : E.nameWireDecode (Block.make E.tlv.Name (E.nameValue p.m_name)) = some p.m_name
  selectors :
    if p.hasSelectors E then
      E.selectorsWireDecode (Block.make E.tlv.Selectors (E.selectorsValue p.m_selectors)) =
        some p.m_selectors
    else p.m_selectors = Selectors.default E
  size : (E.nameValue p.m_name).length + (E.selectorsValue p.m_selectors).length +
    p.m_token.size + (if p.m_nonce.hasWire then p.m_nonce.size else 32) +
    (if p.m_link.hasWire then p.m_link.size else 0) + 200 < 18446744073709551616

/-- The nonce block lies inside the cached wire: the value of `m_wire` holds the
octets of `m_nonce` (header, then value), and `nonceOffset` is where the value
of the nonce starts. -/
def NonceInWire (b : Bead Comp Excl KL) : Prop :=
  ∃ pre post : List Byte,
    b.m_wire.value = pre ++ b.m_nonce.hdr ++ b.m_nonce.value ++ post ∧
    b.nonceOffset = some (pre.length + b.m_nonce.hdr.length)

/-! ### Refreshing the nonce -/

/-- The loop of `Bead::refreshNonce`: `while (newNonce == oldNonce) newNonce =
random::generateWord32()`, on the words `draws` the random source gives one
after the other (each a `uint32_t`).  `none` means the loop has not ended when
the words are used up. -/
def refreshLoop (oldNonce : Nat) : Nat → List Nat → Option Nat
  | newNonce, [] => if newNonce = oldNonce then none else some newNonce
  | newNonce, r :: rs =>
    if newNonce = oldNonce then refreshLoop oldNonce (r % 4294967296) rs else some newNonce

/-- `Bead::refreshNonce` with the random words `draws`; `none` when the call does
not return on these words.  The nonce is set when `getNonce()` is called, so that
call draws no random word. -/
def refreshNonce (E : Env Comp Excl KL) (b : Bead Comp Excl KL) (draws : List Nat) :
    Option (Except Error Unit × Bead Comp Excl KL) :=
  if !b.hasNonce then some (.ok (), b)
  else
    match b.getNonce E 0 with
    | (.error e, b) => some (.error e, b)
    | (.ok oldNonce, b) =>
      match refreshLoop oldNonce oldNonce draws with
      | none => none
      | some newNonce => some (.ok (), b.setNonce E newNonce)

/-! ### Rendering -/

/-- `Bead::getChildSelector`. -/
def getChildSelector (b : Bead Comp Excl KL) : Int := b.m_selectors.m_childSelector

/-- `Bead::getMustBeFresh`; the declared result type is `int`. -/
def getMustBeFresh (b : Bead Comp Excl KL) : Int :=
  if b.m_selectors.m_mustBeFresh then 1 else 0

/-- `operator<<(std::ostream&, const Bead&)` on an empty stream, which is what
`Bead::toUri` returns.  `nameUri` and `excludeUri` are what `operator<<` writes
for a `Name` and for an `Exclude`; numbers are written in decimal.  The result
is the string or the exception thrown, with the bead as the call leaves it;
`rnd` is the word `random::generateWord32()` returns if `getNonce()` calls it. -/
def toUri (E : Env Comp Excl KL) (nameUri : List Comp → String) (excludeUri : Excl → String)
    (b : Bead Comp Excl KL) (rnd : Nat) : Except Error String × Bead Comp Excl KL :=
  let os := nameUri b.m_name
  let delim := '?'
  let (os, delim) :=
    if 0 ≤ b.getMinSuffixComponents then
      (os ++ delim.toString ++ "ndn.MinSuffixComponents=" ++ toString b.getMinSuffixComponents,
        '&')
    else (os, delim)
  let (os, delim) :=
    if 0 ≤ b.getMaxSuffixComponents then
      (os ++ delim.toString ++ "ndn.MaxSuffixComponents=" ++ toString b.getMaxSuffixComponents,
        '&')
    else (os, delim)
  let (os, delim) :=
    if 0 ≤ b.getChildSelector then
      (os ++ delim.toString ++ "ndn.ChildSelector=" ++ toString b.getChildSelector, '&')
    else (os, delim)
  let (os, delim) :=
    if b.getMustBeFresh ≠ 0 then
      (os ++ delim.toString ++ "ndn.MustBeFresh=" ++ toString b.getMustBeFresh, '&')
    else (os, delim)
  let (os, delim) :=
    if 0 ≤ b.getBeadLifetime ∧ b.getBeadLifetime ≠ DEFAULT_Bead_LIFETIME then
      (os ++ delim.toString ++ "ndn.BeadLifetime=" ++ toString b.getBeadLifetime, '&')
    else (os, delim)
  let r : Except Error (String × Char) × Bead Comp Excl KL :=
    if b.hasNonce then
      match b.getNonce E rnd with
      | (.error e, b) => (.error e, b)
      | (.ok nonce, b) => (.ok (os ++ delim.toString ++ "ndn.Nonce=" ++ toString nonce, '&'), b)
    else (.ok (os, delim), b)
  match r with
  | (.error e, b) => (.error e, b)
  | (.ok (os, delim), b) =>
    let (os, _) :=
      if !E.excludeEmpty b.getExclude then
        (os ++ delim.toString ++ "ndn.Exclude=" ++ excludeUri b.getExclude, '&')
      else (os, delim)
    (.ok os, b)

/-- The query string the specification describes for a list of rendered
parameters: the first is introduced by `delim` (`?` at the start), each later
one by `&`. -/
def specQueryFrom (delim : Char) : List String → String
  | [] => ""
  | p :: ps => delim.toString ++ p ++ specQueryFrom '&' ps

/-- The parameters the specification lists for a rendering, in its order:
MinSuffixComponents, MaxSuffixComponents, ChildSelector, MustBeFresh,
BeadLifetime, Nonce (`nonce` is its value when the nonce is set), Exclude; each
is present under the condition the specification gives. -/
def specUriParameters (E : Env Comp Excl KL) (excludeUri : Excl → String)
    (b : Bead Comp Excl KL) (nonce : Option Nat) : List String :=
  (if 0 ≤ b.getMinSuffixComponents then
    ["ndn.MinSuffixComponents=" ++ toString b.getMinSuffixComponents] else []) ++
  (if 0 ≤ b.getMaxSuffixComponents then
    ["ndn.MaxSuffixComponents=" ++ toString b.getMaxSuffixComponents] else []) ++
  (if 0 ≤ b.getChildSelector then
    ["ndn.ChildSelector=" ++ toString b.getChildSelector] else []) ++
  (if b.m_selectors.m_mustBeFresh then ["ndn.MustBeFresh=1"] else []) ++
  (if 0 ≤ b.getBeadLifetime ∧ b.getBeadLifetime ≠ DEFAULT_Bead_LIFETIME then
    ["ndn.BeadLifetime=" ++ toString b.getBeadLifetime] else []) ++
  (match nonce with
   | some v => ["ndn.Nonce=" ++ toString v]
   | none => []) ++
  (if !E.excludeEmpty b.getExclude then ["ndn.Exclude=" ++ excludeUri b.getExclude] else [])

/-! ### Sequences of operations -/

/-- `Bead::Bead(const Block&)`: `wireDecode(wire)` on an object whose members
are default-constructed; `m_BeadLifetime` and `m_selectedDelegationIndex` have no
initialiser there, `lifetime` and `index` stand for the values they hold.  An
exception leaves no object. -/
def ofBlock (E : Env Comp Excl KL) (lifetime : Int) (index : Nat) (wire : Block) :
    Except Error Unit × Bead Comp Excl KL :=
  wireDecode E { mk0 E with m_BeadLifetime := lifetime, m_selectedDelegationIndex := index } wire

/-- A call of a public operation of `Bead` that can change the bead, with its
arguments and the random words it may draw. -/
inductive Op (Comp Excl KL : Type) where
  | setName (name : List Comp)
  | setSelectors (s : Selectors Excl KL)
  | setMinSuffixComponents (v : Int)
  | setMaxSuffixComponents (v : Int)
  | setPublisherPublicKeyLocator (k : KL)
  | setExclude (ex : Excl)
  | setChildSelector (v : Int)
  | setMustBeFresh (v : Bool)
  | setBeadLifetime (lifetime : Int)
  | setToken (token : List Byte)
  | getToken
  | setNonce (nonce : Nat)
  | getNonce (rnd : Nat)
  | refreshNonce (draws : List Nat)
  | setLink (link : Block)
  | unsetLink
  | setSelectedDelegationName (delegationName : List Comp)
  | setSelectedDelegation (delegationIndex : Nat)
  | unsetSelectedDelegation
  | wireEncode (rnd : Nat)
  | wireDecode (wire : Block)

/-- The outcome of an operation (`ok` or the exception thrown) and the bead it
leaves; `none` when the call does not return. -/
def apply (E : Env Comp Excl KL) (b : Bead Comp Excl KL) :
    Op Comp Excl KL → Option (Except Error Unit × Bead Comp Excl KL)
  | .setName name => some (.ok (), b.setName name)
  | .setSelectors s => some (.ok (), b.setSelectors s)
  | .setMinSuffixComponents v => some (.ok (), b.setMinSuffixComponents v)
  | .setMaxSuffixComponents v => some (.ok (), b.setMaxSuffixComponents v)
  | .setPublisherPublicKeyLocator k => some (.ok (), b.setPublisherPublicKeyLocator k)
  | .setExclude ex => some (.ok (), b.setExclude ex)
  | .setChildSelector v => some (.ok (), b.setChildSelector v)
  | .setMustBeFresh v => some (.ok (), b.setMustBeFresh v)
  | .setBeadLifetime lifetime => some (.ok (), b.setBeadLifetime lifetime)
  | .setToken token => some (.ok (), b.setToken E token)
  | .getToken => some (.ok (), (b.getToken E).2)
  | .setNonce nonce => some (.ok (), b.setNonce E nonce)
  | .getNonce rnd =>
    match b.getNonce E rnd with
    | (.ok _, b) => some (.ok (), b)
    | (.error e, b) => some (.error e, b)
  | .refreshNonce draws => b.refreshNonce E draws
  | .setLink link => some (b.setLink link)
  | .unsetLink => some (.ok (), b.unsetLink)
  | .setSelectedDelegationName delegationName =>
    some (b.setSelectedDelegationName E delegationName)
  | .setSelectedDelegation delegationIndex => some (b.setSelectedDelegation E delegationIndex)
  | .unsetSelectedDelegation => some (.ok (), b.unsetSelectedDelegation)
  | .wireEncode rnd =>
    match b.wireEncode E rnd with
    | (.ok _, b) => some (.ok (), b)
    | (.error e, b) => some (.error e, b)
  | .wireDecode wire => some (b.wireDecode E wire)

/-- The beads reached from a constructor (`Bead()`, `Bead(name)`,
`Bead(name, lifetime)`, `Bead(wire)`) by a sequence of operations, those that
throw included. -/
inductive Reachable (E : Env Comp Excl KL) : Bead Comp Excl KL → Prop where
  | mk0 : Reachable E (mk0 E)
  | mk1 (name : List Comp) : Reachable E (mk1 E name)
  | mk2 (name : List Comp) (lifetime : Int) : Reachable E (mk2 E name lifetime)
  | ofBlock (lifetime : Int) (index : Nat) (wire : Block) (b : Bead Comp Excl KL) :
      ofBlock E lifetime index wire = (.ok (), b) → Reachable E b
  | step (b b2 : Bead Comp Excl KL) (op : Op Comp Excl KL) (r : Except Error Unit) :
      Reachable E b → apply E b op = some (r, b2) → Reachable E b2

/-- The beads reached from a constructor by a sequence of operations that all
succeed. -/
inductive ReachableOk (E : Env Comp Excl KL) : Bead Comp Excl KL → Prop where
  | mk0 : ReachableOk E (mk0 E)
  | mk1 (name : List Comp) : ReachableOk E (mk1 E name)
  | mk2 (name : List Comp) (lifetime : Int) : ReachableOk E (mk2 E name lifetime)
  | ofBlock (lifetime : Int) (index : Nat) (wire : Block) (b : Bead Comp Excl KL) :
      ofBlock E lifetime index wire = (.ok (), b) → ReachableOk E b
  | step (b b2 : Bead Comp Excl KL) (op : Op Comp Excl KL) :
      ReachableOk E b → apply E b op = some (.ok (), b2) → ReachableOk E b2

end Bead

end Model

/-! ## A concrete environment

An instance of the collaborators, used to run the definitions on concrete
packets.  A name component is a block, an exclude filter is the list of the
excluded components and a key locator is the octets of its value. -/

namespace Sample

/-- The type numbers of the NDN packet format; `Bead` and `Token` are the two
numbers the fork adds, given sample values here. -/
def tlv : TlvTypes :=
  { Bead := 5, Name := 7, Selectors := 9, Token := 11, Nonce := 10, BeadLifetime := 12,
    Data := 6, SelectedDelegation := 32, KeyLocator := 28 }

/-- A non-negative integer element. -/
def natBlock (t n : Nat) : Block := Block.make t (writeNonNegativeInteger n)

/-- Read an optional non-negative integer element; `-1` when absent. -/
def readOptInt (t : Nat) (es : List Block) : Option Int :=
  match findType t es with
  | none => some (-1)
  | some e => (readNonNegativeIntegerBytes e.value).map Int.ofNat

/-- Value octets of a Selectors element: MinSuffixComponents (13),
MaxSuffixComponents (14), KeyLocator (28), Exclude (16), ChildSelector (17),
MustBeFresh (18). -/
def selectorsValue (s : Selectors (List Block) (Option (List Byte))) : List Byte :=
  (if 0 ≤ s.m_minSuffixComponents then (natBlock 13 s.m_minSuffixComponents.toNat).wire else []) ++
  (if 0 ≤ s.m_maxSuffixComponents then (natBlock 14 s.m_maxSuffixComponents.toNat).wire else []) ++
  (match s.m_publisherPublicKeyLocator with
   | some v => (Block.make 28 v).wire
   | none => []) ++
  (if s.m_exclude.isEmpty then [] else (Block.make 16 ((s.m_exclude.map Block.wire).flatten)).wire) ++
  (if 0 ≤ s.m_childSelector then (natBlock 17 s.m_childSelector.toNat).wire else []) ++
  (if s.m_mustBeFresh then (Block.make 18 []).wire else [])

/-- Decode a Selectors element. -/
def selectorsWireDecode (blk : Block) : Option (Selectors (List Block) (Option (List Byte))) :=
  if blk.type ≠ 9 then none
  else
    match blk.elements with
    | none => none
    | some es =>
      match readOptInt 13 es, readOptInt 14 es, readOptInt 17 es with
      | some mn, some mx, some ch =>
        match (match findType 16 es with
               | none => some []
               | some e => e.elements) with
        | none => none
        | some ex =>
          some { m_minSuffixComponents := mn, m_maxSuffixComponents := mx,
                 m_publisherPublicKeyLocator := (findType 28 es).map Block.value,
                 m_exclude := ex, m_childSelector := ch,
                 m_mustBeFresh := (findType 18 es).isSome }
      | _, _, _ => none

/-- Count the delegations of a link object: the elements of its Content (21). -/
def countDelegationsFromWire (blk : Block) : Option Nat :=
  match blk.elements with
  | none => none
  | some es =>
    match findType 21 es with
    | none => none
    | some content => content.elements.map List.length

/-- The delegations of a link object: the elements of its Content (21). -/
def delegations (blk : Block) : Option (List Block) :=
  match blk.elements with
  | none => none
  | some es =>
    match findType 21 es with
    | none => none
    | some content => content.elements

/-- Index of the first delegation whose value is the Name element of `name`, or
the invalid index. -/
def findDelegationFromWire (blk : Block) (name : List Block) : Option Nat :=
  match delegations blk with
  | none => none
  | some ds =>
    match ds.findIdx? (fun d => decide (d.value = (Block.make 7 (wireOf name)).wire)) with
    | some i => some i
    | none => some 18446744073709551615

/-- The sample environment. -/
def env : Env Block (List Block) (Option (List Byte)) :=
  { tlv := tlv
    isImplicitSha256Digest := fun c => decide (c.type = 1 ∧ c.value.length = 32)
    excludeEmpty := fun ex => ex.isEmpty
    isExcluded := fun ex c => decide (c ∈ ex)
    keyLocatorEmpty := fun k => k.isNone
    keyLocatorWireEncode := fun k => Block.make 28 (k.getD [])
    defaultExclude := []
    defaultKeyLocator := none
    nameValue := fun n => (n.map Block.wire).flatten
    nameWireDecode := fun blk => if blk.type = 7 then blk.elements else none
    selectorsValue := selectorsValue
    selectorsWireDecode := selectorsWireDecode
    countDelegationsFromWire := countDelegationsFromWire
    linkDelegationsSize := fun blk => if blk.type = 6 then countDelegationsFromWire blk else none
    findDelegationFromWire := findDelegationFromWire }

/-- A generic name component (type 8) holding one octet. -/
def comp (c : Nat) : Block := Block.make 8 [c]

/-- An implicit digest component (type 1, 32 octets) filled with one octet. -/
def digest (c : Nat) : Block := Block.make 1 (List.replicate 32 c)

/-- A delegation (type 31) naming `/c`. -/
def delegation (c : Nat) : Block := Block.make 31 (Block.make 7 (wireOf [comp c])).wire

/-- A link object (a Data element, type 6) named `/l` with the two delegations
`/x` and `/y` in its Content. -/
def link2 : Block :=
  Block.make 6 (wireOf [Block.make 7 (wireOf [comp 108]),
    Block.make 21 (wireOf [delegation 120, delegation 121])])

/-- The bead `/a/b` with a token and nothing else set. -/
def beadPlain : Bead Block (List Block) (Option (List Byte)) :=
  (Bead.mk1 env [comp 97, comp 98]).setToken env [116]

/-- The bead `/a/b` with `MinSuffixComponents = 1`, an exclude filter holding `c`,
a lifetime of 1000 ms, a token, the link `link2` and its delegation 1 selected. -/
def beadFull : Bead Block (List Block) (Option (List Byte)) :=
  let b := Bead.mk2 env [comp 97, comp 98] 1000
  let b := (b.setMinSuffixComponents 1).setExclude [comp 99]
  let b := b.setToken env [116]
  let b := (b.setLink link2).2
  (b.setSelectedDelegation env 1).2

/-- The Bead element that encodes `beadPlain` with the nonce `0x12345678`. -/
def wirePlain : Block :=
  { type := 5, hdr := [5, 17],
    value := [7, 6, 8, 1, 97, 8, 1, 98, 11, 1, 116, 10, 4, 120, 86, 52, 18],
    hasWire := true }

/-- The bead `beadPlain` after `wireEncode()` with the random word `0x12345678`:
it holds a cached wire. -/
def beadCached : Bead Block (List Block) (Option (List Byte)) :=
  (beadPlain.wireEncode env 305419896).2

/-- A bead decoded from a Bead element whose nonce has three octets, renamed
afterwards (so it holds no cached wire). -/
def beadOddNonce : Bead Block (List Block) (Option (List Byte)) :=
  (((Bead.mk0 env).wireDecode env
    { type := 5, hdr := [5, 16],
      value := [7, 6, 8, 1, 97, 8, 1, 98, 11, 1, 116, 10, 3, 1, 2, 3],
      hasWire := true }).2).setName [comp 97]

/-- A link object named `/l` with the single delegation `/x`. -/
def link1 : Block :=
  Block.make 6 (wireOf [Block.make 7 (wireOf [comp 108]),
    Block.make 21 (wireOf [delegation 120])])

/-- The Name element of `/a/b`, the Token element `t` and the Nonce element
`0x12345678`: the mandatory elements of the sample Bead blocks. -/
def nameAB : Block := Block.make 7 (wireOf [comp 97, comp 98])

/-- The Token element holding `t`. -/
def tokenT : Block := Block.make 11 [116]

/-- The Nonce element holding `0x12345678`. -/
def nonce1 : Block := Block.make 10 (word32Bytes 305419896)

/-- A Bead block with Name, Token, Nonce and the SelectedDelegation 1, and no
link. -/
def wireSelectedNoLink : Block :=
  Block.make 5 (wireOf [nameAB, tokenT, nonce1, natBlock 32 1])

/-- A Bead block with Name, Token, Nonce and the link `link1`, and no
SelectedDelegation. -/
def wireLink1 : Block :=
  Block.make 5 (wireOf [nameAB, tokenT, nonce1, link1])

/-- A Bead block with Name and Nonce, and no Token. -/
def wireNoToken : Block :=
  Block.make 5 (wireOf [nameAB, nonce1])

/-- What `operator<<` writes for a name in the sample environment: `/` and the
value octets of each component, as characters. -/
def nameUri (name : List Block) : String :=
  String.join (name.map (fun c => "/" ++ String.mk (c.value.map Char.ofNat)))

/-- What `operator<<` writes for an exclude filter in the sample environment:
the value octets of its components, as characters, separated by commas. -/
def excludeUri (ex : List Block) : String :=
  ",".intercalate (ex.map (fun c => String.mk (c.value.map Char.ofNat)))

/-- A bead decoded from a Bead element whose nonce has three octets: it holds a
cached wire and a nonce that is not four octets long. -/
def beadOddCached : Bead Block (List Block) (Option (List Byte)) :=
  ((Bead.mk0 env).wireDecode env
    { type := 5, hdr := [5, 16],
      value := [7, 6, 8, 1, 97, 8, 1, 98, 11, 1, 116, 10, 3, 1, 2, 3],
      hasWire := true }).2

/-- A Bead block with Name, Token, Nonce and a BeadLifetime element holding the
default, 4000. -/
def wireLifetime4000 : Block :=
  Block.make 5 (wireOf [nameAB, tokenT, nonce1, natBlock 12 4000])

end Sample

/-! ### Facts about the TLV primitives -/

theorem beBytes_length (k n : Nat) : (beBytes k n).length = k := by
  induction k generalizing n with
  | zero => rfl
  | succ k ih => simp [beBytes, ih]

theorem beValue_append_single (xs : List Byte) (b : Byte) :
    beValue (xs ++ [b]) = beValue xs * 256 + b := by
  simp [beValue, List.foldl_append]

theorem beValue_beBytes (k n : Nat) : beValue (beBytes k n) = n % 256 ^ k := by
  induction k generalizing n with
  | zero => simp [beBytes, beValue, Nat.mod_one]
  | succ k ih =>
    rw [beBytes, beValue_append_single, ih, pow_succ, Nat.mul_comm (256 ^ k) 256,
      Nat.mod_mul]
    omega

theorem writeVarNumber_length (n : Nat) :
    (writeVarNumber n).length = sizeOfVarNumber n := by
  unfold writeVarNumber sizeOfVarNumber
  split_ifs <;> simp [beBytes_length]

theorem writeNonNegativeInteger_length (n : Nat) :
    (writeNonNegativeInteger n).length = sizeOfNonNegativeInteger n := by
  simp [writeNonNegativeInteger, beBytes_length]

theorem readVarNumber_write (n : Nat) (h : n < 2 ^ 64) (rest : List Byte) :
    readVarNumber (writeVarNumber n ++ rest) = some (n, rest) := by
  unfold writeVarNumber
  split_ifs with h1 h2 h3
  · simp [readVarNumber, h1]
  · have hl := beBytes_length 2 n
    have hv := beValue_beBytes 2 n
    simp only [List.cons_append, readVarNumber]
    simp [List.take_append_of_le_length, List.drop_append_of_le_length, hl, hv,
      List.take_of_length_le, List.drop_of_length_le]
    omega
  · have hl := beBytes_length 4 n
    have hv := beValue_beBytes 4 n
    simp only [List.cons_append, readVarNumber]
    simp [List.take_append_of_le_length, List.drop_append_of_le_length, hl, hv,
      List.take_of_length_le, List.drop_of_length_le]
    omega
  · have hl := beBytes_length 8 n
    have hv := beValue_beBytes 8 n
    simp only [List.cons_append, readVarNumber]
    simp [List.take_append_of_le_length, List.drop_append_of_le_length, hl, hv,
      List.take_of_length_le, List.drop_of_length_le]
    omega

theorem readFixed_append (k : Nat) (rest ys : List Byte) (h : ¬ rest.length < k) :
    (if (rest ++ ys).length < k then none
      else some (beValue ((rest ++ ys).take k), (rest ++ ys).drop k)) =
    some (beValue (rest.take k), rest.drop k ++ ys) := by
  have hle : k ≤ rest.length := Nat.le_of_not_lt h
  have h2 : ¬ (rest ++ ys).length < k := by
    simp only [List.length_append]; omega
  rw [if_neg h2, List.take_append_of_le_length hle, List.drop_append_of_le_length hle]

theorem readVarNumber_append {xs r : List Byte} {n : Nat}
    (h : readVarNumber xs = some (n, r)) (ys : List Byte) :
    readVarNumber (xs ++ ys) = some (n, r ++ ys) := by
  cases xs with
  | nil => simp [readVarNumber] at h
  | cons b rest =>
    simp only [List.cons_append, readVarNumber] at h ⊢
    by_cases h1 : b < 253
    · simp only [h1, if_true, Option.some.injEq, Prod.mk.injEq] at h ⊢
      exact ⟨h.1, by rw [h.2]⟩
    · simp only [h1, if_false] at h ⊢
      by_cases h2 : b = 253
      · simp only [h2, if_true] at h ⊢
        by_cases h3 : rest.length < 2
        · simp [h3] at h
        · rw [readFixed_append 2 rest ys h3]
          simp only [h3, if_false, Option.some.injEq, Prod.mk.injEq] at h
          rw [h.1, h.2]
      · simp only [h2, if_false] at h ⊢
        by_cases h4 : b = 254
        · simp only [h4, if_true] at h ⊢
          by_cases h3 : rest.length < 4
          · simp [h3] at h
          · rw [readFixed_append 4 rest ys h3]
            simp only [h3, if_false, Option.some.injEq, Prod.mk.injEq] at h
            rw [h.1, h.2]
        · simp only [h4, if_false] at h ⊢
          by_cases h3 : rest.length < 8
          · simp [h3] at h
          · rw [readFixed_append 8 rest ys h3]
            simp only [h3, if_false, Option.some.injEq, Prod.mk.injEq] at h
            rw [h.1, h.2]

theorem readVarNumber_suffix {xs r : List Byte} {n : Nat}
    (h : readVarNumber xs = some (n, r)) : ∃ p, xs = p ++ r ∧ 0 < p.length := by
  cases xs with
  | nil => simp [readVarNumber] at h
  | cons b rest =>
    simp only [readVarNumber] at h
    by_cases h1 : b < 253
    · simp only [h1, if_true, Option.some.injEq, Prod.mk.injEq] at h
      exact ⟨[b], by simp [h.2], by simp⟩
    · simp only [h1, if_false] at h
      by_cases h2 : b = 253
      · simp only [h2, if_true] at h
        by_cases h3 : rest.length < 2
        · simp [h3] at h
        · simp only [h3, if_false, Option.some.injEq, Prod.mk.injEq] at h
          exact ⟨b :: rest.take 2, by simp [← h.2, h2], by simp⟩
      · simp only [h2, if_false] at h
        by_cases h4 : b = 254
        · simp only [h4, if_true] at h
          by_cases h3 : rest.length < 4
          · simp [h3] at h
          · simp only [h3, if_false, Option.some.injEq, Prod.mk.injEq] at h
            exact ⟨b :: rest.take 4, by simp [← h.2, h4], by simp⟩
        · simp only [h4, if_false] at h
          by_cases h3 : rest.length < 8
          · simp [h3] at h
          · simp only [h3, if_false, Option.some.injEq, Prod.mk.injEq] at h
            exact ⟨b :: rest.take 8, by simp [← h.2], by simp⟩

theorem readVarNumber_length {xs r : List Byte} {n : Nat}
    (h : readVarNumber xs = some (n, r)) : r.length < xs.length := by
  obtain ⟨p, rfl, hp⟩ := readVarNumber_suffix h
  simp only [List.length_append]; omega

theorem readElement_append {xs rest : List Byte} {e : Block}
    (h : readElement xs = some (e, rest)) (ys : List Byte) :
    readElement (xs ++ ys) = some (e, rest ++ ys) := by
  unfold readElement at h ⊢
  cases h1 : readVarNumber xs with
  | none => simp [h1] at h
  | some p1 =>
    obtain ⟨t, r1⟩ := p1
    rw [h1] at h
    rw [readVarNumber_append h1 ys]
    simp only at h ⊢
    split_ifs at h ⊢ with ht
    cases h2 : readVarNumber r1 with
    | none => simp [h2] at h
    | some p2 =>
      obtain ⟨len, r2⟩ := p2
      rw [h2] at h
      rw [readVarNumber_append h2 ys]
      simp only at h ⊢
      have hl1 := readVarNumber_length h1
      have hl2 := readVarNumber_length h2
      by_cases hlen : r2.length < len
      · simp [hlen] at h
      · have hle : len ≤ r2.length := Nat.le_of_not_lt hlen
        have hlen2 : ¬ (r2 ++ ys).length < len := by
          simp only [List.length_append]; omega
        rw [if_neg hlen] at h
        rw [if_neg hlen2]
        simp only [Option.some.injEq, Prod.mk.injEq] at h
        obtain ⟨rfl, rfl⟩ := h
        have e1 : (xs ++ ys).length - (r2 ++ ys).length = xs.length - r2.length := by
          simp only [List.length_append]; omega
        have e2 : xs.length - r2.length ≤ xs.length := Nat.sub_le _ _
        rw [e1, List.take_append_of_le_length e2, List.take_append_of_le_length hle,
          List.drop_append_of_le_length hle]

theorem readElement_wire {e : Block} (h : e.WF) (ys : List Byte) :
    readElement (e.wire ++ ys) = some (e, ys) := by
  have := readElement_append h.2 ys
  simpa using this

theorem readElement_length {xs rest : List Byte} {e : Block}
    (h : readElement xs = some (e, rest)) : rest.length < xs.length := by
  unfold readElement at h
  cases h1 : readVarNumber xs with
  | none => simp [h1] at h
  | some p1 =>
    obtain ⟨t, r1⟩ := p1
    rw [h1] at h
    simp only at h
    split_ifs at h
    cases h2 : readVarNumber r1 with
    | none => simp [h2] at h
    | some p2 =>
      obtain ⟨len, r2⟩ := p2
      rw [h2] at h
      simp only at h
      have hl1 := readVarNumber_length h1
      have hl2 := readVarNumber_length h2
      split_ifs at h
      simp only [Option.some.injEq, Prod.mk.injEq] at h
      obtain ⟨_, rfl⟩ := h
      simp only [List.length_drop]
      omega

theorem readElement_sound {xs rest : List Byte} {e : Block}
    (h : readElement xs = some (e, rest)) : xs = e.wire ++ rest ∧ e.hasWire = true := by
  unfold readElement at h
  cases h1 : readVarNumber xs with
  | none => simp [h1] at h
  | some p1 =>
    obtain ⟨t, r1⟩ := p1
    rw [h1] at h
    simp only at h
    split_ifs at h
    cases h2 : readVarNumber r1 with
    | none => simp [h2] at h
    | some p2 =>
      obtain ⟨len, r2⟩ := p2
      rw [h2] at h
      simp only at h
      split_ifs at h
      simp only [Option.some.injEq, Prod.mk.injEq] at h
      obtain ⟨rfl, rfl⟩ := h
      obtain ⟨q1, rfl, _⟩ := readVarNumber_suffix h1
      obtain ⟨q2, rfl, _⟩ := readVarNumber_suffix h2
      refine ⟨?_, rfl⟩
      have e1 : (q1 ++ (q2 ++ r2)).length - r2.length = (q1 ++ q2).length := by
        simp only [List.length_append]; omega
      simp only [Block.wire, e1]
      rw [← List.append_assoc q1 q2 r2, List.take_left]
      simp only [List.append_assoc, List.take_append_drop]

theorem parseElements_sound {fuel : Nat} {xs : List Byte} {es : List Block}
    (h : parseElements fuel xs = some es) : wireOf es = xs := by
  induction fuel generalizing xs es with
  | zero =>
    cases xs with
    | nil => simp [parseElements] at h; subst h; rfl
    | cons b bs => simp [parseElements] at h
  | succ fuel ih =>
    cases xs with
    | nil => simp [parseElements] at h; subst h; rfl
    | cons b bs =>
      rw [parseElements] at h
      cases h1 : readElement (b :: bs) with
      | none => simp [h1] at h
      | some p =>
        obtain ⟨e, rest⟩ := p
        rw [h1] at h
        simp only at h
        cases h2 : parseElements fuel rest with
        | none => simp [h2] at h
        | some es2 =>
          rw [h2] at h
          simp only [Option.some.injEq] at h
          subst h
          have := (readElement_sound h1).1
          rw [this]
          simp [wireOf, ← ih h2]

theorem fromBuffer_sound {xs : List Byte} {blk : Block}
    (h : Block.fromBuffer xs = some blk) : blk.wire = xs ∧ blk.WF := by
  unfold Block.fromBuffer at h
  cases h1 : readElement xs with
  | none => simp [h1] at h
  | some p =>
    obtain ⟨e, rest⟩ := p
    rw [h1] at h
    cases rest with
    | cons r rs => simp at h
    | nil =>
      simp only [Option.some.injEq] at h
      subst h
      obtain ⟨hx, hw⟩ := readElement_sound h1
      simp only [List.append_nil] at hx
      exact ⟨hx.symm, hw, by rw [← hx]; exact h1⟩

theorem fromBuffer_of_WF {blk : Block} (h : blk.WF) : Block.fromBuffer blk.wire = some blk := by
  unfold Block.fromBuffer
  rw [h.2]

theorem findType_some {t : Nat} {es : List Block} {e : Block}
    (h : findType t es = some e) : e ∈ es ∧ e.type = t := by
  unfold findType at h
  refine ⟨List.mem_of_find?_eq_some h, ?_⟩
  have := List.find?_some h
  simpa using this

theorem findType_none {t : Nat} {es : List Block}
    (h : ∀ e ∈ es, e.type ≠ t) : findType t es = none := by
  unfold findType
  rw [List.find?_eq_none]
  intro e he
  simpa using h e he

theorem Block.wire_length_pos {e : Block} (h : e.WF) : 0 < e.wire.length := by
  have := readElement_length h.2
  omega

theorem parseElements_wireOf (es : List Block) (hwf : ∀ e ∈ es, e.WF) :
    ∀ fuel, (wireOf es).length ≤ fuel → parseElements fuel (wireOf es) = some es := by
  induction es with
  | nil => intro fuel _; cases fuel <;> simp [wireOf, parseElements]
  | cons e es ih =>
    intro fuel hfuel
    have hwe : e.WF := hwf e (List.mem_cons_self _ _)
    have hpos := Block.wire_length_pos hwe
    have hw : wireOf (e :: es) = e.wire ++ wireOf es := by simp [wireOf]
    rw [hw] at hfuel ⊢
    simp only [List.length_append] at hfuel
    cases fuel with
    | zero => omega
    | succ fuel =>
      cases hc : e.wire ++ wireOf es with
      | nil =>
        have : (e.wire ++ wireOf es).length = 0 := by rw [hc]; rfl
        simp only [List.length_append] at this
        omega
      | cons b bs =>
        rw [parseElements, ← hc, readElement_wire hwe]
        simp only
        rw [ih (fun x hx => hwf x (List.mem_cons_of_mem _ hx)) fuel (by omega)]

theorem Block.make_WF (t : Nat) (v : List Byte) (ht : t ≤ 4294967295)
    (hv : v.length < 2 ^ 64) : (Block.make t v).WF := by
  refine ⟨rfl, ?_⟩
  have h1 : readVarNumber ((Block.make t v).wire) =
      some (t, writeVarNumber v.length ++ v) := by
    simp only [Block.wire, Block.make, List.append_assoc]
    exact readVarNumber_write t (by omega) _
  have h2 : readVarNumber (writeVarNumber v.length ++ v) = some (v.length, v) :=
    readVarNumber_write _ hv _
  unfold readElement
  rw [h1]
  simp only
  rw [if_neg (by omega), h2]
  simp only [lt_self_iff_false, if_false, List.take_length, List.drop_length,
    Option.some.injEq, Prod.mk.injEq, and_true]
  have e : (Block.make t v).wire.length - v.length =
      (writeVarNumber t ++ writeVarNumber v.length).length := by
    simp only [Block.wire, Block.make, List.length_append]; omega
  rw [e]
  simp only [Block.wire, Block.make, List.take_left]

/-! ## Encoding: theorems -/

theorem Block.make_wire (t : Nat) (v : List Byte) :
    (Block.make t v).wire = writeVarNumber t ++ (writeVarNumber v.length ++ v) := by
  simp [Block.make, Block.wire]

theorem emit_emit (tag : Tag) (encoder : EncodingImpl tag) (x y : List Byte) :
    emit tag (emit tag encoder x) y = emit tag encoder (y ++ x) := by
  cases tag <;> simp [emit]

theorem emit_nil (tag : Tag) (encoder : EncodingImpl tag) : emit tag encoder [] = encoder := by
  cases tag <;> simp [emit]

theorem prependByteArray_eq (tag : Tag) (encoder : EncodingImpl tag) (bs : List Byte) :
    prependByteArray tag encoder bs = (bs.length, emit tag encoder bs) := by
  cases tag <;> rfl

theorem prependVarNumber_eq (tag : Tag) (encoder : EncodingImpl tag) (n : Nat) :
    prependVarNumber tag encoder n =
      ((writeVarNumber n).length, emit tag encoder (writeVarNumber n)) := by
  cases tag <;> simp [prependVarNumber, emit, writeVarNumber_length]

theorem prependNonNegativeInteger_eq (tag : Tag) (encoder : EncodingImpl tag) (n : Nat) :
    prependNonNegativeInteger tag encoder n =
      ((writeNonNegativeInteger n).length, emit tag encoder (writeNonNegativeInteger n)) := by
  cases tag <;> simp [prependNonNegativeInteger, emit, writeNonNegativeInteger_length]

theorem prependByteArrayBlock_eq (tag : Tag) (encoder : EncodingImpl tag) (t : Nat)
    (v : List Byte) :
    prependByteArrayBlock tag encoder t v =
      ((Block.make t v).wire.length, emit tag encoder (Block.make t v).wire) := by
  simp only [prependByteArrayBlock, prependByteArray_eq, prependVarNumber_eq, emit_emit,
    Block.make, Block.wire, List.length_append, List.append_assoc]
  congr 1
  omega

theorem prependNonNegativeIntegerBlock_eq (tag : Tag) (encoder : EncodingImpl tag) (t n : Nat) :
    prependNonNegativeIntegerBlock tag encoder t n =
      ((Block.make t (writeNonNegativeInteger n)).wire.length,
        emit tag encoder (Block.make t (writeNonNegativeInteger n)).wire) := by
  simp only [prependNonNegativeIntegerBlock, prependNonNegativeInteger_eq, prependVarNumber_eq,
    emit_emit, Block.make, Block.wire, List.length_append, List.append_assoc]
  congr 1
  omega

theorem prependBlock_eq (tag : Tag) (encoder : EncodingImpl tag) (blk : Block) :
    prependBlock tag encoder blk =
      (blk.asWritten.wire.length, emit tag encoder blk.asWritten.wire) := by
  unfold prependBlock Block.asWritten
  by_cases h : blk.hasWire = true
  · simp only [h, if_true, prependByteArray_eq]
  · simp only [h, if_false, prependByteArrayBlock_eq]
    rfl

section Encoding

variable {Comp Excl KL : Type}

theorem setNonce_frame (E : Env Comp Excl KL) (b : Bead Comp Excl KL) (x : Nat) :
    (b.setNonce E x).m_name = b.m_name ∧ (b.setNonce E x).m_selectors = b.m_selectors ∧
    (b.setNonce E x).m_token = b.m_token ∧
    (b.setNonce E x).m_BeadLifetime = b.m_BeadLifetime ∧
    (b.setNonce E x).m_link = b.m_link ∧
    (b.setNonce E x).m_selectedDelegationIndex = b.m_selectedDelegationIndex := by
  unfold Bead.setNonce
  split_ifs <;> simp [Bead.resetWire]

theorem getNonce_state (E : Env Comp Excl KL) (b : Bead Comp Excl KL) (rnd : Nat) :
    (b.getNonce E rnd).2 = if !b.m_nonce.hasWire then b.setNonce E rnd else b := by
  unfold Bead.getNonce
  simp only
  split_ifs <;> first | rfl | (split <;> rfl)

theorem getNonce_frame (E : Env Comp Excl KL) (b : Bead Comp Excl KL) (rnd : Nat) :
    (b.getNonce E rnd).2.m_name = b.m_name ∧
    (b.getNonce E rnd).2.m_selectors = b.m_selectors ∧
    (b.getNonce E rnd).2.m_token = b.m_token ∧
    (b.getNonce E rnd).2.m_BeadLifetime = b.m_BeadLifetime ∧
    (b.getNonce E rnd).2.m_link = b.m_link ∧
    (b.getNonce E rnd).2.m_selectedDelegationIndex = b.m_selectedDelegationIndex := by
  rw [getNonce_state]
  split_ifs
  · exact setNonce_frame E b rnd
  · simp

/-- With a selected delegation and no link the encoding template stops at its
assertion: nothing is written and the bead is as before. -/
theorem wireEncodeT_assert (E : Env Comp Excl KL) (tag : Tag) (b : Bead Comp Excl KL)
    (rnd : Nat) (encoder : EncodingImpl tag) (hl : b.hasLink = false)
    (hs : b.hasSelectedDelegation = true) :
    b.wireEncodeT E tag rnd encoder = (.error .assertion, b) := by
  unfold Bead.wireEncodeT
  simp only [hl, hs, Bool.false_eq_true, if_false, if_true]

/-- What the encoding template returns when its assertion holds (a selected
delegation comes with a link): the length and the octets of the Bead element
made of `encodedElements`, or the error of `getNonce`. -/
theorem wireEncodeT_eq (E : Env Comp Excl KL) (tag : Tag) (b : Bead Comp Excl KL) (rnd : Nat)
    (encoder : EncodingImpl tag) (hsel : b.hasSelectedDelegation = true → b.hasLink = true) :
    b.wireEncodeT E tag rnd encoder =
      match (b.getNonce E rnd).1 with
      | .error e => (.error e, (b.getNonce E rnd).2)
      | .ok _ =>
        (.ok ((Block.make E.tlv.Bead (wireOf ((b.getNonce E rnd).2.encodedElements E))).wire.length,
              emit tag encoder
                (Block.make E.tlv.Bead (wireOf ((b.getNonce E rnd).2.encodedElements E))).wire),
          (b.getNonce E rnd).2) := by
  obtain ⟨h1, h2, h3, h4, h5, h6⟩ := getNonce_frame E b rnd
  unfold Bead.wireEncodeT
  rcases hg : b.getNonce E rnd with ⟨r, b'⟩
  rw [hg] at h1 h2 h3 h4 h5 h6
  simp only at h1 h2 h3 h4 h5 h6
  have e1 : b'.hasLink = b.hasLink := by simp [Bead.hasLink, h5]
  have e2 : b'.hasSelectedDelegation = b.hasSelectedDelegation := by
    simp [Bead.hasSelectedDelegation, h6]
  have e3 : b'.getBeadLifetime = b.getBeadLifetime := by simp [Bead.getBeadLifetime, h4]
  have e4 : b.hasLink = true → b.m_link.asWritten = b.m_link := by
    intro h; simp [Block.asWritten, Bead.hasLink] at h ⊢; simp [h]
  by_cases c1 : b.hasLink = true
  · simp only [c1, if_true]
    cases r with
    | error e => rfl
    | ok v =>
      simp only [prependBlock_eq, prependVarNumber_eq, prependNonNegativeIntegerBlock_eq,
        Bead.nameWireEncodeT, Bead.selectorsWireEncodeT, prependByteArrayBlock_eq]
      simp only [Bead.encodedElements, e1, e2, e3, h6, h5, c1, if_true]
      rw [e4 c1]
      split_ifs
      all_goals
        simp only [emit_emit, emit_nil, wireOf, List.map_append, List.flatten_append,
          List.map_nil, List.map_cons, List.flatten_cons, List.flatten_nil, List.append_nil,
          List.nil_append, List.cons_append, List.append_assoc]
        generalize (Block.make E.tlv.Name (E.nameValue b'.m_name)).wire = aName
        generalize (Block.make E.tlv.Selectors (E.selectorsValue b'.m_selectors)).wire = aSel
        generalize b'.m_token.asWritten.wire = aTok
        generalize b'.m_nonce.asWritten.wire = aNonce
        generalize (Block.make E.tlv.BeadLifetime
          (writeNonNegativeInteger b.getBeadLifetime.toNat)).wire = aLife
        generalize b.m_link.wire = aLink
        generalize (Block.make E.tlv.SelectedDelegation
          (writeNonNegativeInteger b.m_selectedDelegationIndex)).wire = aSD
        rw [Block.make_wire]
        generalize writeVarNumber E.tlv.Bead = aBead
        simp only [List.length_append, List.length_nil, Nat.zero_add, Nat.add_zero,
          Nat.add_assoc, Nat.add_comm, Nat.add_left_comm]
  · have c2 : b.hasSelectedDelegation = false := by
      by_contra hc
      exact c1 (hsel (by simpa using hc))
    have c1f : b.hasLink = false := by simpa using c1
    simp only [c1f, c2, Bool.false_eq_true, if_false]
    cases r with
    | error e => rfl
    | ok v =>
      simp only [prependBlock_eq, prependVarNumber_eq, prependNonNegativeIntegerBlock_eq,
        Bead.nameWireEncodeT, Bead.selectorsWireEncodeT, prependByteArrayBlock_eq]
      simp only [Bead.encodedElements, e1, e2, e3, h6, h5, c1f, c2, Bool.false_eq_true, if_false]
      split_ifs
      all_goals
        simp only [emit_emit, emit_nil, wireOf, List.map_append, List.flatten_append,
          List.map_nil, List.map_cons, List.flatten_cons, List.flatten_nil, List.append_nil,
          List.nil_append, List.cons_append, List.append_assoc]
        generalize (Block.make E.tlv.Name (E.nameValue b'.m_name)).wire = aName
        generalize (Block.make E.tlv.Selectors (E.selectorsValue b'.m_selectors)).wire = aSel
        generalize b'.m_token.asWritten.wire = aTok
        generalize b'.m_nonce.asWritten.wire = aNonce
        generalize (Block.make E.tlv.BeadLifetime
          (writeNonNegativeInteger b.getBeadLifetime.toNat)).wire = aLife
        rw [Block.make_wire]
        generalize writeVarNumber E.tlv.Bead = aBead
        simp only [List.length_append, List.length_nil, Nat.zero_add, Nat.add_zero,
          Nat.add_assoc, Nat.add_comm, Nat.add_left_comm]

theorem getNonce_of_hasWire (E : Env Comp Excl KL) (b : Bead Comp Excl KL) (rnd : Nat)
    (h : b.m_nonce.hasWire = true) : (b.getNonce E rnd).2 = b := by
  rw [getNonce_state]; simp [h]

theorem getNonce_nonce (E : Env Comp Excl KL) (b : Bead Comp Excl KL) (rnd : Nat) :
    (b.getNonce E rnd).2.m_nonce.hasWire = true ∧
    (b.m_nonce.hasWire = true → (b.getNonce E rnd).2.m_nonce = b.m_nonce) ∧
    (b.m_nonce.hasWire = false →
      (b.getNonce E rnd).2.m_nonce = Block.make E.tlv.Nonce (word32Bytes rnd)) := by
  rw [getNonce_state]
  by_cases h : b.m_nonce.hasWire = true
  · simp [h]
  · have h2 : b.m_nonce.hasWire = false := by simpa using h
    have hs : (b.setNonce E rnd).m_nonce = Block.make E.tlv.Nonce (word32Bytes rnd) := by
      unfold Bead.setNonce
      simp [Block.value_size, h2, Bead.resetWire]
    simp [h2, hs, Block.make]

theorem getNonce_ok (E : Env Comp Excl KL) (b : Bead Comp Excl KL) (rnd : Nat)
    (h : b.nonceReadable) : ∃ v, (b.getNonce E rnd).1 = .ok v := by
  by_cases hw : b.m_nonce.hasWire = true
  · have hl : b.m_nonce.value.length = 1 ∨ b.m_nonce.value.length = 2 ∨
        b.m_nonce.value.length = 4 ∨ b.m_nonce.value.length = 8 := by
      rcases h with h | h
      · rw [hw] at h; exact absurd h (by simp)
      · exact h
    unfold Bead.getNonce
    simp only [hw, Bool.not_true, Bool.false_eq_true, if_false, Block.value_size, if_true]
    by_cases h4 : b.m_nonce.value.length = 4
    · exact ⟨_, by rw [if_pos h4]⟩
    · rw [if_neg h4]
      have : readNonNegativeIntegerBytes b.m_nonce.value = some (beValue b.m_nonce.value) := by
        unfold readNonNegativeIntegerBytes
        rw [if_pos hl]
      rw [this]
      exact ⟨_, rfl⟩
  · have h2 : b.m_nonce.hasWire = false := by simpa using hw
    have hs : (b.setNonce E rnd).m_nonce = Block.make E.tlv.Nonce (word32Bytes rnd) := by
      unfold Bead.setNonce
      simp [Block.value_size, h2, Bead.resetWire]
    unfold Bead.getNonce
    simp only [h2, Bool.not_false, if_true, hs]
    have h4 : (Block.make E.tlv.Nonce (word32Bytes rnd)).value_size = 4 := by
      simp [Block.value_size, Block.make, word32Bytes]
    rw [if_pos h4]
    exact ⟨_, rfl⟩

theorem getNonce_congr (E : Env Comp Excl KL) (b1 b2 : Bead Comp Excl KL) (r1 r2 : Nat)
    (h : b1.m_nonce = b2.m_nonce) (hw : b2.m_nonce.hasWire = true) :
    (b1.getNonce E r1).1 = (b2.getNonce E r2).1 := by
  unfold Bead.getNonce
  simp only [h, hw, Bool.not_true, Bool.false_eq_true, if_false]
  split_ifs
  · rfl
  · cases readNonNegativeIntegerBytes b2.m_nonce.value <;> rfl

theorem getNonce_readable (E : Env Comp Excl KL) (b : Bead Comp Excl KL) (rnd : Nat)
    (h : b.nonceReadable) : (b.getNonce E rnd).2.nonceReadable := by
  by_cases hw : b.m_nonce.hasWire = true
  · rw [getNonce_of_hasWire E b rnd hw]; exact h
  · have h2 : b.m_nonce.hasWire = false := by simpa using hw
    have := (getNonce_nonce E b rnd).2.2 h2
    unfold Bead.nonceReadable
    rw [this]
    simp [Block.make, word32Bytes]

/-- Under `nonceReadable`, and when its assertion holds, the encoding template
returns the Bead element. -/
theorem wireEncodeT_ok (E : Env Comp Excl KL) (tag : Tag) (b : Bead Comp Excl KL) (rnd : Nat)
    (encoder : EncodingImpl tag) (hsel : b.hasSelectedDelegation = true → b.hasLink = true)
    (h : b.nonceReadable) :
    b.wireEncodeT E tag rnd encoder =
      (.ok ((Block.make E.tlv.Bead (wireOf ((b.getNonce E rnd).2.encodedElements E))).wire.length,
            emit tag encoder
              (Block.make E.tlv.Bead (wireOf ((b.getNonce E rnd).2.encodedElements E))).wire),
        (b.getNonce E rnd).2) := by
  obtain ⟨v, hv⟩ := getNonce_ok E b rnd h
  rw [wireEncodeT_eq E tag b rnd encoder hsel, hv]

theorem getNonce_error (E : Env Comp Excl KL) (b : Bead Comp Excl KL) (rnd : Nat)
    (h : ¬ b.nonceReadable) : b.getNonce E rnd = (.error .tlv, b) := by
  unfold Bead.nonceReadable at h
  simp only [not_or] at h
  obtain ⟨hw, h1, h2, h4, h8⟩ := h
  have hw2 : b.m_nonce.hasWire = true := by simpa using hw
  unfold Bead.getNonce
  simp only [hw2, Bool.not_true, Bool.false_eq_true, if_false, Block.value_size, if_true]
  rw [if_neg h4]
  have : readNonNegativeIntegerBytes b.m_nonce.value = none := by
    unfold readNonNegativeIntegerBytes
    rw [if_neg (by simp only [not_or]; exact ⟨h1, h2, h4, h8⟩)]
  rw [this]

/-- When the nonce cannot be read (and the assertion holds), the encoding
template throws and leaves the bead as it is. -/
theorem wireEncodeT_error (E : Env Comp Excl KL) (tag : Tag) (b : Bead Comp Excl KL) (rnd : Nat)
    (encoder : EncodingImpl tag) (hsel : b.hasSelectedDelegation = true → b.hasLink = true)
    (h : ¬ b.nonceReadable) :
    b.wireEncodeT E tag rnd encoder = (.error .tlv, b) := by
  rw [wireEncodeT_eq E tag b rnd encoder hsel, getNonce_error E b rnd h]

/-- `getNonce()` keeps the condition of the assertion of the encoding
template. -/
theorem getNonce_sel (E : Env Comp Excl KL) (b : Bead Comp Excl KL) (rnd : Nat)
    (hsel : b.hasSelectedDelegation = true → b.hasLink = true) :
    (b.getNonce E rnd).2.hasSelectedDelegation = true → (b.getNonce E rnd).2.hasLink = true := by
  obtain ⟨_, _, _, _, h5, h6⟩ := getNonce_frame E b rnd
  unfold Bead.hasSelectedDelegation Bead.hasLink at hsel ⊢
  rw [h5, h6]
  exact hsel

theorem asWritten_of_hasWire {blk : Block} (h : blk.hasWire = true) : blk.asWritten = blk := by
  simp [Block.asWritten, h]

/-- Claim C6.  The layout `wireEncode(encoder)` writes for a bead whose token is
set.  When a selected delegation comes with a link (the condition of the
`BOOST_ASSERT` of the branch without a link) and the nonce is unset or readable,
the value of the outer element is,
in this order, the Name element, the Selectors element if the selectors are not
empty, the token block, the nonce block, a BeadLifetime element with the
millisecond count if the lifetime is non-negative and not 4000, the link block as
stored if there is a link, and a SelectedDelegation element with the index if
there is a link and a selected delegation; the outer type is `Bead` and the outer
length is the length of that value.  The returned length is the number of octets.
The nonce block is the bead's own when it is set and a fresh Nonce element of
the four octets of the random word otherwise; a token set with `setToken` is a
Token element holding the string.  When the nonce is set and cannot be read (its
value has not 1, 2, 4 or 8 octets) `getNonce` throws and nothing is produced.
When a delegation is selected and there is no link, the assertion stops the
call: nothing is produced. -/
theorem C6_encode_layout (E : Env Comp Excl KL) (b : Bead Comp Excl KL) (rnd : Nat)
    (hTok : b.m_token.hasWire = true) :
    let b' := (b.getNonce E rnd).2
    let value :=
      (Block.make E.tlv.Name (E.nameValue b.m_name)).wire ++
      (if b.hasSelectors E then
         (Block.make E.tlv.Selectors (E.selectorsValue b.m_selectors)).wire else []) ++
      b.m_token.wire ++
      b'.m_nonce.wire ++
      (if 0 ≤ b.getBeadLifetime ∧ b.getBeadLifetime ≠ 4000 then
         (Block.make E.tlv.BeadLifetime
           (writeNonNegativeInteger b.getBeadLifetime.toNat)).wire else []) ++
      (if b.hasLink then b.m_link.wire else []) ++
      (if b.hasLink ∧ b.hasSelectedDelegation then
         (Block.make E.tlv.SelectedDelegation
           (writeNonNegativeInteger b.m_selectedDelegationIndex)).wire else [])
    let bytes := writeVarNumber E.tlv.Bead ++ writeVarNumber value.length ++ value
    ((b.hasSelectedDelegation = true → b.hasLink = true) → b.nonceReadable →
      b.wireEncodeT E .EncoderTag rnd [] = (.ok (bytes.length, bytes), b')) ∧
    ((b.hasSelectedDelegation = true → b.hasLink = true) → ¬ b.nonceReadable →
      b.wireEncodeT E .EncoderTag rnd [] = (.error .tlv, b)) ∧
    (b.hasSelectedDelegation = true → b.hasLink = false →
      b.wireEncodeT E .EncoderTag rnd [] = (.error .assertion, b)) ∧
    (b.m_nonce.hasWire = true → b'.m_nonce = b.m_nonce) ∧
    (b.m_nonce.hasWire = false → b'.m_nonce = Block.make E.tlv.Nonce (word32Bytes rnd)) ∧
    (∀ s : List Byte, (b.setToken E s).m_token.wire =
      writeVarNumber E.tlv.Token ++ writeVarNumber s.length ++ s) := by
  intro b' value bytes
  obtain ⟨h1, h2, h3, h4, h5, h6⟩ := getNonce_frame E b rnd
  obtain ⟨n1, n2, n3⟩ := getNonce_nonce E b rnd
  refine ⟨?_, wireEncodeT_error E .EncoderTag b rnd [],
    fun hs hl => wireEncodeT_assert E .EncoderTag b rnd [] hl hs, n2, n3, ?_⟩
  · intro hsel hN
    rw [wireEncodeT_ok E .EncoderTag b rnd [] hsel hN]
    have hv : wireOf ((b.getNonce E rnd).2.encodedElements E) = value := by
      have e1 : b'.hasLink = b.hasLink := by simp [b', Bead.hasLink, h5]
      have e2 : b'.hasSelectedDelegation = b.hasSelectedDelegation := by
        simp [b', Bead.hasSelectedDelegation, h6]
      have e3 : b'.getBeadLifetime = b.getBeadLifetime := by simp [b', Bead.getBeadLifetime, h4]
      have e4 : b'.hasSelectors E = b.hasSelectors E := by simp [b', Bead.hasSelectors, h2]
      have e5 : b'.m_token.asWritten = b.m_token := by
        simp only [b', h3]; exact asWritten_of_hasWire hTok
      have e6 : b'.m_nonce.asWritten = b'.m_nonce := asWritten_of_hasWire n1
      show wireOf (b'.encodedElements E) = value
      simp only [Bead.encodedElements, e1, e2, e3, e4, e5, e6, value, DEFAULT_Bead_LIFETIME]
      simp only [b'] at *
      rw [h1, h2, h5, h6]
      split_ifs <;> simp_all [wireOf]
    rw [hv]
    simp only [emit, List.append_nil, Block.make_wire, bytes, List.append_assoc]
  · intro s
    simp [Bead.setToken, Bead.resetWire, Block.make_wire]

/-- The layout of `Sample.beadFull` with the random word `0x12345678`: Name,
Selectors, Token, Nonce, BeadLifetime (1000), the link and SelectedDelegation
(1), inside a Bead element of length 57.  After a `setLink` that threw, the bead
has a selection and no link, and the call stops at the assertion. -/
theorem C6_encode_layout_witness :
    Sample.beadFull.m_token.hasWire = true ∧
    (Sample.beadFull.hasSelectedDelegation = true → Sample.beadFull.hasLink = true) ∧
    Sample.beadFull.nonceReadable ∧
    (Sample.beadFull.wireEncodeT Sample.env .EncoderTag 305419896 []).1 =
      .ok (59, [5, 57,
        7, 6, 8, 1, 97, 8, 1, 98,
        9, 8, 13, 1, 1, 16, 3, 8, 1, 99,
        11, 1, 116,
        10, 4, 120, 86, 52, 18,
        12, 2, 3, 232,
        6, 21, 7, 3, 8, 1, 108, 21, 14, 31, 5, 7, 3, 8, 1, 120, 31, 5, 7, 3, 8, 1, 121,
        32, 1, 1]) ∧
    (Sample.beadFull.setLink Block.empty).2.m_token.hasWire = true ∧
    (Sample.beadFull.setLink Block.empty).2.hasSelectedDelegation = true ∧
    (Sample.beadFull.setLink Block.empty).2.hasLink = false ∧
    (Sample.beadFull.setLink Block.empty).2.wireEncodeT Sample.env .EncoderTag 305419896 [] =
      (.error .assertion, (Sample.beadFull.setLink Block.empty).2) := by
  refine ⟨by decide, by decide, by decide, ?_, rfl, rfl, rfl,
    (C6_encode_layout Sample.env (Sample.beadFull.setLink Block.empty).2 305419896
      rfl).2.2.1 rfl rfl⟩
  rw [(C6_encode_layout Sample.env Sample.beadFull 305419896 (by decide)).1 (by decide)
    (by decide)]
  rfl

/-- `wireDecode` stores the given block as the cached wire, whatever else it
does. -/
theorem wireDecode_wire (E : Env Comp Excl KL) (b : Bead Comp Excl KL) (w : Block) :
    (b.wireDecode E w).2.m_wire = w := by
  unfold Bead.wireDecode
  simp only
  repeat' split
  all_goals rfl

/-- Estimation and encoding agree when the assertion of the encoding template
holds and the nonce is unset or readable. -/
theorem estimate_agrees (E : Env Comp Excl KL) (b : Bead Comp Excl KL) (rnd rnd2 : Nat)
    (hsel : b.hasSelectedDelegation = true → b.hasLink = true) (hN : b.nonceReadable) :
    ∃ (n : Nat) (bytes : List Byte),
      b.wireEncodeT E .EstimatorTag rnd [] = (.ok (n, []), (b.getNonce E rnd).2) ∧
      (b.getNonce E rnd).2.wireEncodeT E .EncoderTag rnd2 [] =
        (.ok (n, bytes), (b.getNonce E rnd).2) ∧
      bytes.length = n ∧
      (∀ (blk : Block) (b2 : Bead Comp Excl KL), b.m_wire.hasWire = false →
        b.wireEncode E rnd = (.ok blk, b2) → blk.wire = bytes ∧ blk.size = n) := by
  have hw1 := (getNonce_nonce E b rnd).1
  have hst : ((b.getNonce E rnd).2.getNonce E rnd2).2 = (b.getNonce E rnd).2 :=
    getNonce_of_hasWire E _ rnd2 hw1
  have hst1 : ((b.getNonce E rnd).2.getNonce E rnd).2 = (b.getNonce E rnd).2 :=
    getNonce_of_hasWire E _ rnd hw1
  have hr := getNonce_readable E b rnd hN
  have hsel2 := getNonce_sel E b rnd hsel
  have hest := wireEncodeT_ok E .EstimatorTag b rnd [] hsel hN
  have henc := wireEncodeT_ok E .EncoderTag (b.getNonce E rnd).2 rnd2 [] hsel2 hr
  have henc1 := wireEncodeT_ok E .EncoderTag (b.getNonce E rnd).2 rnd [] hsel2 hr
  rw [hst] at henc
  rw [hst1] at henc1
  simp only [emit, List.append_nil] at hest henc henc1
  refine ⟨_, _, hest, henc, rfl, ?_⟩
  intro blk b2 hnw hen
  unfold Bead.wireEncode at hen
  rw [if_neg (by simp [hnw]), hest] at hen
  simp only at hen
  rw [henc1] at hen
  simp only at hen
  cases hf : Block.fromBuffer
      (Block.make E.tlv.Bead (wireOf ((b.getNonce E rnd).2.encodedElements E))).wire with
  | none => rw [hf] at hen; simp at hen
  | some block =>
    rw [hf] at hen
    simp only at hen
    have hwire := wireDecode_wire E (b.getNonce E rnd).2 block
    rcases hd : (b.getNonce E rnd).2.wireDecode E block with ⟨r, b3⟩
    rw [hd] at hen hwire
    cases r with
    | error e => simp at hen
    | ok u =>
      simp only [Prod.mk.injEq, Except.ok.injEq] at hen
      simp only at hwire
      obtain ⟨h1, h2⟩ := hen
      rw [← h1, hwire]
      have := (fromBuffer_sound hf).1
      exact ⟨this, by rw [Block.size, this]⟩

/-- Claim C8.  Estimation and encoding agree, for every bead.  When a selected
delegation comes with a link (the condition of the `BOOST_ASSERT` of the branch
without a link) and the nonce is
unset or readable, the estimation pass returns a length `n` and writes nothing;
the encoding pass that follows (on the bead as the estimation pass left it, with
any random word) returns the same `n` and writes exactly `n` octets; and the
block `wireEncode()` returns for a bead without a cached wire consists of those
octets, so its size is `n`.  When the nonce is set and cannot be read, both
passes and `wireEncode()` throw the error of `getNonce` and no length is
returned.  When a delegation is selected and there is no link, both passes and
`wireEncode()` stop at the assertion and no length is returned. -/
theorem C8_estimate_agrees (E : Env Comp Excl KL) (b : Bead Comp Excl KL) (rnd rnd2 : Nat) :
    ((b.hasSelectedDelegation = true → b.hasLink = true) → b.nonceReadable →
      ∃ (n : Nat) (bytes : List Byte),
        b.wireEncodeT E .EstimatorTag rnd [] = (.ok (n, []), (b.getNonce E rnd).2) ∧
        (b.getNonce E rnd).2.wireEncodeT E .EncoderTag rnd2 [] =
          (.ok (n, bytes), (b.getNonce E rnd).2) ∧
        bytes.length = n ∧
        (∀ (blk : Block) (b2 : Bead Comp Excl KL), b.m_wire.hasWire = false →
          b.wireEncode E rnd = (.ok blk, b2) → blk.wire = bytes ∧ blk.size = n)) ∧
    ((b.hasSelectedDelegation = true → b.hasLink = true) → ¬ b.nonceReadable →
      b.wireEncodeT E .EstimatorTag rnd [] = (.error .tlv, b) ∧
      b.wireEncodeT E .EncoderTag rnd2 [] = (.error .tlv, b) ∧
      (b.m_wire.hasWire = false → b.wireEncode E rnd = (.error .tlv, b))) ∧
    (b.hasSelectedDelegation = true → b.hasLink = false →
      b.wireEncodeT E .EstimatorTag rnd [] = (.error .assertion, b) ∧
      b.wireEncodeT E .EncoderTag rnd2 [] = (.error .assertion, b) ∧
      (b.m_wire.hasWire = false → b.wireEncode E rnd = (.error .assertion, b))) := by
  refine ⟨estimate_agrees E b rnd rnd2, fun hsel h => ⟨wireEncodeT_error E _ b rnd [] hsel h,
    wireEncodeT_error E _ b rnd2 [] hsel h, fun hw => ?_⟩,
    fun hs hl => ⟨wireEncodeT_assert E _ b rnd [] hl hs,
      wireEncodeT_assert E _ b rnd2 [] hl hs, fun hw => ?_⟩⟩
  · unfold Bead.wireEncode
    rw [if_neg (by simp [hw]), wireEncodeT_error E _ b rnd [] hsel h]
  · unfold Bead.wireEncode
    rw [if_neg (by simp [hw]), wireEncodeT_assert E _ b rnd [] hl hs]

end Encoding

/-! ## Decoding: theorems -/

theorem findType_eq_none {t : Nat} {es : List Block} (h : t ∉ es.map Block.type) :
    findType t es = none := by
  apply findType_none
  intro e he hty
  exact h (List.mem_map.2 ⟨e, he, hty⟩)

theorem findType_eq_some {es : List Block} {e : Block}
    (hnd : (es.map Block.type).Nodup) (he : e ∈ es) : findType e.type es = some e := by
  induction es with
  | nil => simp at he
  | cons x xs ih =>
    simp only [List.map_cons, List.nodup_cons] at hnd
    unfold findType
    rw [List.find?_cons]
    by_cases hx : x.type = e.type
    · have : e = x := by
        rcases List.mem_cons.1 he with h | h
        · exact h
        · exact absurd (List.mem_map.2 ⟨e, h, hx.symm⟩) hnd.1
      simp [hx, this]
    · have hx2 : (x.type == e.type) = false := by simpa using hx
      rcases List.mem_cons.1 he with h | h
      · exact absurd (by rw [h]) hx
      · rw [hx2]
        exact ih hnd.2 h

theorem writeVarNumber_length_le (n : Nat) : (writeVarNumber n).length ≤ 9 := by
  rw [writeVarNumber_length]; unfold sizeOfVarNumber; split_ifs <;> omega

theorem writeNonNegativeInteger_length_le (n : Nat) :
    (writeNonNegativeInteger n).length ≤ 8 := by
  rw [writeNonNegativeInteger_length]; unfold sizeOfNonNegativeInteger; split_ifs <;> omega

theorem readNonNegativeInteger_write (n : Nat) (h : n < 18446744073709551616) :
    readNonNegativeIntegerBytes (writeNonNegativeInteger n) = some n := by
  unfold readNonNegativeIntegerBytes
  have hl := writeNonNegativeInteger_length n
  have hv : beValue (writeNonNegativeInteger n) = n := by
    unfold writeNonNegativeInteger
    rw [beValue_beBytes]
    unfold sizeOfNonNegativeInteger
    split_ifs <;> (apply Nat.mod_eq_of_lt; omega)
  rw [hv, if_pos]
  rw [hl]; unfold sizeOfNonNegativeInteger; split_ifs <;> simp

theorem Block.make_size (t : Nat) (v : List Byte) :
    (Block.make t v).size ≤ 18 + v.length := by
  have h1 := writeVarNumber_length_le t
  have h2 := writeVarNumber_length_le v.length
  simp only [Block.size, Block.make_wire, List.length_append]
  omega

theorem elements_make (t : Nat) (es : List Block) (hwf : ∀ e ∈ es, e.WF) (hne : es ≠ []) :
    (Block.make t (wireOf es)).elements = some es := by
  unfold Block.elements
  have hpos : 0 < (wireOf es).length := by
    cases es with
    | nil => exact absurd rfl hne
    | cons e rest =>
      have := Block.wire_length_pos (hwf e (List.mem_cons_self _ _))
      simp only [wireOf, List.map_cons, List.flatten_cons, List.length_append]
      omega
  have hvs : (Block.make t (wireOf es)).value_size ≠ 0 := by
    simp only [Block.value_size, Block.make, if_true]; omega
  rw [if_neg hvs]
  exact parseElements_wireOf es hwf _ (Nat.le_refl _)

section Decoding

variable {Comp Excl KL : Type}

theorem typesOk_le {T : TlvTypes} (h : TypesOk T) :
    T.Bead ≤ 4294967295 ∧ T.Name ≤ 4294967295 ∧ T.Selectors ≤ 4294967295 ∧
    T.Token ≤ 4294967295 ∧ T.Nonce ≤ 4294967295 ∧ T.BeadLifetime ≤ 4294967295 ∧
    T.Data ≤ 4294967295 ∧ T.SelectedDelegation ≤ 4294967295 := by
  have := h.2
  simp only [List.mem_cons, List.mem_singleton, forall_eq_or_imp, forall_eq,
    List.not_mem_nil, false_imp_iff, implies_true, and_true] at this
  exact this

/-- No optional element type occurs among the types of the other elements. -/
theorem types_not_mem {T : TlvTypes} (h : TypesOk T) (s l k d : Prop)
    [Decidable s] [Decidable l] [Decidable k] [Decidable d] :
    (¬ s → T.Selectors ∉
      [T.Name] ++ (if s then [T.Selectors] else []) ++ [T.Token, T.Nonce] ++
      (if l then [T.BeadLifetime] else []) ++
      (if k then [T.Data] ++ (if d then [T.SelectedDelegation] else []) else [])) ∧
    (¬ l → T.BeadLifetime ∉
      [T.Name] ++ (if s then [T.Selectors] else []) ++ [T.Token, T.Nonce] ++
      (if l then [T.BeadLifetime] else []) ++
      (if k then [T.Data] ++ (if d then [T.SelectedDelegation] else []) else [])) ∧
    (¬ k → T.Data ∉
      [T.Name] ++ (if s then [T.Selectors] else []) ++ [T.Token, T.Nonce] ++
      (if l then [T.BeadLifetime] else []) ++
      (if k then [T.Data] ++ (if d then [T.SelectedDelegation] else []) else [])) ∧
    (¬ (k ∧ d) → T.SelectedDelegation ∉
      [T.Name] ++ (if s then [T.Selectors] else []) ++ [T.Token, T.Nonce] ++
      (if l then [T.BeadLifetime] else []) ++
      (if k then [T.Data] ++ (if d then [T.SelectedDelegation] else []) else [])) := by
  have hd := h.1
  clear h
  simp only [List.nodup_cons, List.mem_cons, List.mem_singleton, List.not_mem_nil,
    not_or, List.nodup_nil, and_true, or_false] at hd
  obtain ⟨⟨n1, n2, n3, n4, n5, n6⟩, ⟨s1, s2, s3, s4, s5⟩, ⟨t1, t2, t3, t4⟩, ⟨o1, o2, o3⟩,
    ⟨l1, l2⟩, d1, _⟩ := hd
  by_cases hs : s <;> by_cases hl : l <;> by_cases hk : k <;> by_cases hdd : d <;>
    simp [hs, hl, hk, hdd, n1, n2, n3, n4, n5, n6, s1, s2, s3, s4, s5, t1, t2, t3, t4,
      o1, o2, o3, l1, l2, d1, Ne.symm n1, Ne.symm n2, Ne.symm n3, Ne.symm n4, Ne.symm n5,
      Ne.symm n6, Ne.symm s1, Ne.symm s2, Ne.symm s3, Ne.symm s4, Ne.symm s5, Ne.symm t1,
      Ne.symm t2, Ne.symm t3, Ne.symm t4, Ne.symm o1, Ne.symm o2, Ne.symm o3, Ne.symm l1,
      Ne.symm l2, Ne.symm d1]

/-- The types of the encoded elements, in order. -/
theorem encodedElements_types (E : Env Comp Excl KL) (q : Bead Comp Excl KL)
    (hv : q.Valid E) (hn : q.m_nonce.hasWire = true) :
    (q.encodedElements E).map Block.type =
      [E.tlv.Name] ++ (if q.hasSelectors E then [E.tlv.Selectors] else []) ++
      [E.tlv.Token, E.tlv.Nonce] ++
      (if 0 ≤ q.getBeadLifetime ∧ q.getBeadLifetime ≠ DEFAULT_Bead_LIFETIME then
        [E.tlv.BeadLifetime] else []) ++
      (if q.hasLink then
        [E.tlv.Data] ++ (if q.hasSelectedDelegation then [E.tlv.SelectedDelegation] else [])
       else []) := by
  have ht : q.m_token.asWritten.type = E.tlv.Token := by
    rw [asWritten_of_hasWire hv.token.1.1]; exact hv.token.2
  have hno : q.m_nonce.asWritten.type = E.tlv.Nonce := by
    rw [asWritten_of_hasWire hn]; exact (hv.nonce hn).2.1
  have hl : q.hasLink = true → q.m_link.type = E.tlv.Data := fun h => (hv.link h).2
  unfold Bead.encodedElements
  split_ifs with c1 c2 c3 c4 <;> simp [Block.make, ht, hno] <;> exact hl (by assumption)

theorem encodedElements_nodup (E : Env Comp Excl KL) (q : Bead Comp Excl KL)
    (hv : q.Valid E) (hn : q.m_nonce.hasWire = true) :
    ((q.encodedElements E).map Block.type).Nodup := by
  rw [encodedElements_types E q hv hn]
  have hd := hv.types.1
  simp only [List.nodup_cons, List.mem_cons, List.mem_singleton, List.not_mem_nil,
    not_or, List.nodup_nil, and_true, or_false] at hd
  split_ifs <;>
    simp only [List.nodup_cons, List.mem_cons, List.mem_singleton, List.not_mem_nil,
      not_or, List.nodup_nil, and_true, or_false, List.cons_append, List.nil_append,
      List.append_nil, List.mem_append, not_false_eq_true, true_and] <;>
    tauto

theorem encodedElements_WF (E : Env Comp Excl KL) (q : Bead Comp Excl KL)
    (hv : q.Valid E) (hn : q.m_nonce.hasWire = true) :
    ∀ e ∈ q.encodedElements E, e.WF := by
  obtain ⟨tB, tN, tS, tT, tNo, tL, tD, tSD⟩ := typesOk_le hv.types
  have hsz := hv.size
  have hName : (Block.make E.tlv.Name (E.nameValue q.m_name)).WF :=
    Block.make_WF _ _ tN (by omega)
  have hSel : (Block.make E.tlv.Selectors (E.selectorsValue q.m_selectors)).WF :=
    Block.make_WF _ _ tS (by omega)
  have hTok : q.m_token.asWritten.WF := by
    rw [asWritten_of_hasWire hv.token.1.1]; exact hv.token.1
  have hNonce : q.m_nonce.asWritten.WF := by
    rw [asWritten_of_hasWire hn]; exact (hv.nonce hn).1
  have hLife : (Block.make E.tlv.BeadLifetime
      (writeNonNegativeInteger q.getBeadLifetime.toNat)).WF :=
    Block.make_WF _ _ tL (by have := writeNonNegativeInteger_length_le q.getBeadLifetime.toNat; omega)
  have hSD : (Block.make E.tlv.SelectedDelegation
      (writeNonNegativeInteger q.m_selectedDelegationIndex)).WF :=
    Block.make_WF _ _ tSD
      (by have := writeNonNegativeInteger_length_le q.m_selectedDelegationIndex; omega)
  have hLink : q.hasLink = true → q.m_link.WF := fun h => (hv.link h).1
  unfold Bead.encodedElements
  split_ifs with c1 c2 c3 c4 <;>
    simp only [List.mem_append, List.mem_cons, List.mem_singleton, List.not_mem_nil,
      or_false, false_or, List.append_nil, or_imp, forall_and, forall_eq] <;>
    simp only [hName, hSel, hTok, hNonce, hLife, hSD, and_self, true_and, and_true] <;>
    exact hLink (by assumption)

theorem encodedElements_ne_nil (E : Env Comp Excl KL) (q : Bead Comp Excl KL) :
    q.encodedElements E ≠ [] := by
  unfold Bead.encodedElements
  simp

theorem toInt64_of_lt (n : Nat) (h : n < 9223372036854775808) : Bead.toInt64 n = n := by
  unfold Bead.toInt64
  have : n % 18446744073709551616 = n := Nat.mod_eq_of_lt (by omega)
  rw [this, if_pos h]

/-- Decoding the Bead element made of the encoded elements of a valid bead `q`
(nonce in place) into any bead `b0`: every field is read back; a lifetime that
was not encoded becomes the default; the link and the selected delegation of
`b0` stay when the element has none. -/
theorem wireDecode_encoded (E : Env Comp Excl KL) (q b0 : Bead Comp Excl KL)
    (hv : q.Valid E) (hn : q.m_nonce.hasWire = true) :
    b0.wireDecode E (Block.make E.tlv.Bead (wireOf (q.encodedElements E))) =
      (.ok (),
        { m_name := q.m_name, m_selectors := q.m_selectors, m_nonce := q.m_nonce,
          m_token := q.m_token,
          m_BeadLifetime := if 0 ≤ q.m_BeadLifetime then q.m_BeadLifetime else 4000,
          m_link := if q.hasLink then q.m_link else b0.m_link,
          m_selectedDelegationIndex :=
            if q.hasSelectedDelegation then q.m_selectedDelegationIndex
            else b0.m_selectedDelegationIndex,
          m_wire := Block.make E.tlv.Bead (wireOf (q.encodedElements E)),
          nonceOffset := valueOffsetOf E.tlv.Nonce (q.encodedElements E) }) := by
  have hwf := encodedElements_WF E q hv hn
  have hnd := encodedElements_nodup E q hv hn
  have hty := encodedElements_types E q hv hn
  have hel := elements_make E.tlv.Bead _ hwf (encodedElements_ne_nil E q)
  have hd := hv.types.1
  simp only [List.nodup_cons, List.mem_cons, List.mem_singleton, List.not_mem_nil,
    not_or, List.nodup_nil, and_true, or_false] at hd
  have hTokA : q.m_token.asWritten = q.m_token := asWritten_of_hasWire hv.token.1.1
  have hNonA : q.m_nonce.asWritten = q.m_nonce := asWritten_of_hasWire hn
  -- the look-ups
  have fName : findType E.tlv.Name (q.encodedElements E) =
      some (Block.make E.tlv.Name (E.nameValue q.m_name)) :=
    findType_eq_some (e := Block.make E.tlv.Name (E.nameValue q.m_name)) hnd
      (by simp [Bead.encodedElements])
  have fTok : findType E.tlv.Token (q.encodedElements E) = some q.m_token := by
    have := findType_eq_some (e := q.m_token) hnd (by simp [Bead.encodedElements, hTokA])
    rwa [hv.token.2] at this
  have fNon : findType E.tlv.Nonce (q.encodedElements E) = some q.m_nonce := by
    have := findType_eq_some (e := q.m_nonce) hnd (by simp [Bead.encodedElements, hNonA])
    rwa [(hv.nonce hn).2.1] at this
  have fSel : findType E.tlv.Selectors (q.encodedElements E) =
      if q.hasSelectors E then
        some (Block.make E.tlv.Selectors (E.selectorsValue q.m_selectors)) else none := by
    split_ifs with c
    · exact findType_eq_some
        (e := Block.make E.tlv.Selectors (E.selectorsValue q.m_selectors)) hnd
        (by simp [Bead.encodedElements, c])
    · apply findType_eq_none
      rw [hty]
      exact (types_not_mem hv.types _ _ _ _).1 c
  have fLife : findType E.tlv.BeadLifetime (q.encodedElements E) =
      if 0 ≤ q.getBeadLifetime ∧ q.getBeadLifetime ≠ DEFAULT_Bead_LIFETIME then
        some (Block.make E.tlv.BeadLifetime (writeNonNegativeInteger q.getBeadLifetime.toNat))
      else none := by
    split_ifs with c
    · exact findType_eq_some
        (e := Block.make E.tlv.BeadLifetime (writeNonNegativeInteger q.getBeadLifetime.toNat))
        hnd (by simp [Bead.encodedElements, c])
    · apply findType_eq_none
      rw [hty]
      exact (types_not_mem hv.types _ _ _ _).2.1 c
  have fLink : findType E.tlv.Data (q.encodedElements E) =
      if q.hasLink then some q.m_link else none := by
    split_ifs with c
    · have := findType_eq_some (e := q.m_link) hnd (by simp [Bead.encodedElements, c])
      rwa [(hv.link c).2] at this
    · apply findType_eq_none
      rw [hty]
      exact (types_not_mem hv.types _ _ _ _).2.2.1 c
  have fSD : findType E.tlv.SelectedDelegation (q.encodedElements E) =
      if q.hasLink ∧ q.hasSelectedDelegation then
        some (Block.make E.tlv.SelectedDelegation
          (writeNonNegativeInteger q.m_selectedDelegationIndex))
      else none := by
    split_ifs with c
    · exact findType_eq_some
        (e := Block.make E.tlv.SelectedDelegation
          (writeNonNegativeInteger q.m_selectedDelegationIndex))
        hnd (by simp [Bead.encodedElements, c.1, c.2])
    · apply findType_eq_none
      rw [hty]
      exact (types_not_mem hv.types _ _ _ _).2.2.2 c
  -- the values read back
  have hsel : (match (if q.hasSelectors E then
        some (Block.make E.tlv.Selectors (E.selectorsValue q.m_selectors)) else none) with
      | some val => E.selectorsWireDecode val
      | none => some (Selectors.default E)) = some q.m_selectors := by
    have := hv.selectors
    split_ifs at this ⊢ with c
    · exact this
    · simp only [this]
  have hlt : (match (if 0 ≤ q.getBeadLifetime ∧ q.getBeadLifetime ≠ DEFAULT_Bead_LIFETIME then
        some (Block.make E.tlv.BeadLifetime (writeNonNegativeInteger q.getBeadLifetime.toNat))
      else none) with
      | some val => (readNonNegativeIntegerBytes val.value).map Bead.toInt64
      | none => some DEFAULT_Bead_LIFETIME) =
      some (if 0 ≤ q.m_BeadLifetime then q.m_BeadLifetime else 4000) := by
    have hb := hv.lifetime
    simp only [Bead.getBeadLifetime, DEFAULT_Bead_LIFETIME]
    split_ifs with c c2 c2
    · simp only [Block.make]
      rw [readNonNegativeInteger_write _ (by omega)]
      simp only [Option.map_some', Option.some.injEq]
      rw [toInt64_of_lt _ (by omega)]
      omega
    · exact absurd c.1 c2
    · simp only [Option.some.injEq]; omega
    · rfl
  have hidx : readNonNegativeIntegerBytes
      (Block.make E.tlv.SelectedDelegation
        (writeNonNegativeInteger q.m_selectedDelegationIndex)).value =
      some q.m_selectedDelegationIndex := by
    have := hv.index
    simp only [Block.make]
    exact readNonNegativeInteger_write _ (by unfold INVALID_SELECTED_DELEGATION_INDEX at this; omega)
  have hBt : (Block.make E.tlv.Bead (wireOf (q.encodedElements E))).type = E.tlv.Bead := rfl
  unfold Bead.wireDecode
  simp only [hel, hBt, ne_eq, not_true_eq_false, if_false, fName, hv.name, fSel, hsel, fTok,
    fNon, fLife, hlt, fLink, fSD]
  by_cases c3 : q.hasLink = true
  · by_cases c4 : q.hasSelectedDelegation = true
    · obtain ⟨_, count, hc, hlt2⟩ := hv.selected c4
      have c3b : q.m_link.hasWire = true := c3
      simp [c3, c4, hidx, hc, hlt2, Bead.hasLink, c3b]
    · simp [c3, c4]
  · have c4 : ¬ q.hasSelectedDelegation = true := fun h => c3 (hv.selected h).1
    simp [c3, c4]

theorem valid_getNonce (E : Env Comp Excl KL) (p : Bead Comp Excl KL) (rnd : Nat)
    (hv : p.Valid E) : (p.getNonce E rnd).2.Valid E := by
  by_cases hw : p.m_nonce.hasWire = true
  · rw [getNonce_of_hasWire E p rnd hw]; exact hv
  · have h2 : p.m_nonce.hasWire = false := by simpa using hw
    obtain ⟨h1, h2', h3, h4, h5, h6⟩ := getNonce_frame E p rnd
    have hno := (getNonce_nonce E p rnd).2.2 h2
    have tNo := (typesOk_le hv.types).2.2.2.2.1
    have hsz := hv.size
    refine ⟨hv.types, ?_, ?_, ?_, ?_, ?_, ?_, ?_, ?_, ?_⟩
    · rw [h3]; exact hv.token
    · intro _
      rw [hno]
      refine ⟨Block.make_WF _ _ tNo (by simp [word32Bytes]), rfl, ?_⟩
      unfold Bead.nonceReadable
      rw [hno]
      simp [Block.make, word32Bytes]
    · rw [h5]; exact hv.link
    · simp only [Bead.hasSelectedDelegation, Bead.hasLink, h5, h6]
      exact hv.selected
    · rw [h6]; exact hv.index
    · rw [h4]; exact hv.lifetime
    · rw [h1]; exact hv.name
    · simp only [Bead.hasSelectors, h2']
      exact hv.selectors
    · rw [h1, h2', h3, h5, hno]
      have : (Block.make E.tlv.Nonce (word32Bytes rnd)).size ≤ 18 + 4 := Block.make_size _ _
      simp only [h2, Bool.false_eq_true, if_false] at hsz
      simp only [Block.make, if_true] at this ⊢
      simp only [Block.size, Block.wire] at this hsz ⊢
      omega

theorem encoded_WF (E : Env Comp Excl KL) (q : Bead Comp Excl KL)
    (hv : q.Valid E) (hn : q.m_nonce.hasWire = true) :
    (Block.make E.tlv.Bead (wireOf (q.encodedElements E))).WF := by
  apply Block.make_WF _ _ (typesOk_le hv.types).1
  have hsz := hv.size
  have s1 := Block.make_size E.tlv.Name (E.nameValue q.m_name)
  have s2 := Block.make_size E.tlv.Selectors (E.selectorsValue q.m_selectors)
  have s3 := Block.make_size E.tlv.BeadLifetime (writeNonNegativeInteger q.getBeadLifetime.toNat)
  have s4 := Block.make_size E.tlv.SelectedDelegation
    (writeNonNegativeInteger q.m_selectedDelegationIndex)
  have s5 := writeNonNegativeInteger_length_le q.getBeadLifetime.toNat
  have s6 := writeNonNegativeInteger_length_le q.m_selectedDelegationIndex
  have hTokA : q.m_token.asWritten = q.m_token := asWritten_of_hasWire hv.token.1.1
  have hNonA : q.m_nonce.asWritten = q.m_nonce := asWritten_of_hasWire hn
  rw [if_pos hn] at hsz
  simp only [Block.size] at s1 s2 s3 s4 hsz
  unfold Bead.encodedElements
  rw [hTokA, hNonA]
  by_cases c3 : q.hasLink = true
  · have c3b : q.m_link.hasWire = true := c3
    rw [if_pos c3b] at hsz
    rw [if_pos c3]
    split_ifs <;>
      simp only [wireOf, List.map_append, List.map_cons, List.map_nil, List.flatten_append,
        List.flatten_cons, List.flatten_nil, List.length_append, List.append_nil,
        List.length_nil, List.nil_append] <;>
      omega
  · rw [if_neg c3]
    split_ifs <;>
      simp only [wireOf, List.map_append, List.map_cons, List.map_nil, List.flatten_append,
        List.flatten_cons, List.flatten_nil, List.length_append, List.append_nil,
        List.length_nil, List.nil_append] <;>
      omega

theorem valid_nonceReadable (E : Env Comp Excl KL) (p : Bead Comp Excl KL) (hv : p.Valid E) :
    p.nonceReadable := by
  by_cases hw : p.m_nonce.hasWire = true
  · exact (hv.nonce hw).2.2
  · exact Or.inl (by simpa using hw)

/-- `wireEncode()` on a valid bead without a cached wire: the block is the Bead
element of the encoded elements, and the bead afterwards holds the same name,
selectors, token, link and selected delegation, the nonce `getNonce` left, the
lifetime it had if that was non-negative and 4000 otherwise, and the block as its
cached wire. -/
theorem wireEncode_valid (E : Env Comp Excl KL) (p : Bead Comp Excl KL) (rnd : Nat)
    (hv : p.Valid E) (hw : p.m_wire.hasWire = false) :
    p.wireEncode E rnd =
      (.ok (Block.make E.tlv.Bead (wireOf ((p.getNonce E rnd).2.encodedElements E))),
        { m_name := p.m_name, m_selectors := p.m_selectors,
          m_nonce := (p.getNonce E rnd).2.m_nonce, m_token := p.m_token,
          m_BeadLifetime := if 0 ≤ p.m_BeadLifetime then p.m_BeadLifetime else 4000,
          m_link := p.m_link, m_selectedDelegationIndex := p.m_selectedDelegationIndex,
          m_wire := Block.make E.tlv.Bead (wireOf ((p.getNonce E rnd).2.encodedElements E)),
          nonceOffset := valueOffsetOf E.tlv.Nonce ((p.getNonce E rnd).2.encodedElements E) }) := by
  have hvq := valid_getNonce E p rnd hv
  have hn := (getNonce_nonce E p rnd).1
  have hr := valid_nonceReadable E p hv
  have hrq := valid_nonceReadable E _ hvq
  obtain ⟨h1, h2, h3, h4, h5, h6⟩ := getNonce_frame E p rnd
  have hst : ((p.getNonce E rnd).2.getNonce E rnd).2 = (p.getNonce E rnd).2 :=
    getNonce_of_hasWire E _ rnd hn
  have hest := wireEncodeT_ok E .EstimatorTag p rnd [] (fun h => (hv.selected h).1) hr
  have henc := wireEncodeT_ok E .EncoderTag (p.getNonce E rnd).2 rnd []
    (fun h => (hvq.selected h).1) hrq
  rw [hst] at henc
  simp only [emit, List.append_nil] at hest henc
  have hfb := fromBuffer_of_WF (encoded_WF E _ hvq hn)
  have hdec := wireDecode_encoded E (p.getNonce E rnd).2 (p.getNonce E rnd).2 hvq hn
  unfold Bead.wireEncode
  rw [if_neg (by simp [hw]), hest]
  simp only
  rw [henc]
  simp only
  rw [hfb]
  simp only
  rw [hdec]
  simp only [h1, h2, h3, h4, h5, h6, ite_self]

/-- Claim C1, amended.  Round trip of a validly constructed bead `p` (`Valid`:
token set, blocks well formed, collaborators decoding what they encode): the
template writes a buffer that is one block, and decoding that block into a new
`Bead()` succeeds and gives the same name, selectors, token, link and selected
delegation and the nonce `p` has once it is materialised; the lifetime is `p`'s
when that is non-negative and the 4000 ms default when `p` has none. -/
theorem C1_round_trip_amended (E : Env Comp Excl KL) (p : Bead Comp Excl KL) (rnd : Nat)
    (hv : p.Valid E) :
    ∃ (bytes : List Byte) (blk : Block) (p' : Bead Comp Excl KL),
      (p.wireEncodeT E .EncoderTag rnd []).1 = .ok (bytes.length, bytes) ∧
      Block.fromBuffer bytes = some blk ∧
      (Bead.mk0 E).wireDecode E blk = (.ok (), p') ∧
      p'.m_name = p.m_name ∧ p'.m_selectors = p.m_selectors ∧ p'.m_token = p.m_token ∧
      p'.m_BeadLifetime =
        (if 0 ≤ p.m_BeadLifetime then p.m_BeadLifetime else DEFAULT_Bead_LIFETIME) ∧
      p'.hasLink = p.hasLink ∧ (p.hasLink = true → p'.m_link = p.m_link) ∧
      p'.hasSelectedDelegation = p.hasSelectedDelegation ∧
      p'.m_selectedDelegationIndex = p.m_selectedDelegationIndex ∧
      p'.m_nonce = (p.getNonce E rnd).2.m_nonce ∧
      (p'.getNonce E rnd).1 = ((p.getNonce E rnd).2.getNonce E rnd).1 := by
  have hvq := valid_getNonce E p rnd hv
  have hn := (getNonce_nonce E p rnd).1
  have hr := valid_nonceReadable E p hv
  obtain ⟨h1, h2, h3, h4, h5, h6⟩ := getNonce_frame E p rnd
  have henc := wireEncodeT_ok E .EncoderTag p rnd [] (fun h => (hv.selected h).1) hr
  simp only [emit, List.append_nil] at henc
  have hfb := fromBuffer_of_WF (encoded_WF E _ hvq hn)
  have hdec := wireDecode_encoded E (p.getNonce E rnd).2 (Bead.mk0 E) hvq hn
  refine ⟨_, _, _, by rw [henc], hfb, hdec, h1, h2, h3, ?_, ?_, ?_, ?_, ?_, rfl, ?_⟩
  · simp only [h4, DEFAULT_Bead_LIFETIME]
  · simp only [Bead.hasLink, h5]
    by_cases c : p.m_link.hasWire = true
    · simp [c]
    · simp [c, Bead.mk0, Bead.mk1, Bead.mk2, Block.empty]
  · intro c
    have c2 : p.m_link.hasWire = true := c
    simp only [Bead.hasLink, h5, c2, if_true]
  · simp only [Bead.hasSelectedDelegation, h6]
    split_ifs with c
    · rfl
    · simp only [decide_eq_true_eq, not_not] at c
      simp [Bead.mk0, Bead.mk1, Bead.mk2, c]
  · simp only [Bead.hasSelectedDelegation, h6]
    split_ifs with c
    · rfl
    · simp only [decide_eq_true_eq, not_not] at c
      simp [Bead.mk0, Bead.mk1, Bead.mk2, c]
  · exact getNonce_congr E _ _ rnd rnd rfl hn

theorem valueOffsetOf_spec {t : Nat} {es : List Block} {e : Block}
    (h : findType t es = some e) :
    ∃ pre post : List Byte, wireOf es = pre ++ e.hdr ++ e.value ++ post ∧
      valueOffsetOf t es = some (pre.length + e.hdr.length) := by
  induction es with
  | nil => simp [findType] at h
  | cons x xs ih =>
    unfold findType at h
    rw [List.find?_cons] at h
    by_cases hx : (x.type == t) = true
    · rw [hx] at h
      simp only [Option.some.injEq] at h
      subst h
      refine ⟨[], wireOf xs, ?_, ?_⟩
      · simp [wireOf, Block.wire]
      · simp [valueOffsetOf, hx]
    · have hx2 : (x.type == t) = false := by simpa using hx
      rw [hx2] at h
      obtain ⟨pre, post, h1, h2⟩ := ih h
      refine ⟨x.wire ++ pre, post, ?_, ?_⟩
      · have : wireOf (x :: xs) = x.wire ++ wireOf xs := by simp [wireOf]
        rw [this, h1]
        simp only [List.append_assoc]
      · simp only [valueOffsetOf, hx2, Bool.false_eq_true, if_false, h2, Option.map_some',
          Block.size, List.length_append]
        congr 1
        omega

/-- What a successful `wireDecode` leaves: the block as the cached wire (with a
buffer), and the first Nonce element of the block as the nonce, lying inside
the cached wire. -/
theorem wireDecode_ok_nonce (E : Env Comp Excl KL) (b0 b : Bead Comp Excl KL) (w : Block)
    (h : b0.wireDecode E w = (.ok (), b)) :
    b.m_wire = w ∧ w.hasWire = true ∧ b.NonceInWire ∧
    ∃ es, w.elements = some es ∧ findType E.tlv.Nonce es = some b.m_nonce := by
  have hw : b.m_wire = w := by
    have := wireDecode_wire E b0 w
    rw [h] at this
    exact this
  unfold Bead.wireDecode at h
  simp only at h
  cases hel : w.elements with
  | none => rw [hel] at h; simp at h
  | some es =>
    rw [hel] at h
    simp only at h
    split_ifs at h with hty
    · simp at h
    cases hN : findType E.tlv.Name es with
    | none => rw [hN] at h; simp at h
    | some nameBlock =>
      have hne : es ≠ [] := by
        intro he; rw [he] at hN; simp [findType] at hN
      have hvs : w.value_size ≠ 0 := by
        intro hz
        unfold Block.elements at hel
        rw [if_pos hz] at hel
        simp only [Option.some.injEq] at hel
        exact hne hel.symm
      have hhw : w.hasWire = true := by
        unfold Block.value_size at hvs
        by_contra hc
        rw [if_neg hc] at hvs
        exact hvs rfl
      have hparse : wireOf es = w.value := by
        unfold Block.elements at hel
        rw [if_neg hvs] at hel
        exact parseElements_sound hel
      rw [hN] at h
      simp only at h
      cases hnd : E.nameWireDecode nameBlock with
      | none => rw [hnd] at h; simp at h
      | some name =>
        rw [hnd] at h
        simp only at h
        split at h
        · simp at h
        · rename_i sel hsel
          cases hT : findType E.tlv.Token es with
          | none => rw [hT] at h; simp at h
          | some token =>
            rw [hT] at h
            simp only at h
            cases hNo : findType E.tlv.Nonce es with
            | none => rw [hNo] at h; simp at h
            | some nonce =>
              rw [hNo] at h
              simp only at h
              obtain ⟨pre, post, hpre, hoff⟩ := valueOffsetOf_spec hNo
              have key : b.m_nonce = nonce ∧
                  b.nonceOffset = valueOffsetOf E.tlv.Nonce es := by
                repeat' split at h
                all_goals
                  have h2 := Prod.mk.inj h
                  rw [← h2.2]
                  exact ⟨rfl, rfl⟩
              refine ⟨hw, hhw, ⟨pre, post, ?_, ?_⟩, es, rfl, ?_⟩
              · rw [hw, key.1, ← hparse, hpre]
              · rw [key.2, key.1, hoff]
              · rw [key.1]; exact hNo

theorem patch_spec (pre v post w : List Byte) (h : v.length = w.length) :
    patch (pre ++ v ++ post) pre.length w = pre ++ w ++ post := by
  unfold patch
  have e1 : (pre ++ v ++ post).take pre.length = pre := by
    rw [List.append_assoc, List.take_left]
  have e2 : (pre ++ v ++ post).drop (pre.length + w.length) = post := by
    rw [← h, ← List.length_append, List.drop_left]
  rw [e1, e2]

theorem bytesWord32_word32Bytes (x : Nat) (h : x < 4294967296) :
    bytesWord32 (word32Bytes x) = x := by
  simp only [bytesWord32, word32Bytes]
  omega

/-- The fast path of `setNonce` keeps the nonce inside the cached wire. -/
theorem setNonce_fast (E : Env Comp Excl KL) (b : Bead Comp Excl KL) (x : Nat)
    (hw : b.m_wire.hasWire = true) (h4 : b.m_nonce.value_size = 4) (hin : b.NonceInWire) :
    ∃ pre post : List Byte,
      b.m_wire.value = pre ++ b.m_nonce.hdr ++ b.m_nonce.value ++ post ∧
      b.nonceOffset = some (pre.length + b.m_nonce.hdr.length) ∧
      b.setNonce E x =
        { b with
          m_nonce := { b.m_nonce with value := word32Bytes x }
          m_wire := { b.m_wire with value := pre ++ b.m_nonce.hdr ++ word32Bytes x ++ post } } := by
  obtain ⟨pre, post, h1, h2⟩ := hin
  refine ⟨pre, post, h1, h2, ?_⟩
  have hlen : b.m_nonce.value.length = (word32Bytes x).length := by
    unfold Block.value_size at h4
    split_ifs at h4
    · rw [h4]; rfl
  unfold Bead.setNonce
  simp only [hw, h4, decide_True, Bool.and_self, if_true, h2]
  have := patch_spec (pre ++ b.m_nonce.hdr) b.m_nonce.value post (word32Bytes x) hlen
  rw [List.length_append] at this
  rw [h1, this]

/-- `setNonce` keeps the invariant "a cached wire holds the nonce block": the
fast path rewrites the nonce inside the cached wire, the other path drops the
cache. -/
theorem setNonce_nonceInWire (E : Env Comp Excl KL) (b : Bead Comp Excl KL) (x : Nat)
    (h : b.m_wire.hasWire = true → b.NonceInWire) :
    (b.setNonce E x).m_wire.hasWire = true → (b.setNonce E x).NonceInWire := by
  by_cases hc : b.m_wire.hasWire = true ∧ b.m_nonce.value_size = 4
  · intro _
    obtain ⟨pre, post, _, hoff, h2⟩ := setNonce_fast E b x hc.1 hc.2 (h hc.1)
    rw [h2]
    exact ⟨pre, post, rfl, hoff⟩
  · intro hw
    exfalso
    unfold Bead.setNonce at hw
    have hc2 : (b.m_wire.hasWire && decide (b.m_nonce.value_size = 4)) = false := by
      by_cases h1 : b.m_wire.hasWire = true
      · have : ¬ b.m_nonce.value_size = 4 := fun h4 => hc ⟨h1, h4⟩
        simp [this]
      · simp [h1]
    rw [hc2] at hw
    simp [Bead.resetWire, Block.empty] at hw

/-- A successful `wireEncode()` returns the cached wire of the bead it leaves,
and that wire holds the nonce block. -/
theorem wireEncode_ok_nonce (E : Env Comp Excl KL) (b b2 : Bead Comp Excl KL) (rnd : Nat)
    (blk : Block) (h : b.m_wire.hasWire = true → b.NonceInWire)
    (hok : b.wireEncode E rnd = (.ok blk, b2)) :
    blk = b2.m_wire ∧ b2.m_wire.hasWire = true ∧ b2.NonceInWire := by
  unfold Bead.wireEncode at hok
  by_cases hw : b.m_wire.hasWire = true
  · rw [if_pos hw] at hok
    simp only [Prod.mk.injEq, Except.ok.injEq] at hok
    obtain ⟨h1, h2⟩ := hok
    subst h2
    exact ⟨h1.symm, hw, h hw⟩
  · rw [if_neg hw] at hok
    rcases h1 : b.wireEncodeT E .EstimatorTag rnd [] with ⟨r1, b3⟩
    rw [h1] at hok
    cases r1 with
    | error e => simp at hok
    | ok v1 =>
      simp only at hok
      rcases h2 : b3.wireEncodeT E .EncoderTag rnd [] with ⟨r2, b4⟩
      rw [h2] at hok
      cases r2 with
      | error e => simp at hok
      | ok v2 =>
        simp only at hok
        cases h3 : Block.fromBuffer v2.2 with
        | none => rw [h3] at hok; simp at hok
        | some block =>
          rw [h3] at hok
          simp only at hok
          rcases h4 : b4.wireDecode E block with ⟨r4, b5⟩
          rw [h4] at hok
          cases r4 with
          | error e => simp at hok
          | ok u =>
            simp only [Prod.mk.injEq, Except.ok.injEq] at hok
            obtain ⟨e1, e2⟩ := hok
            subst e2
            obtain ⟨hwire, hhw, hin, _⟩ := wireDecode_ok_nonce E b4 b5 block h4
            exact ⟨e1.symm, by rw [hwire]; exact hhw, hin⟩

/-- The cache fast path of `setNonce` when the nonce block lies inside the cached
wire.  For a bead with a cached wire
whose four-octet nonce block lies inside that wire, `setNonce(x)` keeps the
cache, `wireEncode()` then returns the cached block, which has the size it had
before and the same octets except the four value octets of the Nonce element,
which are the octets of `x`; the nonce still lies inside the cached wire, and
`getNonce()` returns `x` (a 32-bit value). -/
theorem setNonce_fast_path_in_wire (E : Env Comp Excl KL) (b : Bead Comp Excl KL) (x rnd : Nat)
    (hw : b.m_wire.hasWire = true) (h4 : b.m_nonce.value_size = 4) (hin : b.NonceInWire)
    (hx : x < 4294967296) :
    (b.setNonce E x).hasWire = true ∧
    (b.setNonce E x).wireEncode E rnd = (.ok (b.setNonce E x).m_wire, b.setNonce E x) ∧
    (b.setNonce E x).m_wire.size = b.m_wire.size ∧
    (∃ pre post : List Byte,
      b.m_wire.wire = pre ++ b.m_nonce.hdr ++ b.m_nonce.value ++ post ∧
      (b.setNonce E x).m_wire.wire = pre ++ b.m_nonce.hdr ++ word32Bytes x ++ post) ∧
    (b.setNonce E x).m_nonce.value = word32Bytes x ∧
    (b.setNonce E x).NonceInWire ∧
    ((b.setNonce E x).getNonce E rnd).1 = .ok x := by
  obtain ⟨pre, post, h1, hoff, h2⟩ := setNonce_fast E b x hw h4 hin
  have hnw : b.m_nonce.hasWire = true := by
    unfold Block.value_size at h4
    by_contra hc
    rw [if_neg hc] at h4
    exact absurd h4 (by decide)
  have hlen : b.m_nonce.value.length = 4 := by
    unfold Block.value_size at h4
    rwa [if_pos hnw] at h4
  rw [h2]
  refine ⟨hw, ?_, ?_, ⟨b.m_wire.hdr ++ pre, post, ?_, ?_⟩, rfl, ?_, ?_⟩
  · unfold Bead.wireEncode
    simp only [hw, if_true]
  · simp only [Block.size, Block.wire, h1, List.length_append, hlen, word32Bytes,
      List.length_cons, List.length_nil]
  · simp only [Block.wire, h1, List.append_assoc]
  · simp only [Block.wire, List.append_assoc]
  · exact ⟨pre, post, rfl, hoff⟩
  · unfold Bead.getNonce
    simp only [hnw, Bool.not_true, Bool.false_eq_true, if_false, Block.value_size, if_true,
      word32Bytes, List.length_cons, List.length_nil]
    have := bytesWord32_word32Bytes x hx
    simp only [word32Bytes] at this
    simp [this]

end Decoding

/-! ## The codec on the sample beads -/

theorem Sample.beadPlain_valid : Sample.beadPlain.Valid Sample.env := by
  refine ⟨by decide, by decide, by decide, by decide, ?_, by decide, by decide, by decide,
    by decide, by decide⟩
  intro h
  exact absurd h (by decide)

theorem Sample.beadFull_valid : Sample.beadFull.Valid Sample.env := by
  refine ⟨by decide, by decide, by decide, by decide, ?_, by decide, by decide, by decide,
    by decide, by decide⟩
  intro _
  exact ⟨by decide, 2, by decide, by decide⟩

/-- The round trip of `Sample.beadFull` (selectors, lifetime 1000, link, selected
delegation 1). -/
theorem C1_round_trip_amended_witness :
    Sample.beadFull.Valid Sample.env ∧
    ∃ (bytes : List Byte) (blk : Block) (p' : Bead Block (List Block) (Option (List Byte))),
      (Sample.beadFull.wireEncodeT Sample.env .EncoderTag 305419896 []).1 =
        .ok (bytes.length, bytes) ∧
      Block.fromBuffer bytes = some blk ∧
      (Bead.mk0 Sample.env).wireDecode Sample.env blk = (.ok (), p') ∧
      p'.m_name = Sample.beadFull.m_name ∧ p'.m_selectors = Sample.beadFull.m_selectors ∧
      p'.m_token = Sample.beadFull.m_token ∧
      p'.m_BeadLifetime =
        (if 0 ≤ Sample.beadFull.m_BeadLifetime then Sample.beadFull.m_BeadLifetime
         else DEFAULT_Bead_LIFETIME) ∧
      p'.hasLink = Sample.beadFull.hasLink ∧
      (Sample.beadFull.hasLink = true → p'.m_link = Sample.beadFull.m_link) ∧
      p'.hasSelectedDelegation = Sample.beadFull.hasSelectedDelegation ∧
      p'.m_selectedDelegationIndex = Sample.beadFull.m_selectedDelegationIndex ∧
      p'.m_nonce = (Sample.beadFull.getNonce Sample.env 305419896).2.m_nonce ∧
      (p'.getNonce Sample.env 305419896).1 =
        ((Sample.beadFull.getNonce Sample.env 305419896).2.getNonce Sample.env 305419896).1 :=
  ⟨Sample.beadFull_valid,
    C1_round_trip_amended Sample.env Sample.beadFull 305419896 Sample.beadFull_valid⟩

/-- Claim C1 fails as stated for a lifetime that is not set: the valid bead
`Sample.beadPlain` has the lifetime `time::milliseconds::min()`, its encoding
carries no BeadLifetime element, and the bead decoded from that encoding has the
lifetime 4000. -/
theorem C1_round_trip_counterexample :
    Sample.beadPlain.Valid Sample.env ∧
    (Sample.beadPlain.wireEncodeT Sample.env .EncoderTag 305419896 []).1 =
      .ok (19, Sample.wirePlain.wire) ∧
    Block.fromBuffer Sample.wirePlain.wire = some Sample.wirePlain ∧
    ((Bead.mk0 Sample.env).wireDecode Sample.env Sample.wirePlain).1 = .ok () ∧
    ((Bead.mk0 Sample.env).wireDecode Sample.env Sample.wirePlain).2.m_BeadLifetime = 4000 ∧
    Sample.beadPlain.m_BeadLifetime = -9223372036854775808 ∧
    ((Bead.mk0 Sample.env).wireDecode Sample.env Sample.wirePlain).2.m_BeadLifetime ≠
      Sample.beadPlain.m_BeadLifetime :=
  ⟨Sample.beadPlain_valid, rfl, rfl, rfl, rfl, rfl, by decide⟩

/-- Claim C7 fails on the code: a bead whose token was never set has an empty
token block, `wireEncode(encoder)` writes for it an element of type `0xFFFFFFFF`
with no value (`254 255 255 255 255 0`) where the Token element belongs, and
`wireEncode()` then fails, because `wireDecode` finds no Token element in what was
written.  With the token set to the empty string the Token element `11 0` is
written. -/
theorem C7_token_never_set_not_encoded :
    (Bead.mk1 Sample.env [Sample.comp 97, Sample.comp 98]).m_token.hasWire = false ∧
    ((Bead.mk1 Sample.env [Sample.comp 97, Sample.comp 98]).wireEncodeT Sample.env
        .EncoderTag 305419896 []).1 =
      .ok (22, [5, 20, 7, 6, 8, 1, 97, 8, 1, 98, 254, 255, 255, 255, 255, 0,
        10, 4, 120, 86, 52, 18]) ∧
    ((Bead.mk1 Sample.env [Sample.comp 97, Sample.comp 98]).wireEncode Sample.env
        305419896).1 = .error .tlv ∧
    (((Bead.mk1 Sample.env [Sample.comp 97, Sample.comp 98]).setToken Sample.env []).wireEncodeT
        Sample.env .EncoderTag 305419896 []).1 =
      .ok (18, [5, 16, 7, 6, 8, 1, 97, 8, 1, 98, 11, 0, 10, 4, 120, 86, 52, 18]) :=
  ⟨rfl, rfl, rfl, rfl⟩

/-- Estimation and encoding of `Sample.beadFull`: both passes return 59, and
`wireEncode()` returns a block of 59 octets.  For `Sample.beadOddNonce`, whose
nonce has three octets, both passes and `wireEncode()` throw.  For
`Sample.beadFull` after a `setLink` that threw (a selection and no link) both
passes stop at the assertion. -/
theorem C8_estimate_agrees_witness :
    (Sample.beadFull.hasSelectedDelegation = true → Sample.beadFull.hasLink = true) ∧
    Sample.beadFull.nonceReadable ∧
    (Sample.beadFull.wireEncodeT Sample.env .EstimatorTag 305419896 []).1 = .ok (59, []) ∧
    (∃ blk b2, Sample.beadFull.wireEncode Sample.env 305419896 = (.ok blk, b2) ∧
      blk.size = 59) ∧
    (∃ (n : Nat) (bytes : List Byte),
      Sample.beadFull.wireEncodeT Sample.env .EstimatorTag 305419896 [] =
        (.ok (n, []), (Sample.beadFull.getNonce Sample.env 305419896).2) ∧
      (Sample.beadFull.getNonce Sample.env 305419896).2.wireEncodeT Sample.env
          .EncoderTag 7 [] =
        (.ok (n, bytes), (Sample.beadFull.getNonce Sample.env 305419896).2) ∧
      bytes.length = n ∧
      (∀ (blk : Block) (b2 : Bead Block (List Block) (Option (List Byte))),
        Sample.beadFull.m_wire.hasWire = false →
        Sample.beadFull.wireEncode Sample.env 305419896 = (.ok blk, b2) →
        blk.wire = bytes ∧ blk.size = n)) ∧
    ¬ Sample.beadOddNonce.nonceReadable ∧
    Sample.beadOddNonce.wireEncodeT Sample.env .EstimatorTag 305419896 [] =
      (.error .tlv, Sample.beadOddNonce) ∧
    Sample.beadOddNonce.wireEncodeT Sample.env .EncoderTag 7 [] =
      (.error .tlv, Sample.beadOddNonce) ∧
    (Sample.beadFull.setLink Block.empty).2.hasSelectedDelegation = true ∧
    (Sample.beadFull.setLink Block.empty).2.hasLink = false ∧
    (Sample.beadFull.setLink Block.empty).2.wireEncodeT Sample.env .EstimatorTag 305419896 [] =
      (.error .assertion, (Sample.beadFull.setLink Block.empty).2) ∧
    (Sample.beadFull.setLink Block.empty).2.wireEncodeT Sample.env .EncoderTag 7 [] =
      (.error .assertion, (Sample.beadFull.setLink Block.empty).2) := by
  have hodd : ¬ Sample.beadOddNonce.nonceReadable := by decide
  have h2 := (C8_estimate_agrees Sample.env Sample.beadOddNonce 305419896 7).2.1
    (by decide) hodd
  have h3 := (C8_estimate_agrees Sample.env (Sample.beadFull.setLink Block.empty).2
    305419896 7).2.2 rfl rfl
  refine ⟨by decide, by decide, rfl, ?_,
    (C8_estimate_agrees Sample.env Sample.beadFull 305419896 7).1 (by decide) (by decide),
    hodd, h2.1, h2.2.1, rfl, rfl, h3.1, h3.2.1⟩
  have h := wireEncode_valid Sample.env Sample.beadFull 305419896 Sample.beadFull_valid rfl
  exact ⟨_, _, h, rfl⟩

/-- Claim C9 fails on the code for a bead without a lifetime: `wireEncode()`
decodes the written octets back into the bead, and `wireDecode` sets the
lifetime to the 4000 ms default when there is no BeadLifetime element.
`Sample.beadPlain` has the lifetime `time::milliseconds::min()` before
`wireEncode()` and 4000 after it; its name, token and the returned octets are as
expected, and a second `wireEncode()` returns the same block. -/
theorem C9_wireEncode_changes_unset_lifetime :
    Sample.beadPlain.getBeadLifetime = -9223372036854775808 ∧
    (Sample.beadPlain.wireEncode Sample.env 305419896).1 = .ok Sample.wirePlain ∧
    (Sample.beadPlain.wireEncode Sample.env 305419896).2.getBeadLifetime = 4000 ∧
    (Sample.beadPlain.wireEncode Sample.env 305419896).2.m_name = Sample.beadPlain.m_name ∧
    (Sample.beadPlain.wireEncode Sample.env 305419896).2.m_token = Sample.beadPlain.m_token ∧
    ((Sample.beadPlain.wireEncode Sample.env 305419896).2.wireEncode Sample.env 7).1 =
      .ok Sample.wirePlain :=
  ⟨rfl, rfl, rfl, rfl, rfl, rfl⟩

/-- The fast path on `Sample.beadCached`, whose cached wire holds the nonce
`120 86 52 18` at offset 13: after `setNonce(0x9ABCDEF0)` the cached wire is the
same but for these four octets, now `240 222 188 154`. -/
theorem Sample.setNonce_fast_path_beadCached :
    Sample.beadCached.m_wire.hasWire = true ∧ Sample.beadCached.m_nonce.value_size = 4 ∧
    Sample.beadCached.NonceInWire ∧
    Sample.beadCached.m_wire.wire =
      [5, 17, 7, 6, 8, 1, 97, 8, 1, 98, 11, 1, 116, 10, 4, 120, 86, 52, 18] ∧
    ((Sample.beadCached.setNonce Sample.env 2596069104).wireEncode Sample.env 7).1 =
      .ok { type := 5, hdr := [5, 17],
            value := [7, 6, 8, 1, 97, 8, 1, 98, 11, 1, 116, 10, 4, 240, 222, 188, 154],
            hasWire := true } ∧
    ((Sample.beadCached.setNonce Sample.env 2596069104).getNonce Sample.env 7).1 =
      .ok 2596069104 := by
  have hin : Sample.beadCached.NonceInWire :=
    ⟨[7, 6, 8, 1, 97, 8, 1, 98, 11, 1, 116], [], rfl, rfl⟩
  have h := setNonce_fast_path_in_wire Sample.env Sample.beadCached 2596069104 7 rfl rfl hin
    (by decide)
  refine ⟨rfl, rfl, hin, rfl, ?_, h.2.2.2.2.2.2⟩
  rw [h.2.1]
  rfl

/-! ## Link, selected delegation and decoding failures -/

section Delegation

variable {Comp Excl KL : Type}

/-- Claim C15.  `setLink(block)` throws `Bead::Error` exactly when the block has
no buffer; when the block has one the call succeeds, and afterwards `hasLink()`
holds, the stored link is the block, no delegation is selected and the cached
wire is gone. -/
theorem C15_setLink (b : Bead Comp Excl KL) (link : Block) :
    ((b.setLink link).1 = .error .bead ↔ link.hasWire = false) ∧
    (link.hasWire = true →
      (b.setLink link).1 = .ok () ∧
      (b.setLink link).2.hasLink = true ∧
      (b.setLink link).2.m_link = link ∧
      (b.setLink link).2.hasSelectedDelegation = false ∧
      (b.setLink link).2.hasWire = false) := by
  unfold Bead.setLink
  by_cases h : link.hasWire = true
  · simp [h, Bead.hasLink, Bead.hasSelectedDelegation, Bead.hasWire,
      Bead.unsetSelectedDelegation, Bead.resetWire, Block.empty]
  · have h2 : link.hasWire = false := by simpa using h
    simp [h2]

/-- `setLink` with the link `Sample.link2` on a bead that has a cached wire, and
with the empty block. -/
theorem C15_setLink_witness :
    Sample.link2.hasWire = true ∧ Sample.beadCached.hasWire = true ∧
    (Sample.beadCached.setLink Sample.link2).1 = .ok () ∧
    (Sample.beadCached.setLink Sample.link2).2.hasLink = true ∧
    (Sample.beadCached.setLink Sample.link2).2.m_link = Sample.link2 ∧
    (Sample.beadCached.setLink Sample.link2).2.hasSelectedDelegation = false ∧
    (Sample.beadCached.setLink Sample.link2).2.hasWire = false ∧
    (Sample.beadCached.setLink Block.empty).1 = .error .bead :=
  ⟨rfl, rfl,
    ((C15_setLink Sample.beadCached Sample.link2).2 rfl).1,
    ((C15_setLink Sample.beadCached Sample.link2).2 rfl).2.1,
    ((C15_setLink Sample.beadCached Sample.link2).2 rfl).2.2.1,
    ((C15_setLink Sample.beadCached Sample.link2).2 rfl).2.2.2.1,
    ((C15_setLink Sample.beadCached Sample.link2).2 rfl).2.2.2.2,
    (C15_setLink Sample.beadCached Block.empty).1.2 rfl⟩

/-- `setSelectedDelegation(size_t)` on a bead whose link has `n` delegations: the
index is stored and the cache dropped when it is below `n`, and a `Bead::Error`
is thrown, the bead left as it is, otherwise. -/
theorem setSelectedDelegation_spec (E : Env Comp Excl KL) (b : Bead Comp Excl KL) (i n : Nat)
    (hn : E.linkDelegationsSize b.m_link = some n) :
    (i < n → b.setSelectedDelegation E i =
      (.ok (), Bead.resetWire { b with m_selectedDelegationIndex := i })) ∧
    (n ≤ i → b.setSelectedDelegation E i = (.error .bead, b)) := by
  unfold Bead.setSelectedDelegation
  rw [hn]
  constructor
  · intro h; simp only; rw [if_neg (by omega)]
  · intro h; simp only; rw [if_pos h]

/-- Claim C16 fails on the code in the kind of the error.  The link of
`Sample.beadFull` has two delegations; `setSelectedDelegation(2)` throws
`Bead::Error` (the link and decode error), not the `std::out_of_range` that
`bead.hpp` documents, and leaves the selection (1) as it is;
`setSelectedDelegation(0)` on that bead with a cached wire succeeds, selects 0 and
drops the cache. -/
theorem C16_setSelectedDelegation_error_kind :
    Sample.env.linkDelegationsSize Sample.beadFull.m_link = some 2 ∧
    Sample.beadFull.setSelectedDelegation Sample.env 2 = (.error .bead, Sample.beadFull) ∧
    (Sample.beadFull.setSelectedDelegation Sample.env 2).1 ≠ .error .outOfRange ∧
    (Sample.beadFull.setSelectedDelegation Sample.env 2).2.m_selectedDelegationIndex = 1 ∧
    (Sample.beadFull.wireEncode Sample.env 305419896).2.hasWire = true ∧
    ((Sample.beadFull.wireEncode Sample.env 305419896).2.setSelectedDelegation
      Sample.env 0).1 = .ok () ∧
    ((Sample.beadFull.wireEncode Sample.env 305419896).2.setSelectedDelegation
      Sample.env 0).2.m_selectedDelegationIndex = 0 ∧
    ((Sample.beadFull.wireEncode Sample.env 305419896).2.setSelectedDelegation
      Sample.env 0).2.hasWire = false :=
  ⟨rfl, rfl,
    fun h => by
      have h2 : (Except.error Error.bead : Except Error Unit) = .error .outOfRange := h
      simp at h2,
    rfl, rfl, rfl, rfl, rfl⟩

theorem Sample.beadFull_reachableOk : Bead.ReachableOk Sample.env Sample.beadFull := by
  have h0 := Bead.ReachableOk.mk2 (E := Sample.env) [Sample.comp 97, Sample.comp 98] 1000
  have h1 := Bead.ReachableOk.step _ _ (.setMinSuffixComponents 1) h0 rfl
  have h2 := Bead.ReachableOk.step _ _ (.setExclude [Sample.comp 99]) h1 rfl
  have h3 := Bead.ReachableOk.step _ _ (.setToken [116]) h2 rfl
  have h4 := Bead.ReachableOk.step _ _ (.setLink Sample.link2) h3 rfl
  exact Bead.ReachableOk.step _ _ (.setSelectedDelegation 1) h4 rfl

theorem reachable_of_reachableOk (E : Env Comp Excl KL) (b : Bead Comp Excl KL)
    (h : Bead.ReachableOk E b) : Bead.Reachable E b := by
  induction h with
  | mk0 => exact Bead.Reachable.mk0
  | mk1 name => exact Bead.Reachable.mk1 name
  | mk2 name lifetime => exact Bead.Reachable.mk2 name lifetime
  | ofBlock lifetime index wire b h => exact Bead.Reachable.ofBlock lifetime index wire b h
  | step b b2 op _ hs ih => exact Bead.Reachable.step b b2 op (.ok ()) ih hs

/-- Claim C17 fails on the code after a `setLink` that throws.  `Sample.beadFull`
holds a link with its delegation 1 selected; `setLink` with a block that has no
buffer stores the block before it checks it and throws, so that afterwards (a
reachable state) `hasSelectedDelegation()` holds and `hasLink()` does not. -/
theorem C17_selection_without_link_after_failed_setLink :
    Sample.beadFull.hasLink = true ∧ Sample.beadFull.hasSelectedDelegation = true ∧
    Bead.apply Sample.env Sample.beadFull (.setLink Block.empty) =
      some (.error .bead, (Sample.beadFull.setLink Block.empty).2) ∧
    Bead.Reachable Sample.env (Sample.beadFull.setLink Block.empty).2 ∧
    (Sample.beadFull.setLink Block.empty).2.hasSelectedDelegation = true ∧
    (Sample.beadFull.setLink Block.empty).2.hasLink = false :=
  ⟨rfl, rfl, rfl,
    Bead.Reachable.step _ _ (.setLink Block.empty) (.error .bead)
      (reachable_of_reachableOk _ _ Sample.beadFull_reachableOk) rfl,
    rfl, rfl⟩

/-- Claim C18 fails on the code after a successful `wireDecode`.
`Sample.beadFull` holds a link with two delegations and has delegation 1
selected; decoding `Sample.wireLink1`, a Bead block with a link of one delegation
and no SelectedDelegation element, succeeds, stores the new link and keeps the
index 1, which is not below the number of delegations (1) of the stored link. -/
theorem C18_stale_selection_after_wireDecode :
    Bead.ReachableOk Sample.env Sample.beadFull ∧
    Sample.beadFull.wireDecode Sample.env Sample.wireLink1 =
      (.ok (), (Sample.beadFull.wireDecode Sample.env Sample.wireLink1).2) ∧
    Bead.ReachableOk Sample.env (Sample.beadFull.wireDecode Sample.env Sample.wireLink1).2 ∧
    (Sample.beadFull.wireDecode Sample.env Sample.wireLink1).2.m_link = Sample.link1 ∧
    (Sample.beadFull.wireDecode Sample.env Sample.wireLink1).2.hasSelectedDelegation = true ∧
    (Sample.beadFull.wireDecode Sample.env Sample.wireLink1).2.m_selectedDelegationIndex = 1 ∧
    Sample.env.countDelegationsFromWire Sample.link1 = some 1 ∧
    Sample.env.linkDelegationsSize Sample.link1 = some 1 :=
  ⟨Sample.beadFull_reachableOk, rfl,
    Bead.ReachableOk.step _ _ (.wireDecode Sample.wireLink1) Sample.beadFull_reachableOk rfl,
    rfl, rfl, rfl, rfl, rfl⟩

/-- `wireDecode` of a block whose type is not `Bead`: it throws (`Bead::Error`, or
the error of `parse` when the value is not a sequence of elements), and the bead
is as before except for the cached wire, which is now the rejected block. -/
theorem wireDecode_wrong_type (E : Env Comp Excl KL) (b : Bead Comp Excl KL) (w : Block)
    (h : w.type ≠ E.tlv.Bead) :
    ((b.wireDecode E w).1 = .error .bead ∨ (b.wireDecode E w).1 = .error .tlv) ∧
    (b.wireDecode E w).2 = { b with m_wire := w, nonceOffset := none } := by
  unfold Bead.wireDecode
  simp only
  cases w.elements with
  | none => exact ⟨Or.inr rfl, rfl⟩
  | some es =>
    simp only
    rw [if_pos h]
    exact ⟨Or.inl rfl, rfl⟩

/-- Claim C12 fails on the code in the cached wire.  `wireDecode` stores the block
in `m_wire` before it checks the type.  `Sample.link2` is a Data block, not a
Bead block: decoding it into `Sample.beadPlain` (no cached wire) throws
`Bead::Error` and leaves name, selectors, nonce, token, lifetime, link and
selected delegation as they were, but `hasWire()` is now true and `wireEncode()`
returns the rejected block; for `Sample.beadCached`, `wireEncode()` returned the
bead's encoding before the call and returns the rejected block after it. -/
theorem C12_wrong_type_replaces_cache :
    Sample.link2.type ≠ Sample.env.tlv.Bead ∧
    Sample.beadPlain.hasWire = false ∧
    Sample.beadPlain.wireDecode Sample.env Sample.link2 =
      (.error .bead, { Sample.beadPlain with m_wire := Sample.link2, nonceOffset := none }) ∧
    (Sample.beadPlain.wireDecode Sample.env Sample.link2).2.hasWire = true ∧
    ((Sample.beadPlain.wireDecode Sample.env Sample.link2).2.wireEncode Sample.env 7).1 =
      .ok Sample.link2 ∧
    (Sample.beadCached.wireEncode Sample.env 7).1 = .ok Sample.wirePlain ∧
    (Sample.beadCached.wireDecode Sample.env Sample.link2).1 = .error .bead ∧
    ((Sample.beadCached.wireDecode Sample.env Sample.link2).2.wireEncode Sample.env 7).1 =
      .ok Sample.link2 ∧
    Sample.link2 ≠ Sample.wirePlain :=
  ⟨by decide, rfl, rfl, rfl, rfl, rfl, rfl, rfl, by decide⟩

/-- Claim C13 fails on the code for a bead that already holds a link.
`Sample.wireSelectedNoLink` is a Bead block with the SelectedDelegation 1 and no
link element.  Decoded into a new bead it is rejected with `Bead::Error`; decoded
into a bead that holds the link `Sample.link2` it is accepted, because
`wireDecode` leaves the old link in place and checks the index against it, and
the selected delegation is 1 afterwards. -/
theorem C13_selected_delegation_checked_against_old_link :
    Sample.wireSelectedNoLink.type = Sample.env.tlv.Bead ∧
    Sample.wireSelectedNoLink.elements =
      some [Sample.nameAB, Sample.tokenT, Sample.nonce1, Sample.natBlock 32 1] ∧
    (Sample.wireSelectedNoLink.elements.bind
      (fun es => findType Sample.env.tlv.Data es)) = none ∧
    ((Bead.mk0 Sample.env).wireDecode Sample.env Sample.wireSelectedNoLink).1 =
      .error .bead ∧
    ((Bead.mk1 Sample.env [Sample.comp 97]).setLink Sample.link2).1 = .ok () ∧
    (((Bead.mk1 Sample.env [Sample.comp 97]).setLink Sample.link2).2.wireDecode Sample.env
      Sample.wireSelectedNoLink).1 = .ok () ∧
    (((Bead.mk1 Sample.env [Sample.comp 97]).setLink Sample.link2).2.wireDecode Sample.env
      Sample.wireSelectedNoLink).2.m_selectedDelegationIndex = 1 ∧
    (((Bead.mk1 Sample.env [Sample.comp 97]).setLink Sample.link2).2.wireDecode Sample.env
      Sample.wireSelectedNoLink).2.m_link = Sample.link2 :=
  ⟨rfl, rfl, rfl, rfl, rfl, rfl, rfl, rfl⟩

/-- What `wireDecode` does with a Bead block without a Token element: when the
block has the type `Bead`, its Name element decodes and its Selectors element
(if any) decodes, it throws the error of `get(tlv::Token)`, having stored the
block, the name and the selectors; token, nonce, lifetime, link and selected
delegation are as before. -/
theorem wireDecode_missing_token (E : Env Comp Excl KL) (b : Bead Comp Excl KL) (w : Block)
    (es : List Block) (nameBlock : Block) (name : List Comp) (sel : Selectors Excl KL)
    (hes : w.elements = some es) (hty : w.type = E.tlv.Bead)
    (hName : findType E.tlv.Name es = some nameBlock)
    (hdec : E.nameWireDecode nameBlock = some name)
    (hsel : (match findType E.tlv.Selectors es with
             | some val => E.selectorsWireDecode val
             | none => some (Selectors.default E)) = some sel)
    (hTok : findType E.tlv.Token es = none) :
    b.wireDecode E w =
      (.error .tlv,
        { b with m_wire := w, nonceOffset := none, m_name := name, m_selectors := sel }) := by
  unfold Bead.wireDecode
  simp only [hes, hty, ne_eq, not_true_eq_false, if_false, hName, hdec, hsel, hTok]

/-- Decoding `Sample.wireNoToken` (Name and Nonce, no Token) into a new bead. -/
theorem Sample.wireDecode_wireNoToken :
    Sample.wireNoToken.elements = some [Sample.nameAB, Sample.nonce1] ∧
    (Bead.mk0 Sample.env).wireDecode Sample.env Sample.wireNoToken =
      (.error .tlv,
        { Bead.mk0 Sample.env with
          m_wire := Sample.wireNoToken, nonceOffset := none,
          m_name := [Sample.comp 97, Sample.comp 98],
          m_selectors := Selectors.default Sample.env }) :=
  ⟨rfl, wireDecode_missing_token Sample.env (Bead.mk0 Sample.env) Sample.wireNoToken
    [Sample.nameAB, Sample.nonce1] Sample.nameAB [Sample.comp 97, Sample.comp 98]
    (Selectors.default Sample.env) rfl rfl rfl rfl rfl rfl⟩

/-- Claim C14 fails on the code.  `Sample.wireNoToken` is a Bead block with a
Name and a Nonce element and no Token element; `wireDecode` into a new bead
throws the error of `get(tlv::Token)` instead of leaving an unset token, and the
bead is left with the rejected block as its cached wire and with the decoded
name.  On a bead whose token was never set, `getToken()` returns the empty
string: there an unset token is an ordinary state. -/
theorem C14_missing_token_throws :
    Sample.wireNoToken.type = Sample.env.tlv.Bead ∧
    Sample.wireNoToken.elements = some [Sample.nameAB, Sample.nonce1] ∧
    findType Sample.env.tlv.Token [Sample.nameAB, Sample.nonce1] = none ∧
    ((Bead.mk0 Sample.env).wireDecode Sample.env Sample.wireNoToken).1 = .error .tlv ∧
    ((Bead.mk0 Sample.env).wireDecode Sample.env Sample.wireNoToken).2.hasWire = true ∧
    ((Bead.mk0 Sample.env).wireDecode Sample.env Sample.wireNoToken).2.m_name =
      [Sample.comp 97, Sample.comp 98] ∧
    (Bead.mk0 Sample.env).m_token.hasWire = false ∧
    ((Bead.mk0 Sample.env).getToken Sample.env).1 = [] :=
  ⟨rfl, rfl, rfl, rfl, rfl, rfl, rfl, rfl⟩

end Delegation

/-! ## Refreshing the nonce: theorems -/

section Refresh

variable {Comp Excl KL : Type}

theorem refreshLoop_spec (old : Nat) (draws : List Nat) (cur new : Nat)
    (h : Bead.refreshLoop old cur draws = some new) :
    new ≠ old ∧ (new = cur ∨ new < 4294967296) := by
  induction draws generalizing cur with
  | nil =>
    unfold Bead.refreshLoop at h
    by_cases hc : cur = old
    · rw [if_pos hc] at h; simp at h
    · rw [if_neg hc] at h
      simp only [Option.some.injEq] at h
      subst h
      exact ⟨hc, Or.inl rfl⟩
  | cons r rs ih =>
    unfold Bead.refreshLoop at h
    by_cases hc : cur = old
    · rw [if_pos hc] at h
      obtain ⟨h1, h2⟩ := ih _ h
      refine ⟨h1, Or.inr ?_⟩
      rcases h2 with h2 | h2
      · rw [h2]; exact Nat.mod_lt _ (by decide)
      · exact h2
    · rw [if_neg hc] at h
      simp only [Option.some.injEq] at h
      subst h
      exact ⟨hc, Or.inl rfl⟩

theorem refreshLoop_returns (old : Nat) (draws : List Nat)
    (h : ∃ d ∈ draws, d % 4294967296 ≠ old) (cur : Nat) :
    ∃ new, Bead.refreshLoop old cur draws = some new := by
  induction draws generalizing cur with
  | nil => obtain ⟨d, hd, _⟩ := h; simp at hd
  | cons r rs ih =>
    unfold Bead.refreshLoop
    by_cases hc : cur = old
    · rw [if_pos hc]
      by_cases hr : r % 4294967296 = old
      · obtain ⟨d, hd, hne⟩ := h
        rcases List.mem_cons.1 hd with rfl | hd2
        · exact absurd hr hne
        · exact ih ⟨d, hd2, hne⟩ _
      · cases rs with
        | nil => exact ⟨_, by unfold Bead.refreshLoop; rw [if_neg hr]⟩
        | cons r2 rs2 => exact ⟨_, by unfold Bead.refreshLoop; rw [if_neg hr]⟩
    · rw [if_neg hc]
      exact ⟨_, rfl⟩

/-- After `setNonce(x)` with a `uint32_t` `x`, `getNonce()` returns `x` and
changes nothing, on both paths of `setNonce`. -/
theorem getNonce_setNonce (E : Env Comp Excl KL) (b : Bead Comp Excl KL) (x rnd : Nat)
    (hx : x < 4294967296) :
    (b.setNonce E x).getNonce E rnd = (.ok x, b.setNonce E x) := by
  have hval : (b.setNonce E x).m_nonce.hasWire = true ∧
      (b.setNonce E x).m_nonce.value = word32Bytes x := by
    unfold Bead.setNonce
    by_cases hc : (b.m_wire.hasWire && decide (b.m_nonce.value_size = 4)) = true
    · rw [if_pos hc]
      simp only [Bool.and_eq_true, decide_eq_true_eq] at hc
      refine ⟨?_, rfl⟩
      have h4 := hc.2
      unfold Block.value_size at h4
      by_contra hn
      rw [if_neg hn] at h4
      exact absurd h4 (by decide)
    · rw [if_neg hc]
      exact ⟨rfl, rfl⟩
  unfold Bead.getNonce
  simp only [hval.1, Bool.not_true, Bool.false_eq_true, if_false, Block.value_size, if_true,
    hval.2]
  have := bytesWord32_word32Bytes x hx
  simp only [word32Bytes] at this ⊢
  simp [this]

/-- Claim C19.  `refreshNonce`.  Without a nonce the call changes nothing: the
bead, its unset nonce and its cached wire are as before.  With a nonce, when the
call returns on the random words `draws`, `getNonce()` before the call and
`getNonce()` after the call both return a value and the two values differ, and
the nonce is still set; and the call does return as soon as one of the random
words differs from the old nonce. -/
theorem C19_refreshNonce (E : Env Comp Excl KL) (b : Bead Comp Excl KL) (draws : List Nat)
    (r1 r2 : Nat) :
    (b.hasNonce = false → b.refreshNonce E draws = some (.ok (), b)) ∧
    (b.hasNonce = true → ∀ b2, b.refreshNonce E draws = some (.ok (), b2) →
      ∃ old new, (b.getNonce E r1).1 = .ok old ∧ (b2.getNonce E r2).1 = .ok new ∧
        new ≠ old ∧ b2.hasNonce = true) ∧
    (b.hasNonce = true → ∀ old, (b.getNonce E r1).1 = .ok old →
      (∃ d ∈ draws, d % 4294967296 ≠ old) →
      ∃ b2, b.refreshNonce E draws = some (.ok (), b2)) := by
  have hstate : ∀ r, b.hasNonce = true → b.getNonce E r = ((b.getNonce E r1).1, b) := by
    intro r hn
    have e1 := getNonce_of_hasWire E b r hn
    have e2 := getNonce_congr E b b r r1 rfl hn
    exact Prod.ext e2 e1
  refine ⟨?_, ?_, ?_⟩
  · intro hn
    unfold Bead.refreshNonce
    simp [hn]
  · intro hn b2 h
    unfold Bead.refreshNonce at h
    rw [hn, hstate 0 hn] at h
    simp only [Bool.not_true, Bool.false_eq_true, if_false] at h
    cases hg : (b.getNonce E r1).1 with
    | error e => rw [hg] at h; simp at h
    | ok old =>
      rw [hg] at h
      simp only at h
      cases hl : Bead.refreshLoop old old draws with
      | none => rw [hl] at h; simp at h
      | some new =>
        rw [hl] at h
        simp only [Option.some.injEq, Prod.mk.injEq, true_and] at h
        obtain ⟨hne, hlt⟩ := refreshLoop_spec old draws old new hl
        have hnew : new < 4294967296 := by
          rcases hlt with e | e
          · exact absurd e hne
          · exact e
        have hget := getNonce_setNonce E b new r2 hnew
        rw [h] at hget
        refine ⟨old, new, rfl, by rw [hget], hne, ?_⟩
        unfold Bead.hasNonce
        by_contra hc
        have hb : b2.m_nonce.hasWire = false := by simpa using hc
        rw [← h] at hb
        unfold Bead.setNonce at hb
        split_ifs at hb with hc2
        · simp only [Bool.and_eq_true, decide_eq_true_eq] at hc2
          have h4 := hc2.2
          unfold Block.value_size at h4
          simp only at hb
          rw [hb] at h4
          simp at h4
        · simp [Bead.resetWire, Block.make] at hb
  · intro hn old hg hd
    obtain ⟨new, hl⟩ := refreshLoop_returns old draws hd old
    refine ⟨b.setNonce E new, ?_⟩
    unfold Bead.refreshNonce
    rw [hn, hstate 0 hn, hg]
    simp only [Bool.not_true, Bool.false_eq_true, if_false, hl]

/-- The sample bead with a cached wire and the nonce `0x12345678`: the random
source gives the old nonce first and 5 next; the call returns with the nonce 5,
written into the cached wire. -/
theorem Sample.refreshNonce_beadCached :
    (Sample.beadCached.getNonce Sample.env 0).1 = .ok 305419896 ∧
    ((Sample.beadCached.refreshNonce Sample.env [305419896, 5]).map
      (fun p => ((p.2.getNonce Sample.env 0).1, p.2.m_wire.wire))) =
      some (.ok 5, [5, 17, 7, 6, 8, 1, 97, 8, 1, 98, 11, 1, 116, 10, 4, 5, 0, 0, 0]) ∧
    (Sample.beadPlain.refreshNonce Sample.env [1, 2]) = some (.ok (), Sample.beadPlain) ∧
    (Sample.beadCached.refreshNonce Sample.env [305419896, 305419896]).isNone = true :=
  ⟨rfl, rfl, rfl, rfl⟩

theorem bytesWord32_word32Bytes_mod (x : Nat) :
    bytesWord32 (word32Bytes x) = x % 4294967296 := by
  simp only [bytesWord32, word32Bytes]
  omega

/-- After `setNonce`, on both of its paths, the nonce is set. -/
theorem setNonce_hasNonce (E : Env Comp Excl KL) (b : Bead Comp Excl KL) (x : Nat) :
    (b.setNonce E x).hasNonce = true := by
  unfold Bead.setNonce Bead.hasNonce
  by_cases hc : (b.m_wire.hasWire && decide (b.m_nonce.value_size = 4)) = true
  · rw [if_pos hc]
    simp only [Bool.and_eq_true, decide_eq_true_eq] at hc
    have h4 := hc.2
    unfold Block.value_size at h4
    by_contra hn
    rw [if_neg hn] at h4
    exact absurd h4 (by decide)
  · rw [if_neg hc]
    rfl

/-- Claim C24.  `setNonce`/`getNonce` round trip.  For every bead and every
32-bit value `x`, after `setNonce(x)` the nonce is set and `getNonce()` returns
`x` and changes nothing.  On a bead with no nonce, `getNonce()` sets the nonce to
the random word it draws and returns it; the nonce is set afterwards and a
second `getNonce()` returns the same value and changes nothing. -/
theorem C24_nonce_round_trip (E : Env Comp Excl KL) (b : Bead Comp Excl KL) (x rnd rnd2 : Nat)
    (hx : x < 4294967296) :
    (b.setNonce E x).hasNonce = true ∧
    (b.setNonce E x).getNonce E rnd = (.ok x, b.setNonce E x) ∧
    (b.hasNonce = false →
      (b.getNonce E rnd).1 = .ok (rnd % 4294967296) ∧
      (b.getNonce E rnd).2 = b.setNonce E rnd ∧
      (b.getNonce E rnd).2.hasNonce = true ∧
      (b.getNonce E rnd).2.getNonce E rnd2 = ((b.getNonce E rnd).1, (b.getNonce E rnd).2)) := by
  refine ⟨setNonce_hasNonce E b x, getNonce_setNonce E b x rnd hx, ?_⟩
  intro hn
  have hst : (b.getNonce E rnd).2 = b.setNonce E rnd := by
    rw [getNonce_state]
    unfold Bead.hasNonce at hn
    simp [hn]
  have hset : b.setNonce E rnd = b.setNonce E (rnd % 4294967296) := by
    have hw : word32Bytes rnd = word32Bytes (rnd % 4294967296) := by
      have h1 : rnd % 256 = rnd % 4294967296 % 256 := by omega
      have h2 : rnd / 256 % 256 = rnd % 4294967296 / 256 % 256 := by omega
      have h3 : rnd / 65536 % 256 = rnd % 4294967296 / 65536 % 256 := by omega
      have h4 : rnd / 16777216 % 256 = rnd % 4294967296 / 16777216 % 256 := by omega
      simp only [word32Bytes, List.cons.injEq, and_true]
      exact ⟨h1, h2, h3, h4⟩
    unfold Bead.setNonce
    rw [hw]
  have hlt : rnd % 4294967296 < 4294967296 := Nat.mod_lt _ (by decide)
  have hget := getNonce_setNonce E b (rnd % 4294967296) rnd2 hlt
  rw [← hset] at hget
  have hn2 : b.m_nonce.hasWire = false := hn
  have hs : (b.setNonce E rnd).m_nonce = Block.make E.tlv.Nonce (word32Bytes rnd) := by
    unfold Bead.setNonce
    simp [Block.value_size, hn2, Bead.resetWire]
  have hval : (b.getNonce E rnd).1 = .ok (rnd % 4294967296) := by
    unfold Bead.getNonce
    simp only [hn2, Bool.not_false, if_true, hs]
    have h4 : (Block.make E.tlv.Nonce (word32Bytes rnd)).value_size = 4 := rfl
    rw [if_pos h4]
    simp only [Block.make, bytesWord32_word32Bytes_mod]
  refine ⟨hval, hst, ?_, ?_⟩
  · rw [hst]; exact setNonce_hasNonce E b rnd
  · rw [hval, hst]; exact hget
/-- The three kinds of state: `Sample.beadPlain` (no cached wire, no nonce),
`Sample.beadCached` (a cached wire holding a four-octet nonce) and
`Sample.beadOddCached` (a cached wire and a decoded nonce of three octets).
After `setNonce(5)` each has a nonce and `getNonce()` returns 5; `getNonce()` on
`Sample.beadPlain` with the random word `0x12345678` sets and returns it, and a
second call returns it again. -/
theorem C24_nonce_round_trip_witness :
    (5 : Nat) < 4294967296 ∧
    (Sample.beadPlain.hasWire = false ∧ Sample.beadPlain.hasNonce = false) ∧
    (Sample.beadCached.hasWire = true ∧ Sample.beadCached.m_nonce.value_size = 4) ∧
    (Sample.beadOddCached.hasWire = true ∧ Sample.beadOddCached.m_nonce.value_size = 3) ∧
    ((Sample.beadPlain.setNonce Sample.env 5).hasNonce = true ∧
      (Sample.beadPlain.setNonce Sample.env 5).getNonce Sample.env 0 =
        (.ok 5, Sample.beadPlain.setNonce Sample.env 5)) ∧
    ((Sample.beadCached.setNonce Sample.env 5).hasNonce = true ∧
      (Sample.beadCached.setNonce Sample.env 5).getNonce Sample.env 0 =
        (.ok 5, Sample.beadCached.setNonce Sample.env 5)) ∧
    ((Sample.beadOddCached.setNonce Sample.env 5).hasNonce = true ∧
      (Sample.beadOddCached.setNonce Sample.env 5).getNonce Sample.env 0 =
        (.ok 5, Sample.beadOddCached.setNonce Sample.env 5)) ∧
    ((Sample.beadPlain.getNonce Sample.env 305419896).1 = .ok (305419896 % 4294967296) ∧
      (Sample.beadPlain.getNonce Sample.env 305419896).2 =
        Sample.beadPlain.setNonce Sample.env 305419896 ∧
      (Sample.beadPlain.getNonce Sample.env 305419896).2.hasNonce = true ∧
      (Sample.beadPlain.getNonce Sample.env 305419896).2.getNonce Sample.env 1 =
        ((Sample.beadPlain.getNonce Sample.env 305419896).1,
          (Sample.beadPlain.getNonce Sample.env 305419896).2)) :=
  ⟨by decide, ⟨rfl, rfl⟩, ⟨rfl, rfl⟩, ⟨rfl, rfl⟩,
    ⟨(C24_nonce_round_trip Sample.env Sample.beadPlain 5 0 0 (by decide)).1,
      (C24_nonce_round_trip Sample.env Sample.beadPlain 5 0 0 (by decide)).2.1⟩,
    ⟨(C24_nonce_round_trip Sample.env Sample.beadCached 5 0 0 (by decide)).1,
      (C24_nonce_round_trip Sample.env Sample.beadCached 5 0 0 (by decide)).2.1⟩,
    ⟨(C24_nonce_round_trip Sample.env Sample.beadOddCached 5 0 0 (by decide)).1,
      (C24_nonce_round_trip Sample.env Sample.beadOddCached 5 0 0 (by decide)).2.1⟩,
    (C24_nonce_round_trip Sample.env Sample.beadPlain 5 305419896 1 (by decide)).2.2 rfl⟩

end Refresh

/-! ## The cached wire: theorems -/

/-- Reading a TLV number looks at its own octets only. -/
theorem readVarNumber_prefix {xs r : List Byte} {n : Nat}
    (h : readVarNumber xs = some (n, r)) :
    ∃ p, xs = p ++ r ∧ ∀ r2, readVarNumber (p ++ r2) = some (n, r2) := by
  cases xs with
  | nil => simp [readVarNumber] at h
  | cons b rest =>
    simp only [readVarNumber] at h
    by_cases h1 : b < 253
    · simp only [h1, if_true, Option.some.injEq, Prod.mk.injEq] at h
      obtain ⟨rfl, rfl⟩ := h
      refine ⟨[b], by simp, ?_⟩
      intro r2
      simp [readVarNumber, h1]
    · simp only [h1, if_false] at h
      by_cases h2 : b = 253
      · simp only [h2, if_true] at h
        by_cases h3 : rest.length < 2
        · simp [h3] at h
        · simp only [h3, if_false, Option.some.injEq, Prod.mk.injEq] at h
          refine ⟨b :: rest.take 2, by simp [← h.2, h2], ?_⟩
          intro r2
          have hl : (rest.take 2).length = 2 := by simp; omega
          have := readFixed_append 2 (rest.take 2) r2 (by omega)
          rw [List.take_of_length_le (le_of_eq hl), List.drop_of_length_le (le_of_eq hl)] at this
          simp only [List.cons_append, readVarNumber, h1, h2, if_true, if_false, this]
          simp [h.1]
      · simp only [h2, if_false] at h
        by_cases h4 : b = 254
        · simp only [h4, if_true] at h
          by_cases h3 : rest.length < 4
          · simp [h3] at h
          · simp only [h3, if_false, Option.some.injEq, Prod.mk.injEq] at h
            refine ⟨b :: rest.take 4, by simp [← h.2, h4], ?_⟩
            intro r2
            have hl : (rest.take 4).length = 4 := by simp; omega
            have := readFixed_append 4 (rest.take 4) r2 (by omega)
            rw [List.take_of_length_le (le_of_eq hl), List.drop_of_length_le (le_of_eq hl)] at this
            simp only [List.cons_append, readVarNumber, h1, h2, h4, if_true, if_false, this]
            simp [h.1]
        · simp only [h4, if_false] at h
          by_cases h3 : rest.length < 8
          · simp [h3] at h
          · simp only [h3, if_false, Option.some.injEq, Prod.mk.injEq] at h
            refine ⟨b :: rest.take 8, by simp [← h.2], ?_⟩
            intro r2
            have hl : (rest.take 8).length = 8 := by simp; omega
            have := readFixed_append 8 (rest.take 8) r2 (by omega)
            rw [List.take_of_length_le (le_of_eq hl), List.drop_of_length_le (le_of_eq hl)] at this
            simp only [List.cons_append, readVarNumber, h1, h2, h4, if_true, if_false, this]
            simp [h.1]

/-- Reading an element does not depend on the octets of its value: with another
value of the same length in its place the same header is read. -/
theorem readElement_reval {xs rest : List Byte} {e : Block}
    (h : readElement xs = some (e, rest)) (v rest2 : List Byte)
    (hv : v.length = e.value.length) :
    readElement (e.hdr ++ v ++ rest2) = some ({ e with value := v }, rest2) := by
  unfold readElement at h
  cases h1 : readVarNumber xs with
  | none => simp [h1] at h
  | some p1 =>
    obtain ⟨t, r1⟩ := p1
    rw [h1] at h
    simp only at h
    split_ifs at h with ht
    cases h2 : readVarNumber r1 with
    | none => simp [h2] at h
    | some p2 =>
      obtain ⟨len, r2⟩ := p2
      rw [h2] at h
      simp only at h
      split_ifs at h with hlen
      simp only [Option.some.injEq, Prod.mk.injEq] at h
      obtain ⟨rfl, rfl⟩ := h
      obtain ⟨q1, rfl, hq1⟩ := readVarNumber_prefix h1
      obtain ⟨q2, rfl, hq2⟩ := readVarNumber_prefix h2
      have e1 : (q1 ++ (q2 ++ r2)).length - r2.length = (q1 ++ q2).length := by
        simp only [List.length_append]; omega
      have ehdr : (q1 ++ (q2 ++ r2)).take ((q1 ++ (q2 ++ r2)).length - r2.length) = q1 ++ q2 := by
        rw [e1, ← List.append_assoc q1 q2 r2, List.take_left]
      simp only [ehdr] at hv ⊢
      have hvl : v.length = len := by
        rw [hv, List.length_take]; omega
      unfold readElement
      have a1 : q1 ++ q2 ++ v ++ rest2 = q1 ++ (q2 ++ (v ++ rest2)) := by
        simp only [List.append_assoc]
      rw [a1, hq1 (q2 ++ (v ++ rest2))]
      simp only
      rw [if_neg ht, hq2 (v ++ rest2)]
      simp only
      have hl2 : ¬ (v ++ rest2).length < len := by
        simp only [List.length_append]; omega
      rw [if_neg hl2]
      have e2 : (q1 ++ (q2 ++ (v ++ rest2))).length - (v ++ rest2).length = (q1 ++ q2).length := by
        simp only [List.length_append]; omega
      rw [e2, ← hvl, List.take_left, List.drop_left]
      have a2 : q1 ++ (q2 ++ (v ++ rest2)) = (q1 ++ q2) ++ (v ++ rest2) := by
        simp only [List.append_assoc]
      rw [a2, List.take_left]

theorem readElement_WF {xs rest : List Byte} {e : Block}
    (h : readElement xs = some (e, rest)) : e.WF := by
  refine ⟨(readElement_sound h).2, ?_⟩
  have := readElement_reval h e.value [] rfl
  simpa [Block.wire] using this

theorem Block.WF_reval {e : Block} (h : e.WF) (v : List Byte) (hv : v.length = e.value.length) :
    Block.WF { e with value := v } := by
  refine ⟨h.1, ?_⟩
  have := readElement_reval h.2 v [] hv
  simpa [Block.wire] using this

theorem parseElements_WF {fuel : Nat} {xs : List Byte} {es : List Block}
    (h : parseElements fuel xs = some es) : ∀ e ∈ es, e.WF := by
  induction fuel generalizing xs es with
  | zero =>
    cases xs with
    | nil => simp [parseElements] at h; subst h; simp
    | cons b bs => simp [parseElements] at h
  | succ fuel ih =>
    cases xs with
    | nil => simp [parseElements] at h; subst h; simp
    | cons b bs =>
      rw [parseElements] at h
      cases h1 : readElement (b :: bs) with
      | none => simp [h1] at h
      | some p =>
        obtain ⟨e, rest⟩ := p
        rw [h1] at h
        simp only at h
        cases h2 : parseElements fuel rest with
        | none => simp [h2] at h
        | some es2 =>
          rw [h2] at h
          simp only [Option.some.injEq] at h
          subst h
          intro x hx
          rcases List.mem_cons.1 hx with rfl | hx2
          · exact readElement_WF h1
          · exact ih h2 x hx2

theorem setValueOf_spec {t : Nat} {es : List Block} {e : Block}
    (h : findType t es = some e) :
    ∃ pre post : List Byte, wireOf es = pre ++ e.hdr ++ e.value ++ post ∧
      valueOffsetOf t es = some (pre.length + e.hdr.length) ∧
      ∀ w, wireOf (setValueOf t w es) = pre ++ e.hdr ++ w ++ post := by
  induction es with
  | nil => simp [findType] at h
  | cons x xs ih =>
    unfold findType at h
    rw [List.find?_cons] at h
    by_cases hx : (x.type == t) = true
    · rw [hx] at h
      simp only [Option.some.injEq] at h
      subst h
      refine ⟨[], wireOf xs, ?_, ?_, ?_⟩
      · simp [wireOf, Block.wire]
      · simp [valueOffsetOf, hx]
      · intro w
        simp [setValueOf, hx, wireOf, Block.wire]
    · have hx2 : (x.type == t) = false := by simpa using hx
      rw [hx2] at h
      obtain ⟨pre, post, h1, h2, h3⟩ := ih h
      refine ⟨x.wire ++ pre, post, ?_, ?_, ?_⟩
      · have : wireOf (x :: xs) = x.wire ++ wireOf xs := by simp [wireOf]
        rw [this, h1]
        simp only [List.append_assoc]
      · simp only [valueOffsetOf, hx2, Bool.false_eq_true, if_false, h2, Option.map_some',
          Block.size, List.length_append]
        congr 1
        omega
      · intro w
        have e1 : setValueOf t w (x :: xs) = x :: setValueOf t w xs := by
          simp [setValueOf, hx2]
        have e2 : wireOf (x :: setValueOf t w xs) = x.wire ++ wireOf (setValueOf t w xs) := by
          simp [wireOf]
        rw [e1, e2, h3 w]
        simp only [List.append_assoc]

theorem findType_setValueOf_ne {t t2 : Nat} (w : List Byte) (es : List Block) (hne : t2 ≠ t) :
    findType t2 (setValueOf t w es) = findType t2 es := by
  induction es with
  | nil => rfl
  | cons x xs ih =>
    unfold findType at ih ⊢
    by_cases hx : (x.type == t) = true
    · have hxt : x.type = t := by simpa using hx
      have h2 : (x.type == t2) = false := by
        simp only [beq_eq_false_iff_ne, ne_eq]
        intro hc; exact hne (hc.symm.trans hxt)
      simp only [setValueOf, hx, if_true, List.find?_cons, h2]
    · have hx2 : (x.type == t) = false := by simpa using hx
      simp only [setValueOf, hx2, Bool.false_eq_true, if_false, List.find?_cons, ih]

theorem findType_setValueOf {t : Nat} (w : List Byte) {es : List Block} {e : Block}
    (h : findType t es = some e) :
    findType t (setValueOf t w es) = some { e with value := w } := by
  induction es with
  | nil => simp [findType] at h
  | cons x xs ih =>
    unfold findType at h ih ⊢
    rw [List.find?_cons] at h
    by_cases hx : (x.type == t) = true
    · rw [hx] at h
      simp only [Option.some.injEq] at h
      subst h
      simp only [setValueOf, hx, if_true, List.find?_cons]
    · have hx2 : (x.type == t) = false := by simpa using hx
      rw [hx2] at h
      simp only [setValueOf, hx2, Bool.false_eq_true, if_false, List.find?_cons, ih h]

theorem valueOffsetOf_setValueOf (t : Nat) (w : List Byte) (es : List Block) :
    valueOffsetOf t (setValueOf t w es) = valueOffsetOf t es := by
  induction es with
  | nil => rfl
  | cons x xs ih =>
    by_cases hx : (x.type == t) = true
    · simp only [setValueOf, hx, if_true, valueOffsetOf]
    · have hx2 : (x.type == t) = false := by simpa using hx
      simp only [setValueOf, hx2, Bool.false_eq_true, if_false, valueOffsetOf, ih]

theorem setValueOf_WF {t : Nat} {w : List Byte} {es : List Block} {e : Block}
    (hwf : ∀ x ∈ es, x.WF) (h : findType t es = some e) (hw : w.length = e.value.length) :
    ∀ x ∈ setValueOf t w es, x.WF := by
  induction es with
  | nil => simp [findType] at h
  | cons y ys ih =>
    unfold findType at h ih
    rw [List.find?_cons] at h
    by_cases hy : (y.type == t) = true
    · rw [hy] at h
      simp only [Option.some.injEq] at h
      subst h
      simp only [setValueOf, hy, if_true]
      intro x hx
      rcases List.mem_cons.1 hx with rfl | hx2
      · exact Block.WF_reval (hwf _ (List.mem_cons_self _ _)) w hw
      · exact hwf x (List.mem_cons_of_mem _ hx2)
    · have hy2 : (y.type == t) = false := by simpa using hy
      rw [hy2] at h
      simp only [setValueOf, hy2, Bool.false_eq_true, if_false]
      intro x hx
      rcases List.mem_cons.1 hx with rfl | hx2
      · exact hwf _ (List.mem_cons_self _ _)
      · exact ih (fun z hz => hwf z (List.mem_cons_of_mem _ hz)) h x hx2

/-- The elements of a block after `w` is written over the value of its first
element of type `t` (`w` as long as that value). -/
theorem elements_patch {blk : Block} {es : List Block} {t k : Nat} {e : Block} {w : List Byte}
    (hel : blk.elements = some es) (hf : findType t es = some e)
    (hk : valueOffsetOf t es = some k) (hw : w.length = e.value.length) :
    Block.elements { blk with value := patch blk.value k w } = some (setValueOf t w es) := by
  have hne : es ≠ [] := by
    intro he; rw [he] at hf; simp [findType] at hf
  have hvs : blk.value_size ≠ 0 := by
    intro hz
    unfold Block.elements at hel
    rw [if_pos hz] at hel
    simp only [Option.some.injEq] at hel
    exact hne hel.symm
  have hhw : blk.hasWire = true := by
    unfold Block.value_size at hvs
    by_contra hc
    rw [if_neg hc] at hvs
    exact hvs rfl
  unfold Block.elements at hel
  rw [if_neg hvs] at hel
  have hparse : wireOf es = blk.value := parseElements_sound hel
  have hwf := parseElements_WF hel
  obtain ⟨pre, post, h1, h2, h3⟩ := setValueOf_spec hf
  rw [hk] at h2
  simp only [Option.some.injEq] at h2
  have hp : patch blk.value k w = wireOf (setValueOf t w es) := by
    rw [h3 w, ← hparse, h1, h2]
    have := patch_spec (pre ++ e.hdr) e.value post w hw.symm
    rw [List.length_append] at this
    exact this
  have hlen : (wireOf (setValueOf t w es)).length = blk.value.length := by
    rw [h3 w, ← hparse, h1]
    simp only [List.length_append, hw]
  have hpos : blk.value.length ≠ 0 := by
    unfold Block.value_size at hvs
    rwa [if_pos hhw] at hvs
  unfold Block.elements
  have hvs2 : Block.value_size { blk with value := patch blk.value k w } ≠ 0 := by
    unfold Block.value_size
    simp only [hhw, if_true, hp, hlen]
    exact hpos
  rw [if_neg hvs2]
  simp only [hp]
  exact parseElements_wireOf _ (setValueOf_WF hwf hf hw) _ (le_refl _)

section CacheInvariant

variable {Comp Excl KL : Type}

/-- When `wireDecode` succeeds, and what it leaves then: the fields read from
the elements of the block, the old link when the block has no Data element, and
the old selected delegation when it has no SelectedDelegation element. -/
theorem wireDecode_ok_iff (E : Env Comp Excl KL) (b b1 : Bead Comp Excl KL) (w : Block) :
    b.wireDecode E w = (.ok (), b1) ↔
    ∃ es nameBlock name sel token nonce lifetime idx,
      w.elements = some es ∧ w.type = E.tlv.Bead ∧
      findType E.tlv.Name es = some nameBlock ∧ E.nameWireDecode nameBlock = some name ∧
      (match findType E.tlv.Selectors es with
       | some val => E.selectorsWireDecode val
       | none => some (Selectors.default E)) = some sel ∧
      findType E.tlv.Token es = some token ∧
      findType E.tlv.Nonce es = some nonce ∧
      (match findType E.tlv.BeadLifetime es with
       | some val => (readNonNegativeIntegerBytes val.value).map Bead.toInt64
       | none => some DEFAULT_Bead_LIFETIME) = some lifetime ∧
      ((findType E.tlv.SelectedDelegation es = none ∧ idx = b.m_selectedDelegationIndex) ∨
       (∃ val count, findType E.tlv.SelectedDelegation es = some val ∧
          ((findType E.tlv.Data es).getD b.m_link).hasWire = true ∧
          readNonNegativeIntegerBytes val.value = some idx ∧
          E.countDelegationsFromWire ((findType E.tlv.Data es).getD b.m_link) = some count ∧
          idx < count)) ∧
      b1 = { m_name := name, m_selectors := sel, m_nonce := nonce, m_token := token,
             m_BeadLifetime := lifetime, m_link := (findType E.tlv.Data es).getD b.m_link,
             m_selectedDelegationIndex := idx, m_wire := w,
             nonceOffset := valueOffsetOf E.tlv.Nonce es } := by
  constructor
  · intro h
    unfold Bead.wireDecode at h
    simp only at h
    cases hel : w.elements with
    | none => rw [hel] at h; simp at h
    | some es =>
      rw [hel] at h
      simp only at h
      split_ifs at h with hty
      · simp at h
      have hty2 : w.type = E.tlv.Bead := by simpa using hty
      cases hN : findType E.tlv.Name es with
      | none => rw [hN] at h; simp at h
      | some nameBlock =>
        rw [hN] at h
        simp only at h
        cases hnd : E.nameWireDecode nameBlock with
        | none => rw [hnd] at h; simp at h
        | some name =>
          rw [hnd] at h
          simp only at h
          split at h
          · simp at h
          · rename_i sel hsel
            cases hT : findType E.tlv.Token es with
            | none => rw [hT] at h; simp at h
            | some token =>
              rw [hT] at h
              simp only at h
              cases hNo : findType E.tlv.Nonce es with
              | none => rw [hNo] at h; simp at h
              | some nonce =>
                rw [hNo] at h
                simp only at h
                split at h
                · simp at h
                · rename_i lifetime hlt
                  refine ⟨es, nameBlock, name, sel, token, nonce, lifetime, ?_⟩
                  cases hD : findType E.tlv.Data es with
                  | none =>
                    rw [hD] at h
                    simp only [Option.getD_none] at h ⊢
                    cases hS : findType E.tlv.SelectedDelegation es with
                    | none =>
                      rw [hS] at h
                      simp only [Prod.mk.injEq, true_and] at h
                      exact ⟨b.m_selectedDelegationIndex, by trivial, hty2, hN, hnd, hsel, hT, hNo,
                        hlt, Or.inl ⟨by trivial, rfl⟩, h.symm⟩
                    | some val =>
                      rw [hS] at h
                      simp only [Bead.hasLink] at h
                      split_ifs at h with hl
                      · simp at h
                      cases hr : readNonNegativeIntegerBytes val.value with
                      | none => rw [hr] at h; simp at h
                      | some sd =>
                        rw [hr] at h
                        simp only at h
                        cases hc : E.countDelegationsFromWire b.m_link with
                        | none => rw [hc] at h; simp at h
                        | some count =>
                          rw [hc] at h
                          simp only at h
                          split_ifs at h with hlt2
                          · simp only [Prod.mk.injEq, true_and] at h
                            refine ⟨sd, by trivial, hty2, hN, hnd, hsel, hT, hNo, hlt,
                              Or.inr ⟨val, count, by trivial, ?_, by trivial, by trivial, hlt2⟩,
                              h.symm⟩
                            simpa using hl
                          · simp at h
                  | some link =>
                    rw [hD] at h
                    simp only [Option.getD_some] at h ⊢
                    cases hS : findType E.tlv.SelectedDelegation es with
                    | none =>
                      rw [hS] at h
                      simp only [Prod.mk.injEq, true_and] at h
                      exact ⟨b.m_selectedDelegationIndex, by trivial, hty2, hN, hnd, hsel, hT, hNo,
                        hlt, Or.inl ⟨by trivial, rfl⟩, h.symm⟩
                    | some val =>
                      rw [hS] at h
                      simp only [Bead.hasLink] at h
                      split_ifs at h with hl
                      · simp at h
                      cases hr : readNonNegativeIntegerBytes val.value with
                      | none => rw [hr] at h; simp at h
                      | some sd =>
                        rw [hr] at h
                        simp only at h
                        cases hc : E.countDelegationsFromWire link with
                        | none => rw [hc] at h; simp at h
                        | some count =>
                          rw [hc] at h
                          simp only at h
                          split_ifs at h with hlt2
                          · simp only [Prod.mk.injEq, true_and] at h
                            refine ⟨sd, by trivial, hty2, hN, hnd, hsel, hT, hNo, hlt,
                              Or.inr ⟨val, count, by trivial, ?_, by trivial, by trivial, hlt2⟩,
                              h.symm⟩
                            simpa using hl
                          · simp at h
  · rintro ⟨es, nameBlock, name, sel, token, nonce, lifetime, idx, hel, hty, hN, hnd, hsel, hT,
      hNo, hlt, hsd, rfl⟩
    unfold Bead.wireDecode
    simp only [hel, hty, ne_eq, not_true_eq_false, if_false, hN, hnd, hsel, hT, hNo, hlt]
    rcases hsd with ⟨hS, rfl⟩ | ⟨val, count, hS, hl, hr, hc, hlt2⟩
    · rw [hS]
      cases hD : findType E.tlv.Data es <;> simp
    · rw [hS]
      cases hD : findType E.tlv.Data es with
      | none =>
        rw [hD] at hl hc
        simp only [Option.getD_none] at hl hc
        simp only [Bead.hasLink, hl, Bool.not_true, Bool.false_eq_true, if_false, hr, hc, hlt2,
          if_true, Option.getD_none]
      | some link =>
        rw [hD] at hl hc
        simp only [Option.getD_some] at hl hc
        simp only [Bead.hasLink, hl, Bool.not_true, Bool.false_eq_true, if_false, hr, hc, hlt2,
          if_true, Option.getD_some]

/-- Decoding again the block a successful `wireDecode` has stored changes
nothing. -/
theorem wireDecode_idem (E : Env Comp Excl KL) (b b1 : Bead Comp Excl KL) (w : Block)
    (h : b.wireDecode E w = (.ok (), b1)) :
    b1.wireDecode E b1.m_wire = (.ok (), b1) := by
  obtain ⟨es, nameBlock, name, sel, token, nonce, lifetime, idx, hel, hty, hN, hnd, hsel, hT,
    hNo, hlt, hsd, rfl⟩ := (wireDecode_ok_iff E b b1 w).1 h
  have hgd : ∀ (o : Option Block) (d : Block), o.getD (o.getD d) = o.getD d := by
    intro o d; cases o <;> rfl
  rw [wireDecode_ok_iff]
  refine ⟨es, nameBlock, name, sel, token, nonce, lifetime, idx, hel, hty, hN, hnd, hsel, hT,
    hNo, hlt, ?_, ?_⟩
  · simp only [hgd]
    rcases hsd with ⟨hS, _⟩ | hsd
    · exact Or.inl ⟨hS, by trivial⟩
    · exact Or.inr hsd
  · simp only [hgd]

/-- `setNonce` keeps the invariant "the cached wire decodes to the bead": the
fast path rewrites the nonce inside the cached wire, the other path drops the
cache. -/
theorem setNonce_cache (E : Env Comp Excl KL) (ht : TypesOk E.tlv) (b : Bead Comp Excl KL)
    (x : Nat) (h : b.m_wire.hasWire = true → b.wireDecode E b.m_wire = (.ok (), b)) :
    (b.setNonce E x).m_wire.hasWire = true →
      (b.setNonce E x).wireDecode E (b.setNonce E x).m_wire = (.ok (), b.setNonce E x) := by
  by_cases hc : b.m_wire.hasWire = true ∧ b.m_nonce.value_size = 4
  · intro _
    obtain ⟨es, nameBlock, name, sel, token, nonce, lifetime, idx, hel, hty, hN, hnd, hsel, hT,
      hNo, hlt, hsd, heq⟩ := (wireDecode_ok_iff E b b b.m_wire).1 (h hc.1)
    obtain ⟨hw, h4⟩ := hc
    obtain ⟨pre, post, _, hoff, _⟩ := setValueOf_spec hNo
    obtain ⟨m_name, m_selectors, m_nonce, m_token, m_BeadLifetime, m_link, m_index, m_wire,
      nonceOffset⟩ := b
    simp only [Bead.mk.injEq] at heq
    obtain ⟨e1, e2, e3, e4, e5, e6, e7, _, e9⟩ := heq
    simp only at hw h4 hel hty hsd e6 e7
    subst e1 e2 e3 e4 e5 e9
    have hlen : (word32Bytes x).length = m_nonce.value.length := by
      unfold Block.value_size at h4
      split_ifs at h4
      · rw [h4]; rfl
    have hset : Bead.setNonce E
        { m_name := m_name, m_selectors := m_selectors, m_nonce := m_nonce, m_token := m_token,
          m_BeadLifetime := m_BeadLifetime, m_link := m_link,
          m_selectedDelegationIndex := m_index,
          m_wire := m_wire, nonceOffset := valueOffsetOf E.tlv.Nonce es } x =
        { m_name := m_name, m_selectors := m_selectors,
          m_nonce := { m_nonce with value := word32Bytes x }, m_token := m_token,
          m_BeadLifetime := m_BeadLifetime, m_link := m_link,
          m_selectedDelegationIndex := m_index,
          m_wire := { m_wire with
            value := patch m_wire.value (pre.length + m_nonce.hdr.length) (word32Bytes x) },
          nonceOffset := valueOffsetOf E.tlv.Nonce es } := by
      unfold Bead.setNonce
      simp only [hw, h4, decide_True, Bool.and_self, if_true, hoff]
    rw [hset]
    have hel2 := elements_patch hel hNo hoff hlen
    obtain ⟨hnd1, -⟩ := ht
    simp only [List.nodup_cons, List.mem_cons, List.mem_singleton, not_or, List.not_mem_nil,
      not_false_eq_true, List.nodup_nil, and_true] at hnd1
    obtain ⟨⟨_, _, n3, _, _, _⟩, ⟨_, s3, _, _, _⟩, ⟨k3, _, _, _⟩, ⟨n5, n6, n7⟩, _⟩ := hnd1
    rw [wireDecode_ok_iff]
    refine ⟨setValueOf E.tlv.Nonce (word32Bytes x) es, nameBlock, m_name, m_selectors, m_token,
      { m_nonce with value := word32Bytes x }, m_BeadLifetime, m_index, hel2, hty, ?_, hnd, ?_,
      ?_, ?_, ?_, ?_, ?_⟩
    · rw [findType_setValueOf_ne _ _ n3]; exact hN
    · rw [findType_setValueOf_ne _ _ s3]; exact hsel
    · rw [findType_setValueOf_ne _ _ k3]; exact hT
    · exact findType_setValueOf _ hNo
    · rw [findType_setValueOf_ne _ _ (Ne.symm n5)]; exact hlt
    · rw [findType_setValueOf_ne _ _ (Ne.symm n7), findType_setValueOf_ne _ _ (Ne.symm n6)]
      simp only
      rw [← e6]
      rw [← e6] at hsd
      subst e7
      rcases hsd with ⟨hS, _⟩ | hsd
      · exact Or.inl ⟨hS, by trivial⟩
      · exact Or.inr hsd
    · rw [findType_setValueOf_ne _ _ (Ne.symm n6), valueOffsetOf_setValueOf, ← e6]
  · intro hw
    exfalso
    unfold Bead.setNonce at hw
    have hc2 : (b.m_wire.hasWire && decide (b.m_nonce.value_size = 4)) = false := by
      by_cases h1 : b.m_wire.hasWire = true
      · have : ¬ b.m_nonce.value_size = 4 := fun h4 => hc ⟨h1, h4⟩
        simp [this]
      · simp [h1]
    rw [hc2] at hw
    simp [Bead.resetWire, Block.empty] at hw

/-- A successful `wireEncode()` keeps the invariant "the cached wire decodes to
the bead": the bead is unchanged, or it is what `wireDecode` has left. -/
theorem wireEncode_cache (E : Env Comp Excl KL) (b b2 : Bead Comp Excl KL) (rnd : Nat)
    (blk : Block) (h : b.m_wire.hasWire = true → b.wireDecode E b.m_wire = (.ok (), b))
    (hok : b.wireEncode E rnd = (.ok blk, b2)) :
    b2.wireDecode E b2.m_wire = (.ok (), b2) := by
  unfold Bead.wireEncode at hok
  by_cases hw : b.m_wire.hasWire = true
  · rw [if_pos hw] at hok
    simp only [Prod.mk.injEq, Except.ok.injEq] at hok
    obtain ⟨_, h2⟩ := hok
    subst h2
    exact h hw
  · rw [if_neg hw] at hok
    rcases h1 : b.wireEncodeT E .EstimatorTag rnd [] with ⟨r1, b3⟩
    rw [h1] at hok
    cases r1 with
    | error e => simp at hok
    | ok v1 =>
      simp only at hok
      rcases h2 : b3.wireEncodeT E .EncoderTag rnd [] with ⟨r2, b4⟩
      rw [h2] at hok
      cases r2 with
      | error e => simp at hok
      | ok v2 =>
        simp only at hok
        cases h3 : Block.fromBuffer v2.2 with
        | none => rw [h3] at hok; simp at hok
        | some block =>
          rw [h3] at hok
          simp only at hok
          rcases h4 : b4.wireDecode E block with ⟨r4, b5⟩
          rw [h4] at hok
          cases r4 with
          | error e => simp at hok
          | ok u =>
            simp only [Prod.mk.injEq, Except.ok.injEq] at hok
            obtain ⟨_, e2⟩ := hok
            subst e2
            exact wireDecode_idem E b4 b5 block h4

/-- Every operation that succeeds keeps the invariant "a cached wire decodes to
the bead". -/
theorem apply_cache (E : Env Comp Excl KL) (ht : TypesOk E.tlv) (b b2 : Bead Comp Excl KL)
    (op : Bead.Op Comp Excl KL)
    (h : b.m_wire.hasWire = true → b.wireDecode E b.m_wire = (.ok (), b))
    (hs : Bead.apply E b op = some (.ok (), b2)) :
    b2.m_wire.hasWire = true → b2.wireDecode E b2.m_wire = (.ok (), b2) := by
  have hreset : ∀ c : Bead Comp Excl KL, b2 = c.resetWire →
      b2.m_wire.hasWire = true → b2.wireDecode E b2.m_wire = (.ok (), b2) := by
    intro c hc hw
    rw [hc] at hw
    simp [Bead.resetWire, Block.empty] at hw
  cases op with
  | setName name =>
    simp only [Bead.apply, Option.some.injEq, Prod.mk.injEq, true_and] at hs
    exact hreset _ hs.symm
  | setSelectors s =>
    simp only [Bead.apply, Option.some.injEq, Prod.mk.injEq, true_and] at hs
    exact hreset _ hs.symm
  | setMinSuffixComponents v =>
    simp only [Bead.apply, Option.some.injEq, Prod.mk.injEq, true_and] at hs
    exact hreset _ hs.symm
  | setMaxSuffixComponents v =>
    simp only [Bead.apply, Option.some.injEq, Prod.mk.injEq, true_and] at hs
    exact hreset _ hs.symm
  | setPublisherPublicKeyLocator k =>
    simp only [Bead.apply, Option.some.injEq, Prod.mk.injEq, true_and] at hs
    exact hreset _ hs.symm
  | setExclude ex =>
    simp only [Bead.apply, Option.some.injEq, Prod.mk.injEq, true_and] at hs
    exact hreset _ hs.symm
  | setChildSelector v =>
    simp only [Bead.apply, Option.some.injEq, Prod.mk.injEq, true_and] at hs
    exact hreset _ hs.symm
  | setMustBeFresh v =>
    simp only [Bead.apply, Option.some.injEq, Prod.mk.injEq, true_and] at hs
    exact hreset _ hs.symm
  | setBeadLifetime lifetime =>
    simp only [Bead.apply, Option.some.injEq, Prod.mk.injEq, true_and] at hs
    exact hreset _ hs.symm
  | setToken token =>
    simp only [Bead.apply, Option.some.injEq, Prod.mk.injEq, true_and] at hs
    exact hreset _ hs.symm
  | getToken =>
    simp only [Bead.apply, Option.some.injEq, Prod.mk.injEq, true_and] at hs
    unfold Bead.getToken at hs
    simp only at hs
    split_ifs at hs
    · exact hreset _ hs.symm
    · rw [← hs]; exact h
  | setNonce nonce =>
    simp only [Bead.apply, Option.some.injEq, Prod.mk.injEq, true_and] at hs
    rw [← hs]
    exact setNonce_cache E ht b nonce h
  | getNonce rnd =>
    simp only [Bead.apply] at hs
    have hst := getNonce_state E b rnd
    rcases hg : b.getNonce E rnd with ⟨r, b3⟩
    rw [hg] at hs hst
    cases r with
    | error e => simp at hs
    | ok v =>
      simp only [Option.some.injEq, Prod.mk.injEq, true_and] at hs
      subst hs
      simp only at hst
      rw [hst]
      split_ifs
      · exact setNonce_cache E ht b rnd h
      · exact h
  | refreshNonce draws =>
    simp only [Bead.apply] at hs
    unfold Bead.refreshNonce at hs
    split_ifs at hs with hn
    · simp only [Option.some.injEq, Prod.mk.injEq, true_and] at hs
      rw [← hs]; exact h
    · have hst := getNonce_state E b 0
      rcases hg : b.getNonce E 0 with ⟨r, b3⟩
      rw [hg] at hs hst
      cases r with
      | error e => simp at hs
      | ok v =>
        simp only at hs hst
        cases hl : Bead.refreshLoop v v draws with
        | none => rw [hl] at hs; simp at hs
        | some new =>
          rw [hl] at hs
          simp only [Option.some.injEq, Prod.mk.injEq, true_and] at hs
          rw [← hs]
          apply setNonce_cache E ht b3 new
          rw [hst]
          split_ifs
          · exact setNonce_cache E ht b 0 h
          · exact h
  | setLink link =>
    simp only [Bead.apply, Option.some.injEq] at hs
    unfold Bead.setLink at hs
    simp only at hs
    split_ifs at hs
    · simp at hs
    · simp only [Prod.mk.injEq, true_and] at hs
      exact hreset _ hs.symm
  | unsetLink =>
    simp only [Bead.apply, Option.some.injEq, Prod.mk.injEq, true_and] at hs
    exact hreset _ hs.symm
  | setSelectedDelegationName delegationName =>
    simp only [Bead.apply, Option.some.injEq] at hs
    unfold Bead.setSelectedDelegationName at hs
    split at hs
    · simp at hs
    · split_ifs at hs
      · simp only [Prod.mk.injEq, true_and] at hs
        exact hreset _ hs.symm
      · simp at hs
  | setSelectedDelegation delegationIndex =>
    simp only [Bead.apply, Option.some.injEq] at hs
    unfold Bead.setSelectedDelegation at hs
    split at hs
    · simp at hs
    · split_ifs at hs
      · simp at hs
      · simp only [Prod.mk.injEq, true_and] at hs
        exact hreset _ hs.symm
  | unsetSelectedDelegation =>
    simp only [Bead.apply, Option.some.injEq, Prod.mk.injEq, true_and] at hs
    exact hreset _ hs.symm
  | wireEncode rnd =>
    simp only [Bead.apply] at hs
    rcases hg : b.wireEncode E rnd with ⟨r, b3⟩
    rw [hg] at hs
    cases r with
    | error e => simp at hs
    | ok blk =>
      simp only [Option.some.injEq, Prod.mk.injEq, true_and] at hs
      subst hs
      intro _
      exact wireEncode_cache E b b3 rnd blk h hg
  | wireDecode wire =>
    simp only [Bead.apply, Option.some.injEq] at hs
    intro _
    exact wireDecode_idem E b b2 wire hs

/-- In every state reached by operations that succeed, a cached wire decodes to
the bead. -/
theorem reachableOk_cache (E : Env Comp Excl KL) (ht : TypesOk E.tlv) (b : Bead Comp Excl KL)
    (hr : Bead.ReachableOk E b) :
    b.m_wire.hasWire = true → b.wireDecode E b.m_wire = (.ok (), b) := by
  induction hr with
  | mk0 => intro hw; simp [Bead.mk0, Bead.mk1, Bead.mk2, Block.empty] at hw
  | mk1 name => intro hw; simp [Bead.mk1, Bead.mk2, Block.empty] at hw
  | mk2 name lifetime => intro hw; simp [Bead.mk2, Block.empty] at hw
  | ofBlock lifetime index wire b h => intro _; exact wireDecode_idem E _ b wire h
  | step b b2 op _ hs ih => exact apply_cache E ht b b2 op ih hs

theorem Sample.beadCached_setNonce_reachableOk :
    Bead.ReachableOk Sample.env (Sample.beadCached.setNonce Sample.env 5) := by
  have h0 := Bead.ReachableOk.mk1 (E := Sample.env) [Sample.comp 97, Sample.comp 98]
  have h1 := Bead.ReachableOk.step _ _ (.setToken [116]) h0 rfl
  have h2 := Bead.ReachableOk.step _ Sample.beadCached (.wireEncode 305419896) h1 rfl
  exact Bead.ReachableOk.step _ _ (.setNonce 5) h2 rfl

/-- Claim C11, amended.  The cache invariant that holds.  In every state reached
from a constructor by setters, getters, `refreshNonce`, `wireEncode` and
`wireDecode` calls that all succeed (the element types being pairwise different
numbers), a cached wire block decodes to the bead: `wireDecode` of the cached
block into the bead succeeds and changes nothing.  So the cached block is a Bead
element whose Name and Selectors elements decode to the bead's name and
selectors (the default selectors when it has none), whose first Token and Nonce
elements are the bead's token and nonce blocks, whose BeadLifetime element holds
the bead's lifetime (the default 4000 when it has none), and whose Data and
SelectedDelegation elements, when present, are the bead's link and selected
delegation index. -/
theorem C11_cache_decodes_to_bead (E : Env Comp Excl KL) (b : Bead Comp Excl KL)
    (ht : TypesOk E.tlv) (hr : Bead.ReachableOk E b) (hw : b.hasWire = true) :
    b.wireDecode E b.m_wire = (.ok (), b) ∧
    ∃ es, b.m_wire.elements = some es ∧ b.m_wire.type = E.tlv.Bead ∧
      (∃ nameBlock, findType E.tlv.Name es = some nameBlock ∧
        E.nameWireDecode nameBlock = some b.m_name) ∧
      (match findType E.tlv.Selectors es with
       | some val => E.selectorsWireDecode val
       | none => some (Selectors.default E)) = some b.m_selectors ∧
      findType E.tlv.Token es = some b.m_token ∧
      findType E.tlv.Nonce es = some b.m_nonce ∧
      (match findType E.tlv.BeadLifetime es with
       | some val => (readNonNegativeIntegerBytes val.value).map Bead.toInt64
       | none => some DEFAULT_Bead_LIFETIME) = some b.m_BeadLifetime ∧
      (∀ link, findType E.tlv.Data es = some link → b.m_link = link) ∧
      (∀ val, findType E.tlv.SelectedDelegation es = some val →
        readNonNegativeIntegerBytes val.value = some b.m_selectedDelegationIndex) := by
  have hfix := reachableOk_cache E ht b hr hw
  refine ⟨hfix, ?_⟩
  obtain ⟨es, nameBlock, name, sel, token, nonce, lifetime, idx, hel, hty, hN, hnd, hsel, hT,
    hNo, hlt, hsd, heq⟩ := (wireDecode_ok_iff E b b b.m_wire).1 hfix
  have e1 : b.m_name = name := by rw [heq]
  have e2 : b.m_selectors = sel := by rw [heq]
  have e3 : b.m_nonce = nonce := by rw [heq]
  have e4 : b.m_token = token := by rw [heq]
  have e5 : b.m_BeadLifetime = lifetime := by rw [heq]
  have e6 : b.m_link = (findType E.tlv.Data es).getD b.m_link := by
    have := congrArg Bead.m_link heq
    exact this
  have e7 : b.m_selectedDelegationIndex = idx := by rw [heq]
  refine ⟨es, hel, hty, ⟨nameBlock, hN, by rw [e1]; exact hnd⟩, by rw [e2]; exact hsel,
    by rw [e4]; exact hT, by rw [e3]; exact hNo, by rw [e5]; exact hlt, ?_, ?_⟩
  · intro link hl
    rw [hl] at e6
    exact e6
  · intro val hv
    rcases hsd with ⟨hS, _⟩ | ⟨val2, count, hS, _, hr2, _, _⟩
    · rw [hS] at hv; simp at hv
    · rw [hS] at hv
      simp only [Option.some.injEq] at hv
      subst hv
      rw [e7]; exact hr2

/-- The sample bead with a cached wire, after `setNonce(5)` has written the
nonce into the cache: the cached block decodes to the bead. -/
theorem C11_cache_decodes_to_bead_witness :
    TypesOk Sample.env.tlv ∧
    Bead.ReachableOk Sample.env (Sample.beadCached.setNonce Sample.env 5) ∧
    (Sample.beadCached.setNonce Sample.env 5).hasWire = true ∧
    (Sample.beadCached.setNonce Sample.env 5).m_wire.wire =
      [5, 17, 7, 6, 8, 1, 97, 8, 1, 98, 11, 1, 116, 10, 4, 5, 0, 0, 0] ∧
    ((Sample.beadCached.setNonce Sample.env 5).wireDecode Sample.env
        (Sample.beadCached.setNonce Sample.env 5).m_wire =
      (.ok (), Sample.beadCached.setNonce Sample.env 5) ∧
    ∃ es, (Sample.beadCached.setNonce Sample.env 5).m_wire.elements = some es ∧
      (Sample.beadCached.setNonce Sample.env 5).m_wire.type = Sample.env.tlv.Bead ∧
      (∃ nameBlock, findType Sample.env.tlv.Name es = some nameBlock ∧
        Sample.env.nameWireDecode nameBlock =
          some (Sample.beadCached.setNonce Sample.env 5).m_name) ∧
      (match findType Sample.env.tlv.Selectors es with
       | some val => Sample.env.selectorsWireDecode val
       | none => some (Selectors.default Sample.env)) =
        some (Sample.beadCached.setNonce Sample.env 5).m_selectors ∧
      findType Sample.env.tlv.Token es =
        some (Sample.beadCached.setNonce Sample.env 5).m_token ∧
      findType Sample.env.tlv.Nonce es =
        some (Sample.beadCached.setNonce Sample.env 5).m_nonce ∧
      (match findType Sample.env.tlv.BeadLifetime es with
       | some val => (readNonNegativeIntegerBytes val.value).map Bead.toInt64
       | none => some DEFAULT_Bead_LIFETIME) =
        some (Sample.beadCached.setNonce Sample.env 5).m_BeadLifetime ∧
      (∀ link, findType Sample.env.tlv.Data es = some link →
        (Sample.beadCached.setNonce Sample.env 5).m_link = link) ∧
      (∀ val, findType Sample.env.tlv.SelectedDelegation es = some val →
        readNonNegativeIntegerBytes val.value =
          some (Sample.beadCached.setNonce Sample.env 5).m_selectedDelegationIndex)) :=
  ⟨by decide, Sample.beadCached_setNonce_reachableOk, rfl, rfl,
    C11_cache_decodes_to_bead Sample.env (Sample.beadCached.setNonce Sample.env 5) (by decide)
      Sample.beadCached_setNonce_reachableOk rfl⟩

/-- Claim C11 fails as stated after a successful `wireDecode`, which caches the
block as it was received.  `Sample.wireLifetime4000` carries a BeadLifetime
element holding the default, 4000.  Decoded into a new bead (a reachable state,
every call succeeding) it is the cached wire, 23 octets; encoding the bead's
fields from scratch leaves the default lifetime out and gives 19 octets. -/
theorem C11_cache_counterexample :
    Bead.ReachableOk Sample.env
      ((Bead.mk0 Sample.env).wireDecode Sample.env Sample.wireLifetime4000).2 ∧
    ((Bead.mk0 Sample.env).wireDecode Sample.env Sample.wireLifetime4000).1 = .ok () ∧
    ((Bead.mk0 Sample.env).wireDecode Sample.env Sample.wireLifetime4000).2.hasWire = true ∧
    ((Bead.mk0 Sample.env).wireDecode Sample.env Sample.wireLifetime4000).2.m_BeadLifetime
      = 4000 ∧
    ((Bead.mk0 Sample.env).wireDecode Sample.env Sample.wireLifetime4000).2.m_wire.wire =
      [5, 21, 7, 6, 8, 1, 97, 8, 1, 98, 11, 1, 116, 10, 4, 120, 86, 52, 18, 12, 2, 15, 160] ∧
    (((Bead.mk0 Sample.env).wireDecode Sample.env Sample.wireLifetime4000).2.wireEncodeT
        Sample.env .EncoderTag 0 []).1 =
      .ok (19, [5, 17, 7, 6, 8, 1, 97, 8, 1, 98, 11, 1, 116, 10, 4, 120, 86, 52, 18]) ∧
    ((Bead.mk0 Sample.env).wireDecode Sample.env Sample.wireLifetime4000).2.m_wire.wire ≠
      [5, 17, 7, 6, 8, 1, 97, 8, 1, 98, 11, 1, 116, 10, 4, 120, 86, 52, 18] :=
  ⟨Bead.ReachableOk.step _ _ (.wireDecode Sample.wireLifetime4000) Bead.ReachableOk.mk0 rfl,
    rfl, rfl, rfl, rfl, rfl, by decide⟩

/-- Two successful `wireDecode` calls of one block, into beads in any states,
leave the same name, selectors, token, nonce, lifetime and cached wire.  The
link is the same when the block has a Data element and is otherwise the link each
bead had before; the selected delegation is the same when the block has a
SelectedDelegation element and is otherwise what each bead had before. -/
theorem wireDecode_same_block (E : Env Comp Excl KL) (b1 b2 c1 c2 : Bead Comp Excl KL)
    (w : Block) (h1 : b1.wireDecode E w = (.ok (), c1)) (h2 : b2.wireDecode E w = (.ok (), c2)) :
    c1.m_name = c2.m_name ∧ c1.m_selectors = c2.m_selectors ∧ c1.m_token = c2.m_token ∧
    c1.m_nonce = c2.m_nonce ∧ c1.m_BeadLifetime = c2.m_BeadLifetime ∧ c1.m_wire = c2.m_wire ∧
    ∃ es, w.elements = some es ∧
      (∀ link, findType E.tlv.Data es = some link → c1.m_link = link ∧ c2.m_link = link) ∧
      (findType E.tlv.Data es = none → c1.m_link = b1.m_link ∧ c2.m_link = b2.m_link) ∧
      (∀ val, findType E.tlv.SelectedDelegation es = some val →
        c1.m_selectedDelegationIndex = c2.m_selectedDelegationIndex) ∧
      (findType E.tlv.SelectedDelegation es = none →
        c1.m_selectedDelegationIndex = b1.m_selectedDelegationIndex ∧
        c2.m_selectedDelegationIndex = b2.m_selectedDelegationIndex) := by
  obtain ⟨es, nameBlock, name, sel, token, nonce, lifetime, idx, hel, _, hN, hnd, hsel, hT,
    hNo, hlt, hsd, rfl⟩ := (wireDecode_ok_iff E b1 c1 w).1 h1
  obtain ⟨es2, nameBlock2, name2, sel2, token2, nonce2, lifetime2, idx2, hel2, _, hN2, hnd2,
    hsel2, hT2, hNo2, hlt2, hsd2, rfl⟩ := (wireDecode_ok_iff E b2 c2 w).1 h2
  rw [hel] at hel2
  simp only [Option.some.injEq] at hel2
  subst hel2
  rw [hN] at hN2
  simp only [Option.some.injEq] at hN2
  subst hN2
  rw [hnd] at hnd2
  rw [hsel] at hsel2
  rw [hT] at hT2
  rw [hNo] at hNo2
  rw [hlt] at hlt2
  simp only [Option.some.injEq] at hnd2 hsel2 hT2 hNo2 hlt2
  subst hnd2 hsel2 hT2 hNo2 hlt2
  refine ⟨rfl, rfl, rfl, rfl, rfl, rfl, es, hel, ?_, ?_, ?_, ?_⟩
  · intro link hl
    simp [hl]
  · intro hl
    simp [hl]
  · intro val hv
    simp only
    rcases hsd with ⟨hS, _⟩ | ⟨v1, _, hS, _, hr, _, _⟩
    · rw [hS] at hv; simp at hv
    · rcases hsd2 with ⟨hS2, _⟩ | ⟨v2, _, hS2, _, hr2, _, _⟩
      · rw [hS2] at hv; simp at hv
      · rw [hS] at hS2
        simp only [Option.some.injEq] at hS2
        subst hS2
        rw [hr] at hr2
        simpa using hr2
  · intro hv
    simp only
    rcases hsd with ⟨_, e1⟩ | ⟨v1, _, hS, _⟩
    · rcases hsd2 with ⟨_, e2⟩ | ⟨v2, _, hS2, _⟩
      · exact ⟨e1, e2⟩
      · rw [hS2] at hv; simp at hv
    · rw [hS] at hv; simp at hv

/-- Claim C23 fails on the code for the link and the selected delegation.
`Sample.wirePlain` is a Bead block with Name, Token and Nonce and no link and no
SelectedDelegation element.  Decoding it succeeds both on `Sample.beadFull`
(which holds a link and has delegation 1 selected) and on a new bead; afterwards
the two agree on name, selectors, token, nonce and lifetime, but the first still
has its old link and selected delegation while the second has none.  Built with
`Bead(wire)`, whose `m_selectedDelegationIndex` has no initialiser, the bead has
whatever index the member held (7 here) and no link. -/
theorem C23_wireDecode_keeps_old_link_and_selection :
    Sample.wirePlain.elements = some [Sample.nameAB, Sample.tokenT, Sample.nonce1] ∧
    (Sample.beadFull.wireDecode Sample.env Sample.wirePlain).1 = .ok () ∧
    ((Bead.mk0 Sample.env).wireDecode Sample.env Sample.wirePlain).1 = .ok () ∧
    (Sample.beadFull.wireDecode Sample.env Sample.wirePlain).2.m_name =
      ((Bead.mk0 Sample.env).wireDecode Sample.env Sample.wirePlain).2.m_name ∧
    (Sample.beadFull.wireDecode Sample.env Sample.wirePlain).2.m_selectors =
      ((Bead.mk0 Sample.env).wireDecode Sample.env Sample.wirePlain).2.m_selectors ∧
    (Sample.beadFull.wireDecode Sample.env Sample.wirePlain).2.m_token =
      ((Bead.mk0 Sample.env).wireDecode Sample.env Sample.wirePlain).2.m_token ∧
    (Sample.beadFull.wireDecode Sample.env Sample.wirePlain).2.m_nonce =
      ((Bead.mk0 Sample.env).wireDecode Sample.env Sample.wirePlain).2.m_nonce ∧
    (Sample.beadFull.wireDecode Sample.env Sample.wirePlain).2.m_BeadLifetime =
      ((Bead.mk0 Sample.env).wireDecode Sample.env Sample.wirePlain).2.m_BeadLifetime ∧
    (Sample.beadFull.wireDecode Sample.env Sample.wirePlain).2.hasLink = true ∧
    (Sample.beadFull.wireDecode Sample.env Sample.wirePlain).2.m_link = Sample.link2 ∧
    (Sample.beadFull.wireDecode Sample.env Sample.wirePlain).2.hasSelectedDelegation = true ∧
    (Sample.beadFull.wireDecode Sample.env Sample.wirePlain).2.m_selectedDelegationIndex = 1 ∧
    ((Bead.mk0 Sample.env).wireDecode Sample.env Sample.wirePlain).2.hasLink = false ∧
    ((Bead.mk0 Sample.env).wireDecode Sample.env Sample.wirePlain).2.hasSelectedDelegation
      = false ∧
    (Bead.ofBlock Sample.env 0 7 Sample.wirePlain).1 = .ok () ∧
    (Bead.ofBlock Sample.env 0 7 Sample.wirePlain).2.hasLink = false ∧
    (Bead.ofBlock Sample.env 0 7 Sample.wirePlain).2.hasSelectedDelegation = true :=
  ⟨rfl, rfl, rfl, rfl, rfl, rfl, rfl, rfl, rfl, rfl, rfl, rfl, rfl, rfl, rfl, rfl, rfl⟩

/-- In every state reached by operations that succeed, the nonce block of a bead
with a cached wire lies inside that wire. -/
theorem reachableOk_nonceInWire (E : Env Comp Excl KL) (ht : TypesOk E.tlv)
    (b : Bead Comp Excl KL) (hr : Bead.ReachableOk E b) (hw : b.m_wire.hasWire = true) :
    b.NonceInWire :=
  (wireDecode_ok_nonce E b b b.m_wire (reachableOk_cache E ht b hr hw)).2.2.1

/-- Claim C10 fails on the code after a `wireDecode` that threw.
`Sample.beadCached` holds a cached wire with its four-octet nonce inside;
`wireDecode` of the Data block `Sample.link2` throws and leaves that block as the
cached wire, with the old nonce block outside it.  The bead (a reachable state)
has a cached wire and a four-octet nonce; `setNonce(0x9ABCDEF0)` takes the fast
path and keeps the cache, but writes into the old nonce block only: the block
`wireEncode()` returns is the rejected block, identical to the one before the
call, which holds no Nonce element and not the octets of `x`, while `getNonce()`
returns `x`. -/
theorem C10_setNonce_outside_cached_wire :
    (Sample.beadCached.wireDecode Sample.env Sample.link2).1 = .error .bead ∧
    Bead.Reachable Sample.env (Sample.beadCached.wireDecode Sample.env Sample.link2).2 ∧
    (Sample.beadCached.wireDecode Sample.env Sample.link2).2.hasWire = true ∧
    (Sample.beadCached.wireDecode Sample.env Sample.link2).2.m_nonce.value_size = 4 ∧
    ((Sample.beadCached.wireDecode Sample.env Sample.link2).2.wireEncode Sample.env 7).1 =
      .ok Sample.link2 ∧
    (Bead.setNonce Sample.env (Sample.beadCached.wireDecode Sample.env Sample.link2).2
      2596069104).hasWire = true ∧
    (Bead.wireEncode Sample.env
      (Bead.setNonce Sample.env (Sample.beadCached.wireDecode Sample.env Sample.link2).2
        2596069104) 7).1 = .ok Sample.link2 ∧
    (Sample.link2.elements.bind (fun es => findType Sample.env.tlv.Nonce es)) = none ∧
    (Bead.getNonce Sample.env
      (Bead.setNonce Sample.env (Sample.beadCached.wireDecode Sample.env Sample.link2).2
        2596069104) 7).1 = .ok 2596069104 ∧
    (Bead.setNonce Sample.env (Sample.beadCached.wireDecode Sample.env Sample.link2).2
      2596069104).m_nonce.value = [240, 222, 188, 154] :=
  ⟨rfl,
    Bead.Reachable.step _ _ (.wireDecode Sample.link2) (.error .bead)
      (Bead.Reachable.step _ Sample.beadCached (.wireEncode 305419896) (.ok ())
        (Bead.Reachable.step _ _ (.setToken [116]) (.ok ())
          (Bead.Reachable.mk1 [Sample.comp 97, Sample.comp 98]) rfl) rfl) rfl,
    rfl, rfl, rfl, rfl, rfl, rfl, rfl, rfl⟩

end CacheInvariant

/-! ## Rendering: theorems -/

section Rendering

variable {Comp Excl KL : Type} [DecidableEq Comp]

theorem specQueryFrom_append (d : Char) (ps : List String) (p : String) :
    Bead.specQueryFrom d (ps ++ [p]) =
      Bead.specQueryFrom d ps ++ (if ps.isEmpty then d else '&').toString ++ p := by
  induction ps generalizing d with
  | nil => simp [Bead.specQueryFrom]
  | cons q qs ih =>
    have h2 : (if qs.isEmpty then '&' else '&') = '&' := by split_ifs <;> rfl
    rw [List.cons_append, Bead.specQueryFrom, Bead.specQueryFrom, ih '&', h2]
    simp only [List.isEmpty_cons, Bool.false_eq_true, if_false, String.append_assoc]

/-- One block of `operator<<`: when the stream holds the name and the query of
the parameters `ps` and the delimiter is `?` exactly when `ps` is empty, the
stream after the block holds the query of `ps` with the new parameter. -/
theorem toUri_step (name os : String) (delim : Char) (ps : List String) (c : Prop)
    [Decidable c] (t1 t2 : String)
    (hos : os = name ++ Bead.specQueryFrom '?' ps)
    (hd : delim = if ps.isEmpty then '?' else '&') :
    (if c then (os ++ delim.toString ++ t1 ++ t2, '&') else (os, delim)) =
    (name ++ Bead.specQueryFrom '?' (ps ++ if c then [t1 ++ t2] else []),
      if (ps ++ if c then [t1 ++ t2] else []).isEmpty then '?' else '&') := by
  subst hos hd
  by_cases hc : c
  · simp only [hc, if_true, specQueryFrom_append, String.append_assoc]
    simp
  · simp only [hc, if_false, List.append_nil]

/-- What `toUri` returns: with no nonce set, the name and the query of the
parameters without a Nonce; with a nonce set, the error of `getNonce()` or the
name and the query of the parameters with the Nonce `getNonce()` returns. -/
theorem toUri_spec (E : Env Comp Excl KL) (nameUri : List Comp → String)
    (excludeUri : Excl → String) (b : Bead Comp Excl KL) (rnd : Nat) :
    b.toUri E nameUri excludeUri rnd =
      if b.hasNonce then
        match (b.getNonce E rnd).1 with
        | .error e => (.error e, b)
        | .ok v =>
          (.ok (nameUri b.m_name ++
            Bead.specQueryFrom '?' (Bead.specUriParameters E excludeUri b (some v))), b)
      else
        (.ok (nameUri b.m_name ++
          Bead.specQueryFrom '?' (Bead.specUriParameters E excludeUri b none)), b) := by
  have hfresh : (if b.getMustBeFresh ≠ 0 then ["ndn.MustBeFresh=" ++ toString b.getMustBeFresh]
      else []) = (if b.m_selectors.m_mustBeFresh then ["ndn.MustBeFresh=1"] else []) := by
    unfold Bead.getMustBeFresh
    cases b.m_selectors.m_mustBeFresh
    · simp
    · simp only [if_true]
      rfl
  have h0 : nameUri b.m_name = nameUri b.m_name ++ Bead.specQueryFrom '?' [] := by
    simp [Bead.specQueryFrom]
  have d0 : '?' = if ([] : List String).isEmpty then '?' else '&' := rfl
  have s1 := toUri_step (nameUri b.m_name) _ _ [] (0 ≤ b.getMinSuffixComponents)
    "ndn.MinSuffixComponents=" (toString b.getMinSuffixComponents) h0 d0
  obtain ⟨p1, hp1⟩ : ∃ p1, p1 = ([] : List String) ++
      if 0 ≤ b.getMinSuffixComponents then
        ["ndn.MinSuffixComponents=" ++ toString b.getMinSuffixComponents] else [] := ⟨_, rfl⟩
  rw [← hp1] at s1
  have s2 := toUri_step (nameUri b.m_name) _ _ p1 (0 ≤ b.getMaxSuffixComponents)
    "ndn.MaxSuffixComponents=" (toString b.getMaxSuffixComponents) rfl rfl
  obtain ⟨p2, hp2⟩ : ∃ p2, p2 = p1 ++
      if 0 ≤ b.getMaxSuffixComponents then
        ["ndn.MaxSuffixComponents=" ++ toString b.getMaxSuffixComponents] else [] := ⟨_, rfl⟩
  rw [← hp2] at s2
  have s3 := toUri_step (nameUri b.m_name) _ _ p2 (0 ≤ b.getChildSelector)
    "ndn.ChildSelector=" (toString b.getChildSelector) rfl rfl
  obtain ⟨p3, hp3⟩ : ∃ p3, p3 = p2 ++
      if 0 ≤ b.getChildSelector then
        ["ndn.ChildSelector=" ++ toString b.getChildSelector] else [] := ⟨_, rfl⟩
  rw [← hp3] at s3
  have s4 := toUri_step (nameUri b.m_name) _ _ p3 (b.getMustBeFresh ≠ 0)
    "ndn.MustBeFresh=" (toString b.getMustBeFresh) rfl rfl
  rw [hfresh] at s4
  obtain ⟨p4, hp4⟩ : ∃ p4, p4 = p3 ++
      if b.m_selectors.m_mustBeFresh then ["ndn.MustBeFresh=1"] else [] := ⟨_, rfl⟩
  rw [← hp4] at s4
  have s5 := toUri_step (nameUri b.m_name) _ _ p4
    (0 ≤ b.getBeadLifetime ∧ b.getBeadLifetime ≠ DEFAULT_Bead_LIFETIME)
    "ndn.BeadLifetime=" (toString b.getBeadLifetime) rfl rfl
  obtain ⟨p5, hp5⟩ : ∃ p5, p5 = p4 ++
      if 0 ≤ b.getBeadLifetime ∧ b.getBeadLifetime ≠ DEFAULT_Bead_LIFETIME then
        ["ndn.BeadLifetime=" ++ toString b.getBeadLifetime] else [] := ⟨_, rfl⟩
  rw [← hp5] at s5
  have hparams : ∀ nonce : Option Nat, Bead.specUriParameters E excludeUri b nonce =
      (p5 ++ (match nonce with
              | some v => ["ndn.Nonce=" ++ toString v]
              | none => [])) ++
        (if !E.excludeEmpty b.getExclude then ["ndn.Exclude=" ++ excludeUri b.getExclude]
         else []) := by
    intro nonce
    unfold Bead.specUriParameters
    rw [hp5, hp4, hp3, hp2, hp1, List.nil_append]
  unfold Bead.toUri
  simp only [s1, s2, s3, s4, s5]
  by_cases hn : b.hasNonce = true
  · have hst := getNonce_of_hasWire E b rnd hn
    rw [if_pos hn, if_pos hn]
    rcases hg : b.getNonce E rnd with ⟨r, b2⟩
    rw [hg] at hst
    simp only at hst
    subst hst
    cases r with
    | error e => rfl
    | ok v =>
      simp only
      rw [hparams (some v)]
      simp only [Prod.mk.injEq, and_true, Except.ok.injEq]
      by_cases hx : (!E.excludeEmpty b2.getExclude) = true
      · simp only [hx, if_true, specQueryFrom_append, String.append_assoc]
        simp
      · simp only [hx, if_false, List.append_nil, specQueryFrom_append, String.append_assoc,
          Bool.false_eq_true]
  · rw [if_neg hn, if_neg hn]
    rw [hparams none]
    simp only [Prod.mk.injEq, and_true, Except.ok.injEq, List.append_nil]
    by_cases hx : (!E.excludeEmpty b.getExclude) = true
    · simp only [hx, if_true, specQueryFrom_append, String.append_assoc]
    · simp only [hx, if_false, List.append_nil, Bool.false_eq_true]

/-- Claim C21.  `toUri` does not make a nonce.  The call leaves the bead as it
is, so `hasNonce()` is the same before and after.  With no nonce set the
rendering is the name's string followed by the parameters that are present, in
the order MinSuffixComponents, MaxSuffixComponents, ChildSelector, MustBeFresh,
BeadLifetime, Exclude, without a Nonce parameter, the first introduced by `?`
and each later one by `&`.  With a nonce set the Nonce parameter stands between
BeadLifetime and Exclude and holds the value `getNonce()` returns; when
`getNonce()` throws (a nonce block that is not 1, 2, 4 or 8 octets long) so
does `toUri`, and with a readable nonce the call returns a string. -/
theorem C21_toUri_keeps_nonce (E : Env Comp Excl KL) (nameUri : List Comp → String)
    (excludeUri : Excl → String) (b : Bead Comp Excl KL) (rnd : Nat) :
    (b.toUri E nameUri excludeUri rnd).2 = b ∧
    (b.toUri E nameUri excludeUri rnd).2.hasNonce = b.hasNonce ∧
    (b.hasNonce = false →
      (b.toUri E nameUri excludeUri rnd).1 =
        .ok (nameUri b.m_name ++
          Bead.specQueryFrom '?' (Bead.specUriParameters E excludeUri b none))) ∧
    (b.hasNonce = true → ∀ v, (b.getNonce E rnd).1 = .ok v →
      (b.toUri E nameUri excludeUri rnd).1 =
        .ok (nameUri b.m_name ++
          Bead.specQueryFrom '?' (Bead.specUriParameters E excludeUri b (some v)))) ∧
    (b.hasNonce = true → ∀ e, (b.getNonce E rnd).1 = .error e →
      (b.toUri E nameUri excludeUri rnd).1 = .error e) ∧
    (b.nonceReadable → ∃ s, (b.toUri E nameUri excludeUri rnd).1 = .ok s) := by
  have hs := toUri_spec E nameUri excludeUri b rnd
  have h2 : (b.toUri E nameUri excludeUri rnd).2 = b := by
    rw [hs]
    split_ifs
    · split <;> rfl
    · rfl
  have hno : b.hasNonce = false →
      (b.toUri E nameUri excludeUri rnd).1 =
        .ok (nameUri b.m_name ++
          Bead.specQueryFrom '?' (Bead.specUriParameters E excludeUri b none)) := by
    intro hn
    rw [hs, hn]
    simp
  have hyes : b.hasNonce = true → ∀ v, (b.getNonce E rnd).1 = .ok v →
      (b.toUri E nameUri excludeUri rnd).1 =
        .ok (nameUri b.m_name ++
          Bead.specQueryFrom '?' (Bead.specUriParameters E excludeUri b (some v))) := by
    intro hn v hv
    rw [hs, hn, hv]
    simp
  refine ⟨h2, by rw [h2], hno, hyes, ?_, ?_⟩
  · intro hn e he
    rw [hs, hn, he]
    simp
  · intro hr
    by_cases hn : b.hasNonce = true
    · obtain ⟨v, hv⟩ := getNonce_ok E b rnd hr
      exact ⟨_, hyes hn v hv⟩
    · exact ⟨_, hno (by simpa using hn)⟩

/-- Renderings in the sample environment: a bead without a nonce, a bead whose
nonce is set, a bead with every parameter, and a bead whose nonce has three
octets, for which `toUri` throws. -/
theorem Sample.toUri_samples :
    (Sample.beadFull.toUri Sample.env Sample.nameUri Sample.excludeUri 0).1 =
      .ok "/a/b?ndn.MinSuffixComponents=1&ndn.BeadLifetime=1000&ndn.Exclude=c" ∧
    Sample.beadFull.hasNonce = false ∧
    (Sample.beadFull.toUri Sample.env Sample.nameUri Sample.excludeUri 0).2.hasNonce = false ∧
    (Sample.beadCached.toUri Sample.env Sample.nameUri Sample.excludeUri 0).1 =
      .ok "/a/b?ndn.Nonce=305419896" ∧
    (Bead.toUri Sample.env Sample.nameUri Sample.excludeUri
        ((((Sample.beadFull.setChildSelector 1).setMustBeFresh true).setMaxSuffixComponents
          3).setNonce Sample.env 7) 0).1 =
      .ok ("/a/b?ndn.MinSuffixComponents=1&ndn.MaxSuffixComponents=3&ndn.ChildSelector=1" ++
        "&ndn.MustBeFresh=1&ndn.BeadLifetime=1000&ndn.Nonce=7&ndn.Exclude=c") ∧
    Sample.beadOddCached.hasNonce = true ∧
    (Sample.beadOddCached.toUri Sample.env Sample.nameUri Sample.excludeUri 0).1 =
      .error .tlv :=
  ⟨rfl, rfl, rfl, rfl, rfl, rfl, rfl⟩

end Rendering

/-! ## Matching: theorems -/

section Matching

variable {Comp Excl KL : Type} [DecidableEq Comp]

theorem isPrefixOf_iff (l₁ l₂ : List Comp) :
    l₁.isPrefixOf l₂ = true ↔ ∃ t, l₂ = l₁ ++ t := by
  rw [List.isPrefixOf_iff_prefix]
  constructor
  · rintro ⟨t, ht⟩; exact ⟨t, ht.symm⟩
  · rintro ⟨t, ht⟩; exact ⟨t, ht.symm⟩

/-- The decision procedure of `matchesName`, for every bead and candidate name. -/
theorem matchesName_spec (E : Env Comp Excl KL) (b : Bead Comp Excl KL) (n : List Comp) :
    b.matchesName E n = true ↔
      ((∃ t, n = b.m_name ++ t) ∧
       (b.getMinSuffixComponents < 0 ∨
          b.getMinSuffixComponents ≤ ((n.length - b.m_name.length : Nat) : Int)) ∧
       (b.getMaxSuffixComponents < 0 ∨
          ((n.length - b.m_name.length : Nat) : Int) ≤ b.getMaxSuffixComponents) ∧
       ¬ (E.excludeEmpty b.getExclude = false ∧ b.m_name.length < n.length ∧
          ∃ c, n[b.m_name.length]? = some c ∧ E.isExcluded b.getExclude c = true)) := by
  unfold Bead.matchesName
  by_cases hlen : n.length < b.m_name.length
  · simp only [hlen, if_true, Bool.false_eq_true, false_iff, not_and]
    rintro ⟨t, rfl⟩
    simp only [List.length_append] at hlen
    omega
  rw [if_neg hlen]
  by_cases hpre : b.m_name.isPrefixOf n = true
  swap
  · have : (!b.m_name.isPrefixOf n) = true := by
      cases hq : b.m_name.isPrefixOf n
      · rfl
      · exact absurd hq hpre
    rw [if_pos this]
    simp only [Bool.false_eq_true, false_iff, not_and]
    intro h
    exact absurd ((isPrefixOf_iff _ _).2 h) hpre
  have hpre2 := (isPrefixOf_iff _ _).1 hpre
  rw [if_neg (by simp [hpre])]
  by_cases hmin : 0 ≤ b.getMinSuffixComponents ∧
      ¬ (b.getMinSuffixComponents.toNat ≤ n.length - b.m_name.length)
  · rw [if_pos hmin]
    simp only [Bool.false_eq_true, false_iff, not_and]
    intro _ h
    omega
  rw [if_neg hmin]
  by_cases hmax : 0 ≤ b.getMaxSuffixComponents ∧
      ¬ (n.length - b.m_name.length ≤ b.getMaxSuffixComponents.toNat)
  · rw [if_pos hmax]
    simp only [Bool.false_eq_true, false_iff, not_and]
    intro _ _ h
    omega
  rw [if_neg hmax]
  have hmin2 : b.getMinSuffixComponents < 0 ∨
      b.getMinSuffixComponents ≤ ((n.length - b.m_name.length : Nat) : Int) := by omega
  have hmax2 : b.getMaxSuffixComponents < 0 ∨
      ((n.length - b.m_name.length : Nat) : Int) ≤ b.getMaxSuffixComponents := by omega
  cases hx : n[b.m_name.length]? with
  | none =>
    simp only [Bool.and_false, Bool.false_eq_true, if_false, true_iff]
    refine ⟨hpre2, hmin2, hmax2, ?_⟩
    rintro ⟨_, _, c, hc, _⟩
    simp at hc
  | some c =>
    simp only [hpre2, hmin2, hmax2, true_and]
    by_cases hl : b.m_name.length < n.length
    · by_cases he : E.excludeEmpty b.getExclude = true
      · simp [hl, he]
      · have he2 : E.excludeEmpty b.getExclude = false := by simpa using he
        by_cases hi : E.isExcluded b.getExclude c = true
        · simp [hl, he2, hi]
        · have hi2 : E.isExcluded b.getExclude c = false := by simpa using hi
          simp [hl, he2, hi2]
    · simp [hl]

/-- Claim C2.  `matchesName` is the decision procedure of the specification:
it holds exactly when the bead's name is a leading part of the candidate, the
number of further components respects `MinSuffixComponents` and
`MaxSuffixComponents` when these are set (non-negative), and the component right
after the bead's name is not excluded by a non-empty exclude filter.  The bead
`/a/b` with `MinSuffixComponents = 1` matches `/a/b/c` and not `/a/b`; with an
exclude filter holding `c`, `/a/b/c` no longer matches and `/a/b/d` still does. -/
theorem C2_matchesName_decision :
    (∀ (Comp Excl KL : Type) [DecidableEq Comp] (E : Env Comp Excl KL)
        (b : Bead Comp Excl KL) (n : List Comp),
      b.matchesName E n = true ↔
        ((∃ t, n = b.m_name ++ t) ∧
         (b.getMinSuffixComponents < 0 ∨
            b.getMinSuffixComponents ≤ ((n.length - b.m_name.length : Nat) : Int)) ∧
         (b.getMaxSuffixComponents < 0 ∨
            ((n.length - b.m_name.length : Nat) : Int) ≤ b.getMaxSuffixComponents) ∧
         ¬ (E.excludeEmpty b.getExclude = false ∧ b.m_name.length < n.length ∧
            ∃ c, n[b.m_name.length]? = some c ∧ E.isExcluded b.getExclude c = true))) ∧
    (let a := Sample.comp 97
     let b := Sample.comp 98
     let c := Sample.comp 99
     let d := Sample.comp 100
     let bead := (Bead.mk1 Sample.env [a, b]).setMinSuffixComponents 1
     let beadEx := bead.setExclude [c]
     bead.matchesName Sample.env [a, b, c] = true ∧
     bead.matchesName Sample.env [a, b] = false ∧
     beadEx.matchesName Sample.env [a, b, c] = false ∧
     beadEx.matchesName Sample.env [a, b, d] = true) := by
  refine ⟨?_, ?_⟩
  · intro Comp Excl KL _ E b n
    exact matchesName_spec E b n
  · decide

/-- `matchesData` succeeds exactly when each of its five checks passes. -/
theorem matchesData_iff (E : Env Comp Excl KL) (b : Bead Comp Excl KL) (data : Data Comp) :
    b.matchesData E data = true ↔
      (b.m_name.length +
          (if 0 ≤ b.getMinSuffixComponents then b.getMinSuffixComponents.toNat else 0)
          ≤ data.name.length + 1) ∧
      (0 ≤ b.getMaxSuffixComponents →
          data.name.length + 1 ≤ b.m_name.length + b.getMaxSuffixComponents.toNat) ∧
      b.prefixStep E data = true ∧ b.excludeStep E data = true ∧
      b.keyLocatorStep E data = true := by
  unfold Bead.matchesData
  simp only [decide_eq_true_eq]
  by_cases h1 : b.m_name.length +
      (if 0 ≤ b.getMinSuffixComponents then b.getMinSuffixComponents.toNat else 0)
      ≤ data.name.length + 1
  swap
  · simp [h1]
  by_cases h2 : 0 ≤ b.getMaxSuffixComponents ∧
      ¬ (data.name.length + 1 ≤ b.m_name.length + b.getMaxSuffixComponents.toNat)
  · have : ¬ (0 ≤ b.getMaxSuffixComponents →
        data.name.length + 1 ≤ b.m_name.length + b.getMaxSuffixComponents.toNat) :=
      fun h => h2.2 (h h2.1)
    simp [h1, h2, this]
  have h2b : (0 ≤ b.getMaxSuffixComponents →
      data.name.length + 1 ≤ b.m_name.length + b.getMaxSuffixComponents.toNat) := by
    intro h; by_contra hc; exact h2 ⟨h, hc⟩
  rw [if_neg (not_not.2 h1), if_neg h2]
  cases hp : b.prefixStep E data <;> cases he : b.excludeStep E data <;>
    simp [h1]
  exact fun _ => h2b

/-- What a passed name check of `matchesData` says. -/
theorem prefixStep_true (E : Env Comp Excl KL) (b : Bead Comp Excl KL) (data : Data Comp)
    (h : b.prefixStep E data = true) :
    (b.m_name.length = data.name.length + 1 →
      ∃ last, b.m_name.getLast? = some last ∧ E.isImplicitSha256Digest last = true ∧
        b.m_name = data.fullName) ∧
    (b.m_name.length ≠ data.name.length + 1 → ∃ t, data.name = b.m_name ++ t) := by
  unfold Bead.prefixStep at h
  simp only at h
  by_cases hl : b.m_name.length = data.name.length + 1
  · rw [if_pos hl] at h
    refine ⟨fun _ => ?_, fun hne => absurd hl hne⟩
    cases hlast : b.m_name.getLast? with
    | none => rw [hlast] at h; simp at h
    | some last =>
      rw [hlast] at h
      simp only at h
      by_cases hd : E.isImplicitSha256Digest last = true
      · rw [if_pos hd] at h
        by_cases hne : b.m_name ≠ data.fullName
        · rw [if_pos hne] at h; simp at h
        · exact ⟨last, rfl, hd, not_not.1 hne⟩
      · rw [if_neg hd] at h; simp at h
  · rw [if_neg hl] at h
    refine ⟨fun he => absurd he hl, fun _ => ?_⟩
    by_cases hp : b.m_name.isPrefixOf data.name = true
    · exact (isPrefixOf_iff _ _).1 hp
    · have : (!b.m_name.isPrefixOf data.name) = true := by
        cases hq : b.m_name.isPrefixOf data.name
        · rfl
        · exact absurd hq hp
      rw [if_pos this] at h; simp at h

/-- Claim C3.  The same-length rule of `matchesData`, with
`fullLen = data.name.length + 1`: a bead whose name has `fullLen` components
matches only if its last component is an implicit digest and its name is the
object's full name; if the last component is not a digest the result is false;
a bead with a shorter name matches only if its name is a leading part of the
object's name. -/
theorem C3_matchesData_same_length (E : Env Comp Excl KL) (b : Bead Comp Excl KL)
    (data : Data Comp) :
    (b.m_name.length = data.name.length + 1 → b.matchesData E data = true →
      ∃ last, b.m_name.getLast? = some last ∧ E.isImplicitSha256Digest last = true ∧
        b.m_name = data.fullName) ∧
    (b.m_name.length = data.name.length + 1 →
      (∀ last, b.m_name.getLast? = some last → E.isImplicitSha256Digest last = false) →
      b.matchesData E data = false) ∧
    (b.m_name.length < data.name.length + 1 → b.matchesData E data = true →
      ∃ t, data.name = b.m_name ++ t) := by
  refine ⟨fun hl hm => ?_, fun hl hnd => ?_, fun hl hm => ?_⟩
  · exact (prefixStep_true E b data ((matchesData_iff E b data).1 hm).2.2.1).1 hl
  · cases hm : b.matchesData E data with
    | false => rfl
    | true =>
      obtain ⟨last, h1, h2, _⟩ :=
        (prefixStep_true E b data ((matchesData_iff E b data).1 hm).2.2.1).1 hl
      rw [hnd last h1] at h2
      exact absurd h2 (by simp)
  · exact (prefixStep_true E b data ((matchesData_iff E b data).1 hm).2.2.1).2 (by omega)

/-- A same-length bead `/a/<digest>` matches the object `/a` with that digest,
and the bead `/a/b` of the same length does not. -/
theorem C3_matchesData_same_length_witness :
    let a := Sample.comp 97
    let dg := Sample.digest 7
    let data : Data Block := { name := [a], fullName := [a, dg], signatureInfo := [] }
    let bead := Bead.mk1 Sample.env [a, dg]
    bead.matchesData Sample.env data = true ∧
    (Bead.mk1 Sample.env [a, Sample.comp 98]).matchesData Sample.env data = false ∧
    (∃ last, bead.m_name.getLast? = some last ∧
      Sample.env.isImplicitSha256Digest last = true ∧ bead.m_name = data.fullName) := by
  intro a dg data bead
  have hm : bead.matchesData Sample.env data = true := by decide
  exact ⟨hm, by decide,
    (C3_matchesData_same_length Sample.env bead data).1 (by decide) hm⟩

/-- Claim C4.  The key-locator rule of `matchesData`.  When the bead's
`PublisherPublicKeyLocator` is set, a match needs a KeyLocator element in the
object's signature info whose octets equal the encoding of the bead's key
locator, and a signature info without a KeyLocator element gives `false` (the
result is a plain boolean, no error).  When it is not set, the signature info
has no influence on the result. -/
theorem C4_matchesData_keyLocator (E : Env Comp Excl KL) (b : Bead Comp Excl KL)
    (data : Data Comp) :
    (E.keyLocatorEmpty b.getPublisherPublicKeyLocator = false →
      (b.matchesData E data = true →
        ∃ it ∈ data.signatureInfo, it.type = E.tlv.KeyLocator ∧
          it.wire = (E.keyLocatorWireEncode b.getPublisherPublicKeyLocator).wire) ∧
      ((∀ it ∈ data.signatureInfo, it.type ≠ E.tlv.KeyLocator) →
        b.matchesData E data = false)) ∧
    (E.keyLocatorEmpty b.getPublisherPublicKeyLocator = true →
      ∀ sig : List Block,
        b.matchesData E { data with signatureInfo := sig } = b.matchesData E data) := by
  refine ⟨fun hk => ⟨fun hm => ?_, fun hno => ?_⟩, fun hk sig => ?_⟩
  · have hs := ((matchesData_iff E b data).1 hm).2.2.2.2
    unfold Bead.keyLocatorStep at hs
    simp only [hk, Bool.not_false, if_true] at hs
    cases hf : findType E.tlv.KeyLocator data.signatureInfo with
    | none => rw [hf] at hs; simp at hs
    | some it =>
      rw [hf] at hs
      simp only at hs
      obtain ⟨hmem, hty⟩ := findType_some hf
      refine ⟨it, hmem, hty, ?_⟩
      by_cases hsame : (E.keyLocatorWireEncode b.getPublisherPublicKeyLocator).same it = true
      · unfold Block.same at hsame
        simp only [decide_eq_true_eq] at hsame
        exact hsame.symm
      · have hsame2 : (E.keyLocatorWireEncode b.getPublisherPublicKeyLocator).same it = false := by
          simpa using hsame
        rw [hsame2] at hs
        simp at hs
  · cases hm : b.matchesData E data with
    | false => rfl
    | true =>
      have hs := ((matchesData_iff E b data).1 hm).2.2.2.2
      unfold Bead.keyLocatorStep at hs
      simp only [hk, Bool.not_false, if_true, findType_none hno] at hs
      simp at hs
  · have e1 : b.prefixStep E { data with signatureInfo := sig } = b.prefixStep E data := rfl
    have e2 : b.excludeStep E { data with signatureInfo := sig } = b.excludeStep E data := rfl
    have e3 : ∀ d : Data Comp, b.keyLocatorStep E d = true := by
      intro d; unfold Bead.keyLocatorStep; simp [hk]
    unfold Bead.matchesData
    simp only [e1, e2, e3]

/-- With the key locator `[1, 2]` set, an object whose signature info holds that
KeyLocator element matches and one with an empty signature info does not. -/
theorem C4_matchesData_keyLocator_witness :
    let a := Sample.comp 97
    let bead := (Bead.mk1 Sample.env [a]).setPublisherPublicKeyLocator (some [1, 2])
    let data : Data Block :=
      { name := [a], fullName := [a, Sample.digest 7],
        signatureInfo := [Sample.natBlock 27 1, Block.make 28 [1, 2]] }
    bead.matchesData Sample.env data = true ∧
    bead.matchesData Sample.env { data with signatureInfo := [Sample.natBlock 27 1] } = false ∧
    (∃ it ∈ data.signatureInfo, it.type = Sample.env.tlv.KeyLocator ∧
      it.wire = (Sample.env.keyLocatorWireEncode bead.getPublisherPublicKeyLocator).wire) := by
  intro a bead data
  have hm : bead.matchesData Sample.env data = true := by decide
  exact ⟨hm, by decide,
    ((C4_matchesData_keyLocator Sample.env bead data).1 (by decide)).1 hm⟩

/-- Claim C5.  A bead with `MaxSuffixComponents = 0` matches an object only if
the bead's last name component is an implicit digest and the bead's name is the
object's full name; a bead whose name is the object's name (without the digest)
does not match. -/
theorem C5_matchesData_maxSuffix_zero (E : Env Comp Excl KL) (b : Bead Comp Excl KL)
    (data : Data Comp) (hmax : b.getMaxSuffixComponents = 0) :
    (b.matchesData E data = true →
      ∃ last, b.m_name.getLast? = some last ∧ E.isImplicitSha256Digest last = true ∧
        b.m_name = data.fullName) ∧
    (b.m_name = data.name → b.matchesData E data = false) := by
  have key : b.matchesData E data = true → b.m_name.length = data.name.length + 1 := by
    intro hm
    obtain ⟨h1, h2, _⟩ := (matchesData_iff E b data).1 hm
    have h3 := h2 (by omega)
    rw [hmax] at h3
    simp only [Int.toNat_zero, Nat.add_zero] at h3
    split_ifs at h1 <;> omega
  refine ⟨fun hm => ?_, fun hn => ?_⟩
  · exact (prefixStep_true E b data ((matchesData_iff E b data).1 hm).2.2.1).1 (key hm)
  · cases hm : b.matchesData E data with
    | false => rfl
    | true =>
      have := key hm
      rw [hn] at this
      omega

/-- With `MaxSuffixComponents = 0`, the bead `/a/<digest>` matches the object `/a`
with that digest and the bead `/a` does not. -/
theorem C5_matchesData_maxSuffix_zero_witness :
    let a := Sample.comp 97
    let dg := Sample.digest 7
    let data : Data Block := { name := [a], fullName := [a, dg], signatureInfo := [] }
    let bead := (Bead.mk1 Sample.env [a, dg]).setMaxSuffixComponents 0
    bead.matchesData Sample.env data = true ∧
    ((Bead.mk1 Sample.env [a]).setMaxSuffixComponents 0).matchesData Sample.env data = false ∧
    (∃ last, bead.m_name.getLast? = some last ∧
      Sample.env.isImplicitSha256Digest last = true ∧ bead.m_name = data.fullName) := by
  intro a dg data bead
  have hm : bead.matchesData Sample.env data = true := by decide
  exact ⟨hm,
    (C5_matchesData_maxSuffix_zero Sample.env
      ((Bead.mk1 Sample.env [a]).setMaxSuffixComponents 0) data rfl).2 rfl,
    (C5_matchesData_maxSuffix_zero Sample.env bead data rfl).1 hm⟩

/-- Claim C20.  The matchers do not look at ChildSelector and MustBeFresh: two
beads with the same name, MinSuffixComponents, MaxSuffixComponents, Exclude and
PublisherPublicKeyLocator give the same `matchesName` result on every name and
the same `matchesData` result on every Data, whatever their other fields are. -/
theorem C20_matchers_ignore_childSelector_mustBeFresh (E : Env Comp Excl KL)
    (b1 b2 : Bead Comp Excl KL) (hn : b1.m_name = b2.m_name)
    (hmin : b1.getMinSuffixComponents = b2.getMinSuffixComponents)
    (hmax : b1.getMaxSuffixComponents = b2.getMaxSuffixComponents)
    (hex : b1.getExclude = b2.getExclude)
    (hkl : b1.getPublisherPublicKeyLocator = b2.getPublisherPublicKeyLocator) :
    (∀ name : List Comp, b1.matchesName E name = b2.matchesName E name) ∧
    (∀ data : Data Comp, b1.matchesData E data = b2.matchesData E data) := by
  refine ⟨?_, ?_⟩
  · intro name
    unfold Bead.matchesName
    rw [hn, hmin, hmax, hex]
  · intro data
    unfold Bead.matchesData Bead.prefixStep Bead.excludeStep Bead.keyLocatorStep
    rw [hn, hmin, hmax, hex, hkl]

/-- The sample bead `Sample.beadFull` (name `/a/b`) and the same bead with
`ChildSelector = 1` and `MustBeFresh` set: both match the name `/a/b/d` and the
Data named `/a/b`, and they agree on every name and every Data. -/
theorem C20_matchers_ignore_childSelector_mustBeFresh_witness :
    let b2 := (Sample.beadFull.setChildSelector 1).setMustBeFresh true
    let data : Data Block :=
      { name := [Sample.comp 97, Sample.comp 98],
        fullName := [Sample.comp 97, Sample.comp 98, Sample.digest 7], signatureInfo := [] }
    b2.m_selectors.m_childSelector ≠ Sample.beadFull.m_selectors.m_childSelector ∧
    b2.m_selectors.m_mustBeFresh ≠ Sample.beadFull.m_selectors.m_mustBeFresh ∧
    Sample.beadFull.matchesName Sample.env [Sample.comp 97, Sample.comp 98, Sample.comp 100]
      = true ∧
    b2.matchesName Sample.env [Sample.comp 97, Sample.comp 98, Sample.comp 100] = true ∧
    Sample.beadFull.matchesData Sample.env data = true ∧
    b2.matchesData Sample.env data = true ∧
    ((∀ name : List Block,
        Sample.beadFull.matchesName Sample.env name = b2.matchesName Sample.env name) ∧
      (∀ d : Data Block,
        Sample.beadFull.matchesData Sample.env d = b2.matchesData Sample.env d)) := by
  intro b2 data
  exact ⟨by decide, by decide, by decide, by decide, by decide, by decide,
    C20_matchers_ignore_childSelector_mustBeFresh Sample.env Sample.beadFull b2
      rfl rfl rfl rfl rfl⟩

/-- The name check of `matchesData` on a Data whose full name is its name and
one implicit digest component, for a bead name that is not longer than the full
name: the bead name is a prefix of the full name. -/
theorem prefixStep_fullName (E : Env Comp Excl KL) (b : Bead Comp Excl KL) (data : Data Comp)
    (d : Comp) (hfull : data.fullName = data.name ++ [d])
    (hd : E.isImplicitSha256Digest d = true)
    (hlen : b.m_name.length ≤ data.name.length + 1) :
    b.prefixStep E data = true ↔ ∃ t, data.fullName = b.m_name ++ t := by
  unfold Bead.prefixStep
  simp only
  by_cases hl : b.m_name.length = data.name.length + 1
  · rw [if_pos hl]
    constructor
    · intro h
      cases hlast : b.m_name.getLast? with
      | none => rw [hlast] at h; simp at h
      | some last =>
        rw [hlast] at h
        simp only at h
        split_ifs at h with h1 h2
        exact ⟨[], by simpa using (not_not.1 h2).symm⟩
    · rintro ⟨t, ht⟩
      have hlt : t = [] := by
        have := congrArg List.length ht
        rw [hfull] at this
        simp only [List.length_append, List.length_singleton] at this
        exact List.length_eq_zero.1 (by omega)
      subst hlt
      rw [List.append_nil] at ht
      have hlast : b.m_name.getLast? = some d := by
        rw [← ht, hfull]
        simp
      rw [hlast]
      simp only [hd, if_true, ht, ne_eq, not_true_eq_false, if_false]
  · rw [if_neg hl]
    have hle : b.m_name.length ≤ data.name.length := by omega
    have hiff : b.m_name.isPrefixOf data.name = true ↔ ∃ t, data.fullName = b.m_name ++ t := by
      rw [isPrefixOf_iff, hfull]
      constructor
      · rintro ⟨t, ht⟩
        exact ⟨t ++ [d], by rw [ht, List.append_assoc]⟩
      · rintro ⟨t, ht⟩
        refine ⟨data.name.drop b.m_name.length, ?_⟩
        have h1 := congrArg (List.take b.m_name.length) ht
        rw [List.take_append_of_le_length hle, List.take_left] at h1
        conv_lhs => rw [← List.take_append_drop b.m_name.length data.name]
        rw [h1]
    rw [← hiff]
    cases b.m_name.isPrefixOf data.name <;> simp

/-- The exclude check of `matchesData` on a Data whose full name is its name and
one more component: the component of the full name that follows the bead name is
not excluded. -/
theorem excludeStep_fullName (E : Env Comp Excl KL) (b : Bead Comp Excl KL) (data : Data Comp)
    (d : Comp) (hfull : data.fullName = data.name ++ [d]) :
    b.excludeStep E data = true ↔
      ¬ (E.excludeEmpty b.getExclude = false ∧ b.m_name.length < data.fullName.length ∧
          ∃ c, data.fullName[b.m_name.length]? = some c ∧
            E.isExcluded b.getExclude c = true) := by
  have hfl : data.fullName.length = data.name.length + 1 := by
    rw [hfull]; simp
  unfold Bead.excludeStep
  simp only
  rw [hfl]
  by_cases he : E.excludeEmpty b.getExclude = false
  swap
  · have he2 : E.excludeEmpty b.getExclude = true := by simpa using he
    simp [he2]
  by_cases hlt : b.m_name.length < data.name.length + 1
  swap
  · simp [hlt]
  have hc : (!E.excludeEmpty b.getExclude && decide (b.m_name.length < data.name.length + 1))
      = true := by simp [he, hlt]
  rw [if_pos hc]
  have hget : data.name.length + 1 - 1 = data.name.length := by omega
  rw [hget]
  by_cases heq : b.m_name.length = data.name.length
  · rw [if_pos heq]
    cases hg : data.fullName[b.m_name.length]? with
    | none => simp [he, hlt]
    | some c => simp [he, hlt]
  · rw [if_neg heq]
    have hlt2 : b.m_name.length < data.name.length := by omega
    have hsame : data.fullName[b.m_name.length]? = data.name[b.m_name.length]? := by
      rw [hfull, List.getElem?_append_left hlt2]
    rw [hsame]
    cases hg : data.name[b.m_name.length]? with
    | none => simp [he, hlt]
    | some c => simp [he, hlt]

/-- The key-locator check of `matchesData` passes exactly when the bead's
`PublisherPublicKeyLocator` is not set, or the KeyLocator element that
`signatureInfo.find` returns (the first one) has the octets of its encoding. -/
theorem keyLocatorStep_iff (E : Env Comp Excl KL) (b : Bead Comp Excl KL) (data : Data Comp) :
    b.keyLocatorStep E data = true ↔
      (E.keyLocatorEmpty b.getPublisherPublicKeyLocator = true ∨
        ∃ it, findType E.tlv.KeyLocator data.signatureInfo = some it ∧
          it.wire = (E.keyLocatorWireEncode b.getPublisherPublicKeyLocator).wire) := by
  unfold Bead.keyLocatorStep
  by_cases he : E.keyLocatorEmpty b.getPublisherPublicKeyLocator = true
  · simp [he]
  · have he2 : E.keyLocatorEmpty b.getPublisherPublicKeyLocator = false := by simpa using he
    simp only [he2, Bool.not_false, if_true, Bool.false_eq_true, false_or]
    cases hf : findType E.tlv.KeyLocator data.signatureInfo with
    | none => simp
    | some it =>
      simp only [Block.same, Option.some.injEq, exists_eq_left']
      by_cases hw : (E.keyLocatorWireEncode b.getPublisherPublicKeyLocator).wire = it.wire
      · simp [hw]
      · have hw2 : ¬ it.wire = (E.keyLocatorWireEncode b.getPublisherPublicKeyLocator).wire :=
          fun h => hw h.symm
        simp [hw, hw2]

/-- Claim C22.  `matchesData` agrees with `matchesName` on the full name.  For a
Data whose full name is its name followed by one implicit digest component,
`matchesData(data)` is `matchesName(data.getFullName())` together with the
key-locator check; that check passes when the bead's `PublisherPublicKeyLocator`
is not set or the KeyLocator element of the signature info (the first one, which
`find` returns) has the octets of its encoding; with no
`PublisherPublicKeyLocator` set the two operations return the same result. -/
theorem C22_matchesData_matchesName_fullName (E : Env Comp Excl KL) (b : Bead Comp Excl KL)
    (data : Data Comp) (d : Comp) (hfull : data.fullName = data.name ++ [d])
    (hd : E.isImplicitSha256Digest d = true) :
    b.matchesData E data = (b.matchesName E data.fullName && b.keyLocatorStep E data) ∧
    (b.keyLocatorStep E data = true ↔
      (E.keyLocatorEmpty b.getPublisherPublicKeyLocator = true ∨
        ∃ it, findType E.tlv.KeyLocator data.signatureInfo = some it ∧
          it.wire = (E.keyLocatorWireEncode b.getPublisherPublicKeyLocator).wire)) ∧
    (E.keyLocatorEmpty b.getPublisherPublicKeyLocator = true →
      b.matchesData E data = b.matchesName E data.fullName) := by
  have hfl : data.fullName.length = data.name.length + 1 := by
    rw [hfull]; simp
  have main : b.matchesData E data =
      (b.matchesName E data.fullName && b.keyLocatorStep E data) := by
    rw [Bool.eq_iff_iff, Bool.and_eq_true, matchesData_iff, matchesName_spec]
    by_cases hlen : b.m_name.length ≤ data.name.length + 1
    · rw [prefixStep_fullName E b data d hfull hd hlen, excludeStep_fullName E b data d hfull,
        hfl]
      have hmin : (b.m_name.length +
            (if 0 ≤ b.getMinSuffixComponents then b.getMinSuffixComponents.toNat else 0)
            ≤ data.name.length + 1) ↔
          (b.getMinSuffixComponents < 0 ∨
            b.getMinSuffixComponents ≤ ((data.name.length + 1 - b.m_name.length : Nat) : Int)) := by
        split_ifs with h0 <;> omega
      have hmax : (0 ≤ b.getMaxSuffixComponents →
            data.name.length + 1 ≤ b.m_name.length + b.getMaxSuffixComponents.toNat) ↔
          (b.getMaxSuffixComponents < 0 ∨
            ((data.name.length + 1 - b.m_name.length : Nat) : Int) ≤ b.getMaxSuffixComponents) := by
        constructor
        · intro h
          by_cases h0 : 0 ≤ b.getMaxSuffixComponents
          · have := h h0; omega
          · omega
        · intro h h0; omega
      rw [hmin, hmax]
      constructor
      · rintro ⟨h1, h2, h3, h4, h5⟩
        exact ⟨⟨h3, h1, h2, h4⟩, h5⟩
      · rintro ⟨⟨h3, h1, h2, h4⟩, h5⟩
        exact ⟨h1, h2, h3, h4, h5⟩
    · constructor
      · intro h
        have := h.1
        split_ifs at this <;> omega
      · rintro ⟨⟨⟨t, ht⟩, _⟩, _⟩
        have := congrArg List.length ht
        rw [hfl, List.length_append] at this
        omega
  refine ⟨main, keyLocatorStep_iff E b data, ?_⟩
  intro he
  rw [main, (keyLocatorStep_iff E b data).2 (Or.inl he), Bool.and_true]
/-- The bead `/a` with the key locator `[1, 2]` and the Data `/a` with a digest:
with that KeyLocator element in the signature info both `matchesData` and
`matchesName` on the full name hold; with an empty signature info `matchesName`
holds, the key-locator check fails and `matchesData` is false. -/
theorem C22_matchesData_matchesName_fullName_witness :
    let a := Sample.comp 97
    let bead := (Bead.mk1 Sample.env [a]).setPublisherPublicKeyLocator (some [1, 2])
    let data : Data Block :=
      { name := [a], fullName := [a, Sample.digest 7],
        signatureInfo := [Block.make 28 [1, 2]] }
    data.fullName = data.name ++ [Sample.digest 7] ∧
    Sample.env.isImplicitSha256Digest (Sample.digest 7) = true ∧
    bead.matchesData Sample.env data = true ∧
    bead.matchesName Sample.env data.fullName = true ∧
    bead.keyLocatorStep Sample.env data = true ∧
    bead.matchesData Sample.env { data with signatureInfo := [] } = false ∧
    bead.keyLocatorStep Sample.env { data with signatureInfo := [] } = false ∧
    bead.matchesData Sample.env data =
      (bead.matchesName Sample.env data.fullName && bead.keyLocatorStep Sample.env data) := by
  intro a bead data
  exact ⟨rfl, by decide, by decide, by decide, by decide, by decide, by decide,
    (C22_matchesData_matchesName_fullName Sample.env bead data (Sample.digest 7) rfl
      (by decide)).1⟩

end Matching

end ndn
